import Mathlib

/-! Verification of exrautocrop: the bounding box and the cropped copy of an
OpenEXR image.

A shallow embedding of `src/exrautocrop.cpp`.

* Coordinates (`int` in the source) are modelled as `Int`.  The OpenEXR
  library rejects headers whose windows come near the limits of `int`, so
  none of the additions of the source (`x++`, `y++`, `max - min + 1`)
  overflows on a header the library hands out.
* A `half` sample is modelled by its 16 bit pattern.  The only operation the
  source applies to a sample is the comparison `*it != 0.0`.
* The OpenEXR classes the source calls (`Header`, `ChannelList`,
  `FrameBuffer`, `Slice`, `InputFile`, `OutputFile`) are modelled by the
  part of their documented behaviour that the source relies on; every such
  definition says so in its doc comment.
-/

set_option autoImplicit false

namespace ExrAutocrop

/-! ## Imath: vectors and boxes -/

/-- Model of `Imath::V2i`: a point with integer coordinates. -/
structure V2i where
  x : Int
  y : Int
deriving DecidableEq, Repr

/-- Model of `Imath::Box2i`: a rectangle given by two inclusive corners. -/
structure Box2i where
  min : V2i
  max : V2i
deriving DecidableEq, Repr

/-- Model of `half`: the 16 bit pattern of the sample (sign bit 15, exponent
bits 14..10, mantissa bits 9..0). -/
structure Half where
  bits : Nat
deriving DecidableEq, Repr

/-- The test `*it != 0.0` of `get_scanline_bounding_box`.  The half is
widened exactly and compared with zero: the comparison is false for the two
zeros `0x0000` and `0x8000` only, and true for every other pattern (finite,
infinite or NaN). -/
def Half.isNonZero (h : Half) : Bool :=
  h.bits % 32768 != 0

/-- The half `0.0`. -/
def Half.zero : Half := ⟨0⟩

/-! ## The bounding box of one scanline (lines 37-70) -/

/-- Source `min_box`: a copy of `a` whose `max` corner is moved onto the
`min` corner. -/
def min_box (a : Box2i) : Box2i :=
  { min := a.min, max := { x := a.min.x, y := a.min.y } }

/-- Source `BoundingBox`: a box and the flag that says a pixel was seen. -/
structure BoundingBox where
  box : Box2i
  pixel_seen : Bool
deriving DecidableEq, Repr

/-- One iteration of the loop of `get_scanline_bounding_box` (lines 57-67):
the state is the result `r` and the running coordinate `x`. -/
def scanline_step (st : BoundingBox × Int) (v : Half) : BoundingBox × Int :=
  let r := st.1
  let x := st.2
  let r1 : BoundingBox :=
    if v.isNonZero then
      if r.pixel_seen == false then
        { box := { min := { x := x, y := r.box.min.y },
                   max := { x := x, y := r.box.max.y } },
          pixel_seen := true }
      else
        { box := { min := r.box.min, max := { x := x, y := r.box.max.y } },
          pixel_seen := r.pixel_seen }
    else r
  (r1, x + 1)

/-- Source `get_scanline_bounding_box`: scan the samples left to right,
starting at `x = data_window.min.x`. -/
def get_scanline_bounding_box (scanline : List Half) (data_window : Box2i) :
    BoundingBox :=
  (scanline.foldl scanline_step
    ({ box := min_box data_window, pixel_seen := false }, data_window.min.x)).1

/-! ## OpenEXR: errors, channels, attributes, headers -/

/-- The ways a call can fail: the two library exceptions the modelled calls
throw, the exception of `vector::resize` with a negative size, and an access
outside a vector (undefined behaviour in the source, a failure here). -/
inductive Exc where
  | argExc
  | typeExc
  | lengthError
  | badAccess
deriving DecidableEq, Repr

/-- Model of `Imf::PixelType`. -/
inductive PixelType where
  | UINT
  | HALF
  | FLOAT
deriving DecidableEq, Repr

/-- Model of `Imf::Compression`. -/
inductive Compression where
  | NO_COMPRESSION
  | RLE_COMPRESSION
  | ZIPS_COMPRESSION
  | ZIP_COMPRESSION
  | PIZ_COMPRESSION
  | PXR24_COMPRESSION
  | B44_COMPRESSION
  | B44A_COMPRESSION
deriving DecidableEq, Repr

/-- Model of `Imf::LineOrder`. -/
inductive LineOrder where
  | INCREASING_Y
  | DECREASING_Y
  | RANDOM_Y
deriving DecidableEq, Repr

/-- Model of `Imf::Channel`. -/
structure Channel where
  type : PixelType
  xSampling : Int
  ySampling : Int
  pLinear : Bool
deriving DecidableEq, Repr

/-- The constructor call `Channel(t)`: the other fields take the defaults of
the library (`xSampling = 1`, `ySampling = 1`, `pLinear = false`). -/
def Channel.ofType (t : PixelType) : Channel :=
  { type := t, xSampling := 1, ySampling := 1, pLinear := false }

/-- Model of `Imf::ChannelList`, a map from names to channels, as the list
of its entries in iteration order. -/
abbrev ChannelList := List (String × Channel)

/-- Model of `ChannelList::insert`: an empty name is refused, an existing
entry is overwritten, a new one is added. -/
def chlist_insert (cl : ChannelList) (name : String) (c : Channel) :
    Except Exc ChannelList :=
  if name = "" then .error .argExc
  else match cl.lookup name with
    | some _ => .ok (cl.map fun p => if p.1 = name then (p.1, c) else p)
    | none => .ok (cl ++ [(name, c)])

/-- Model of `Imf::Attribute`: the attribute types the program touches, and
`other` for every remaining type, kept as its type name and its bytes. -/
inductive Attribute where
  | box2i (v : Box2i)
  | chlist (v : ChannelList)
  | compression (v : Compression)
  | lineOrder (v : LineOrder)
  | float (bits : Nat)
  | v2f (xbits : Nat) (ybits : Nat)
  | tiledesc (xSize : Nat) (ySize : Nat) (mode : Nat)
  | other (typeName : String) (data : List Nat)
deriving DecidableEq, Repr

/-- Model of `Attribute::typeName`. -/
def Attribute.typeName : Attribute → String
  | .box2i _ => "box2i"
  | .chlist _ => "chlist"
  | .compression _ => "compression"
  | .lineOrder _ => "lineOrder"
  | .float _ => "float"
  | .v2f _ _ => "v2f"
  | .tiledesc _ _ _ => "tiledesc"
  | .other n _ => n

/-- Model of `Imf::Header`, a map from names to attributes, as the list of
its entries in iteration order. -/
abbrev Header := List (String × Attribute)

/-- Model of `Header::find`. -/
def header_find (h : Header) (name : String) : Option Attribute :=
  h.lookup name

/-- Assignment through the reference a typed accessor returns
(`h.compression() = ...`): the value stored under `name` is replaced. -/
def header_assign (h : Header) (name : String) (a : Attribute) : Header :=
  h.map fun p => if p.1 = name then (p.1, a) else p

/-- Model of `Header::insert`: an empty name is refused; a name that is
absent is added; a name that is present keeps its type, so a value of
another type is refused and a value of the same type replaces the old one. -/
def header_insert (h : Header) (name : String) (a : Attribute) :
    Except Exc Header :=
  if name = "" then .error .argExc
  else match header_find h name with
    | none => .ok (h ++ [(name, a)])
    | some old =>
      if old.typeName = a.typeName then .ok (header_assign h name a)
      else .error .typeExc

/-- Model of the constructor `Header(displayWindow, dataWindow)`: the eight
predefined attributes, the last six with the defaults of the library (the
floats are given by their bit patterns: `1.0f` is `0x3F800000`). -/
def header_create (displayWindow dataWindow : Box2i) : Header :=
  [ ("displayWindow", .box2i displayWindow),
    ("dataWindow", .box2i dataWindow),
    ("pixelAspectRatio", .float 0x3F800000),
    ("screenWindowCenter", .v2f 0 0),
    ("screenWindowWidth", .float 0x3F800000),
    ("lineOrder", .lineOrder .INCREASING_Y),
    ("compression", .compression .ZIP_COMPRESSION),
    ("channels", .chlist []) ]

/-- Model of `Header::dataWindow()`: the typed accessor fails when the
attribute is absent or has another type. -/
def header_dataWindow (h : Header) : Except Exc Box2i :=
  match header_find h "dataWindow" with
  | some (.box2i b) => .ok b
  | some _ => .error .typeExc
  | none => .error .argExc

/-- Model of `Header::displayWindow()`. -/
def header_displayWindow (h : Header) : Except Exc Box2i :=
  match header_find h "displayWindow" with
  | some (.box2i b) => .ok b
  | some _ => .error .typeExc
  | none => .error .argExc

/-- Model of `Header::channels()`. -/
def header_channels (h : Header) : Except Exc ChannelList :=
  match header_find h "channels" with
  | some (.chlist c) => .ok c
  | some _ => .error .typeExc
  | none => .error .argExc

/-- Model of `Header::compression()`. -/
def header_compression (h : Header) : Except Exc Compression :=
  match header_find h "compression" with
  | some (.compression c) => .ok c
  | some _ => .error .typeExc
  | none => .error .argExc

/-! ## OpenEXR: frame buffers and scanline input -/

/-- Model of `Imf::Slice` for a base pointer taken from one of the vectors
of `data`: `buf` is the index of that vector and `base` the distance in
bytes from its first element to the base pointer. -/
structure Slice where
  type : PixelType
  buf : Nat
  base : Int
  xStride : Int
  yStride : Int
  xSampling : Int
  ySampling : Int
  fillValue : Half
deriving DecidableEq, Repr

/-- Model of `Imf::FrameBuffer`, a map from channel names to slices. -/
abbrev FrameBuffer := List (String × Slice)

/-- Model of `FrameBuffer::insert`. -/
def framebuffer_insert (fb : FrameBuffer) (name : String) (s : Slice) :
    Except Exc FrameBuffer :=
  if name = "" then .error .argExc
  else match fb.lookup name with
    | some _ => .ok (fb.map fun p => if p.1 = name then (p.1, s) else p)
    | none => .ok (fb ++ [(name, s)])

/-- The source's `vector < vector < half > > data`. -/
abbrev Buffers := List (List Half)

/-- The address rule of a slice: pixel `(x, y)` lives at
`base + x * xStride + y * yStride`, here as a distance in bytes from the
first element of the vector. -/
def Slice.offset (s : Slice) (x y : Int) : Int :=
  s.base + x * s.xStride + y * s.yStride

/-- Store one half through a slice.  The address must fall on an element of
the vector the slice points into. -/
def buffers_store (data : Buffers) (s : Slice) (x y : Int) (v : Half) :
    Except Exc Buffers :=
  let off := s.offset x y
  match data.get? s.buf with
  | none => .error .badAccess
  | some b =>
    if 0 ≤ off ∧ off % 2 = 0 ∧ (off / 2).toNat < b.length then
      .ok (data.set s.buf (b.set (off / 2).toNat v))
    else .error .badAccess

/-- Load one half through a slice. -/
def buffers_load (data : Buffers) (s : Slice) (x y : Int) : Except Exc Half :=
  let off := s.offset x y
  match data.get? s.buf with
  | none => .error .badAccess
  | some b =>
    if 0 ≤ off ∧ off % 2 = 0 then
      match b.get? (off / 2).toNat with
      | some v => .ok v
      | none => .error .badAccess
    else .error .badAccess

/-- The values of a loop `for (int v = lo; v <= hi; v++)`, in order. -/
def intRange (lo hi : Int) : List Int :=
  (List.range (hi - lo + 1).toNat).map fun (i : Nat) => lo + (i : Int)

/-- Model of an open `Imf::InputFile`: its header, and for every channel
name and coordinate the sample as the library delivers it into a slice of
type `HALF`.  A file stored in tiles is read through the same interface. -/
structure InputFile where
  header : Header
  pixels : String → Int → Int → Half

/-- Model of `InputFile::setFrameBuffer`: a slice for a channel of the file
must have the sampling rates of that channel. -/
def inputfile_setFrameBuffer (file : InputFile) (fb : FrameBuffer) :
    Except Exc Unit := do
  let channels ← header_channels file.header
  if fb.all (fun p =>
      match channels.lookup p.1 with
      | some c => decide (c.xSampling = p.2.xSampling ∧ c.ySampling = p.2.ySampling)
      | none => true) then
    .ok ()
  else .error .argExc

/-- Model of `InputFile::readPixels(y)` (and `readPixels(y, y)`): the scan
line must lie in the data window; then for every slice of the frame buffer
and every `x` of the data window the sample of that channel (the slice's
fill value for a channel the file does not have) is stored at the address
of `(x, y)`. -/
def inputfile_readPixels (file : InputFile) (fb : FrameBuffer) (data : Buffers)
    (y : Int) : Except Exc Buffers := do
  let dw ← header_dataWindow file.header
  let channels ← header_channels file.header
  if y < dw.min.y ∨ dw.max.y < y then .error .argExc
  else
    fb.foldlM (fun d p =>
      (intRange dw.min.x dw.max.x).foldlM (fun d x =>
        buffers_store d p.2 x y
          (match channels.lookup p.1 with
           | some _ => file.pixels p.1 x y
           | none => p.2.fillValue)) d) data

/-! ## The bounding box of an image (lines 72-142) -/

/-- The call `data[index].resize(data_width)` followed by `&data[index][0]`:
a negative width is refused by `resize`, and a vector of width 0 has no
first element. -/
def resize_row (data : Buffers) (index : Nat) (data_width : Int) :
    Except Exc Buffers :=
  if data_width < 0 then .error .lengthError
  else if data_width = 0 then .error .badAccess
  else match data.get? index with
    | none => .error .badAccess
    | some b =>
      .ok (data.set index
        (b.take data_width.toNat ++
          List.replicate (data_width.toNat - b.length) Half.zero))

/-- The slice both functions of the source build for `data[index]`:
type `HALF`, base `(char *) &data[index][0] - 2 * data_window.min.x`,
x stride `sizeof(half)`, y stride 0, sampling 1 and 1, fill value 0.0. -/
def row_slice (index : Nat) (data_window : Box2i) : Slice :=
  { type := .HALF, buf := index, base := - 2 * data_window.min.x,
    xStride := 2 * 1, yStride := 2 * 0, xSampling := 1, ySampling := 1,
    fillValue := Half.zero }

/-- The loop "Setup Frame Buffers" (lines 94-105 and 203-215): the state is
`data`, the frame buffer and `index`. -/
def setup_frame_buffer (channels : ChannelList) (data_window : Box2i)
    (data_width : Int) (data : Buffers) :
    Except Exc (Buffers × FrameBuffer × Nat) :=
  channels.foldlM (fun st i => do
    let data ← resize_row st.1 st.2.2 data_width
    let fb ← framebuffer_insert st.2.1 i.1 (row_slice st.2.2 data_window)
    pure (data, fb, st.2.2 + 1)) (data, [], 0)

/-- Lines 123-137 of `get_bounding_box`: merge the result `s_r` of one
scanline of row `y` into the result `r`. -/
def merge_scanline (r s_r : BoundingBox) (y : Int) : BoundingBox :=
  if s_r.pixel_seen == true then
    if r.pixel_seen == false then
      { box := { min := { x := s_r.box.min.x, y := y },
                 max := { x := s_r.box.max.x, y := y } },
        pixel_seen := true }
    else
      { box := { min := { x := Min.min s_r.box.min.x r.box.min.x, y := r.box.min.y },
                 max := { x := Max.max s_r.box.max.x r.box.max.x, y := y } },
        pixel_seen := r.pixel_seen }
  else r

/-- The inner loop of `get_bounding_box` (lines 118-139) for row `y`: the
state is `r` and `index`. -/
def channels_loop (channels : ChannelList) (data : Buffers)
    (data_window : Box2i) (y : Int) (r : BoundingBox) : BoundingBox :=
  (channels.foldl (fun (st : BoundingBox × Nat) _ =>
    let s_r := get_scanline_bounding_box (data.getD st.2 []) data_window
    (merge_scanline st.1 s_r y, st.2 + 1)) (r, 0)).1

/-- Source `get_bounding_box`. -/
def get_bounding_box (file : InputFile) : Except Exc Box2i := do
  let data_window ← header_dataWindow file.header
  let _display_window ← header_displayWindow file.header
  let data_width := data_window.max.x - data_window.min.x + 1
  let channels ← header_channels file.header
  let channel_count := channels.length
  let data : Buffers := List.replicate channel_count []
  let (data, frame_buffer, _) ←
    setup_frame_buffer channels data_window data_width data
  inputfile_setFrameBuffer file frame_buffer
  let r : BoundingBox := { box := min_box data_window, pixel_seen := false }
  let (r, _) ← (intRange data_window.min.y data_window.max.y).foldlM
    (fun (st : BoundingBox × Buffers) y => do
      let data ← inputfile_readPixels file frame_buffer st.2 y
      pure (channels_loop channels data data_window y st.1, data))
    (r, data)
  pure r.box

/-! ## OpenEXR: scanline output -/

/-- Model of `Header::lineOrder()`. -/
def header_lineOrder (h : Header) : Except Exc LineOrder :=
  match header_find h "lineOrder" with
  | some (.lineOrder l) => .ok l
  | some _ => .error .typeExc
  | none => .error .argExc

/-- Model of an `Imf::OutputFile`: the header it was created with, its frame
buffer, the scan line the next `writePixels` stores, and the scan lines
stored so far (oldest first), each with its `y` and, per channel, the
samples for the `x` of the header's data window from left to right. -/
structure OutputFile where
  header : Header
  frameBuffer : FrameBuffer
  currentScanLine : Int
  scanLines : List (Int × List (String × List Half))

/-- Model of the constructor `OutputFile(name, header)`: the header must
have its windows, line order, compression and channels, and a data window
that is not empty; writing starts at the first scan line of the line
order. -/
def outputfile_create (h : Header) : Except Exc OutputFile := do
  let dw ← header_dataWindow h
  let _ ← header_displayWindow h
  let lo ← header_lineOrder h
  let _ ← header_compression h
  let _ ← header_channels h
  if dw.max.x < dw.min.x ∨ dw.max.y < dw.min.y then .error .argExc
  else
    .ok { header := h, frameBuffer := [],
          currentScanLine := if lo = .DECREASING_Y then dw.max.y else dw.min.y,
          scanLines := [] }

/-- Model of `OutputFile::setFrameBuffer`: a slice for a channel of the
file must have the pixel type and the sampling rates of that channel. -/
def outputfile_setFrameBuffer (out : OutputFile) (fb : FrameBuffer) :
    Except Exc OutputFile := do
  let channels ← header_channels out.header
  if channels.all (fun c =>
      match fb.lookup c.1 with
      | some s => decide (s.type = c.2.type ∧ s.xSampling = c.2.xSampling ∧
          s.ySampling = c.2.ySampling)
      | none => true) then
    .ok { out with frameBuffer := fb }
  else .error .argExc

/-- The samples `writePixels` collects for one channel of scan line `y`:
through the channel's slice for every `x` of the data window, or zeros when
the frame buffer has no slice for the channel. -/
def outputfile_collect (fb : FrameBuffer) (data : Buffers) (dw : Box2i)
    (y : Int) (name : String) : Except Exc (List Half) :=
  match fb.lookup name with
  | some s => (intRange dw.min.x dw.max.x).mapM fun x => buffers_load data s x y
  | none => .ok ((intRange dw.min.x dw.max.x).map fun _ => Half.zero)

/-- Model of `OutputFile::writePixels(1)`: store the current scan line, which
must lie in the data window of the header, and move on by one line. -/
def outputfile_writePixels (out : OutputFile) (data : Buffers) :
    Except Exc OutputFile := do
  let dw ← header_dataWindow out.header
  let lo ← header_lineOrder out.header
  let channels ← header_channels out.header
  let y := out.currentScanLine
  if y < dw.min.y ∨ dw.max.y < y then .error .argExc
  else
    let line ← channels.mapM fun c => do
      let samples ← outputfile_collect out.frameBuffer data dw y c.1
      pure (c.1, samples)
    .ok { out with
          currentScanLine := if lo = .DECREASING_Y then y - 1 else y + 1,
          scanLines := out.scanLines ++ [(y, line)] }

/-- The sample an output file stores for channel `name` at `(x, y)`, if it
stores one: scan line `y` must have been written, and `x` must lie in the
data window of the header. -/
def outputfile_sample (out : OutputFile) (name : String) (x y : Int) :
    Option Half :=
  match header_dataWindow out.header with
  | .ok dw =>
    if dw.min.x ≤ x ∧ x ≤ dw.max.x then
      match out.scanLines.lookup y with
      | some line =>
        match line.lookup name with
        | some samples => samples.get? (x - dw.min.x).toNat
        | none => none
      | none => none
    else none
  | .error _ => none

/-! ## The cropped copy (lines 144-227) -/

/-- The test of lines 173-177: the names of the attributes the copy loop
skips. -/
def is_derived_key (name : String) : Bool :=
  name == "channels" || name == "dataWindow" || name == "displayWindow" ||
  name == "lineOrder" || name == "tiles"

/-- The loop of lines 170-184: every attribute of the source header whose
name is not skipped is inserted into `h`. -/
def copy_attributes (src : Header) (h : Header) : Except Exc Header :=
  src.foldlM (fun h i =>
    if is_derived_key i.1 then pure h
    else header_insert h i.1 i.2) h

/-- The loop of lines 190-193: for every channel of the source a channel of
type `HALF` is inserted into the channel list of `h`; the state is `h` and
`channel_count`. -/
def copy_channels (channels : ChannelList) (h : Header) :
    Except Exc (Header × Nat) :=
  channels.foldlM (fun st i => do
    let cl ← header_channels st.1
    let cl ← chlist_insert cl i.1 (Channel.ofType .HALF)
    pure (header_assign st.1 "channels" (.chlist cl), st.2 + 1)) (h, 0)

/-- Lines 149-195 of `autocrop`: the header of the output file, built from
the header of the source and the bounding box. -/
def autocrop_header (in_file : InputFile) (bounding_box : Box2i) :
    Except Exc (Header × Nat) := do
  let _data_window ← header_dataWindow in_file.header
  let display_window ← header_displayWindow in_file.header
  let h := header_create display_window bounding_box
  let h ← copy_attributes in_file.header h
  let channels ← header_channels in_file.header
  let (h, channel_count) ← copy_channels channels h
  let _ ← header_compression h
  let h := header_assign h "compression" (.compression .ZIPS_COMPRESSION)
  pure (h, channel_count)

/-- Lines 197-225 of `autocrop`: create the output file with header `h`, set
up one row buffer per channel, hand the same frame buffer to the reader and
to the writer, and for every `y` of the bounding box read one scan line and
write one scan line. -/
def autocrop_copy (in_file : InputFile) (bounding_box : Box2i) (h : Header)
    (channel_count : Nat) : Except Exc OutputFile := do
  let data_window ← header_dataWindow in_file.header
  let data_width := data_window.max.x - data_window.min.x + 1
  let channels ← header_channels in_file.header
  let out_file ← outputfile_create h
  let data : Buffers := List.replicate channel_count []
  let (data, frame_buffer, _) ←
    setup_frame_buffer channels data_window data_width data
  inputfile_setFrameBuffer in_file frame_buffer
  let out_file ← outputfile_setFrameBuffer out_file frame_buffer
  let (out_file, _) ← (intRange bounding_box.min.y bounding_box.max.y).foldlM
    (fun (st : OutputFile × Buffers) y => do
      let data ← inputfile_readPixels in_file frame_buffer st.2 y
      let out ← outputfile_writePixels st.1 data
      pure (out, data))
    (out_file, data)
  pure out_file

/-- Source `autocrop`, for an input file that has been opened: the result is
the output file. -/
def autocrop (in_file : InputFile) : Except Exc OutputFile := do
  let bounding_box ← get_bounding_box in_file
  let (h, channel_count) ← autocrop_header in_file bounding_box
  autocrop_copy in_file bounding_box h channel_count

/-! ## Vocabulary of the statements: rows, invariants, well-formed inputs,
scenarios -/

/-- The state of the scan of one row after the samples `l` have been read:
`x` has advanced by the number of samples, the `y` fields are untouched, and
the box records the first and the last index of a sample that is not zero. -/
def ScanInv (dw : Box2i) (l : List Half) (st : BoundingBox × Int) : Prop :=
  st.2 = dw.min.x + (l.length : Int) ∧
  st.1.box.min.y = dw.min.y ∧ st.1.box.max.y = dw.min.y ∧
  (st.1.pixel_seen = false →
    st.1.box = min_box dw ∧ ∀ v ∈ l, v.isNonZero = false) ∧
  (st.1.pixel_seen = true →
    ∃ i j : Nat,
      (∃ v, l.get? i = some v ∧ v.isNonZero = true) ∧
      (∃ v, l.get? j = some v ∧ v.isNonZero = true) ∧
      st.1.box.min.x = dw.min.x + (i : Int) ∧
      st.1.box.max.x = dw.min.x + (j : Int) ∧
      ∀ k v, l.get? k = some v → v.isNonZero = true → i ≤ k ∧ k ≤ j)

/-- The frame buffer the set-up loop builds: channel number `i` of the list
gets the slice into `data[i]`. -/
def frame_buffer_of (cs : ChannelList) (dw : Box2i) : FrameBuffer :=
  cs.enum.map fun p => (p.2.1, row_slice p.1 dw)

/-- Row `y` of channel `name`: the samples for the `x` of the data window,
from left to right. -/
def image_row (file : InputFile) (dw : Box2i) (name : String) (y : Int) : List Half :=
  (intRange dw.min.x dw.max.x).map fun x => file.pixels name x y

/-- What the library guarantees for the channel list of an opened file, and
what the slices of the program require of it: the names are distinct and
not empty, and no channel is subsampled. -/
def channels_wellFormed (cs : ChannelList) : Prop :=
  (cs.map Prod.fst).Nodup ∧ (∀ c ∈ cs, c.1 ≠ "") ∧
  (∀ c ∈ cs, c.2.xSampling = 1 ∧ c.2.ySampling = 1)

/-- An image the bounding-box pass can read: the header has the data window
`dw`, the display window `disp` and the channel list `cs`, the data window is
not empty, and the channel list is well formed. -/
def image_wellFormed (file : InputFile) (dw disp : Box2i) (cs : ChannelList) : Prop :=
  header_dataWindow file.header = .ok dw ∧
  header_displayWindow file.header = .ok disp ∧
  header_channels file.header = .ok cs ∧
  dw.min.x ≤ dw.max.x ∧ dw.min.y ≤ dw.max.y ∧
  channels_wellFormed cs

/-- The channel loop of one row, on the rows of the image themselves. -/
def merge_row (file : InputFile) (dw : Box2i) (cs : ChannelList) (r : BoundingBox)
    (y : Int) : BoundingBox :=
  cs.foldl (fun r c =>
    merge_scanline r (get_scanline_bounding_box (image_row file dw c.1 y) dw) y) r

/-- The two loops of `get_bounding_box`, on the rows of the image
themselves. -/
def bounding_box_of (file : InputFile) (dw : Box2i) (cs : ChannelList) : BoundingBox :=
  (intRange dw.min.y dw.max.y).foldl (merge_row file dw cs)
    { box := min_box dw, pixel_seen := false }

/-- The sample of channel `name` at `(x, y)` is not zero. -/
def nonzero_at (file : InputFile) (name : String) (x y : Int) : Prop :=
  (file.pixels name x y).isNonZero = true

/-- The result `r` of the bounding-box pass after the rows `done` (pairs of
a channel name and a `y`) have been merged: without a pixel seen the box is
still `min_box` and the rows hold zeros only; with a pixel seen the box holds
every sample of these rows that is not zero, and each of its four edges is
attained by such a sample. -/
def BoxInv (file : InputFile) (dw : Box2i) (done : String → Int → Prop)
    (r : BoundingBox) : Prop :=
  (r.pixel_seen = false →
    r.box = min_box dw ∧
    ∀ c y x, done c y → dw.min.x ≤ x → x ≤ dw.max.x → ¬ nonzero_at file c x y) ∧
  (r.pixel_seen = true →
    (∀ c y x, done c y → dw.min.x ≤ x → x ≤ dw.max.x → nonzero_at file c x y →
      r.box.min.x ≤ x ∧ x ≤ r.box.max.x ∧ r.box.min.y ≤ y ∧ y ≤ r.box.max.y) ∧
    dw.min.x ≤ r.box.min.x ∧ r.box.min.x ≤ r.box.max.x ∧ r.box.max.x ≤ dw.max.x ∧
    (∃ c y, done c y ∧ nonzero_at file c r.box.min.x y) ∧
    (∃ c y, done c y ∧ nonzero_at file c r.box.max.x y) ∧
    (∃ c x, done c r.box.min.y ∧ dw.min.x ≤ x ∧ x ≤ dw.max.x ∧
      nonzero_at file c x r.box.min.y) ∧
    (∃ c x, done c r.box.max.y ∧ dw.min.x ≤ x ∧ x ≤ dw.max.x ∧
      nonzero_at file c x r.box.max.y))

/-- Coordinate `(x, y)` of the data window is occupied: some channel of the
list has a sample there that is not zero. -/
def occupied (file : InputFile) (dw : Box2i) (cs : ChannelList) (x y : Int) : Prop :=
  dw.min.x ≤ x ∧ x ≤ dw.max.x ∧ dw.min.y ≤ y ∧ y ≤ dw.max.y ∧
  ∃ c ∈ cs, nonzero_at file c.1 x y

/-- The box `bb` is the minimal rectangle around the occupied coordinates:
`min.x` and `max.x` are the least and the greatest occupied `x`, `min.y` and
`max.y` the least and the greatest occupied `y`. -/
def IsBoundingWindow (file : InputFile) (dw : Box2i) (cs : ChannelList)
    (bb : Box2i) : Prop :=
  ((∃ y, occupied file dw cs bb.min.x y) ∧ ∀ x y, occupied file dw cs x y → bb.min.x ≤ x) ∧
  ((∃ y, occupied file dw cs bb.max.x y) ∧ ∀ x y, occupied file dw cs x y → x ≤ bb.max.x) ∧
  ((∃ x, occupied file dw cs x bb.min.y) ∧ ∀ x y, occupied file dw cs x y → bb.min.y ≤ y) ∧
  ((∃ x, occupied file dw cs x bb.max.y) ∧ ∀ x y, occupied file dw cs x y → y ≤ bb.max.y)

/-- The header of a scanline file with the given windows and channels, the
other predefined attributes at the defaults of the library. -/
def scenario_header (disp dw : Box2i) (cs : ChannelList) : Header :=
  [ ("channels", .chlist cs),
    ("compression", .compression .PIZ_COMPRESSION),
    ("dataWindow", .box2i dw),
    ("displayWindow", .box2i disp),
    ("lineOrder", .lineOrder .INCREASING_Y),
    ("pixelAspectRatio", .float 0x3F800000),
    ("screenWindowCenter", .v2f 0 0),
    ("screenWindowWidth", .float 0x3F800000) ]

/-- The half `1.0`. -/
def Half.one : Half := ⟨0x3C00⟩

/-- The first scenario of the specification: data window (0,0)-(9,9), one
channel, samples that are not zero in rows 3..5 at x = 2..7 only. -/
def scenario_block : InputFile :=
  InputFile.mk
    (scenario_header ⟨⟨0, 0⟩, ⟨9, 9⟩⟩ ⟨⟨0, 0⟩, ⟨9, 9⟩⟩ [("R", Channel.ofType .FLOAT)])
    (fun _ x y => if 3 ≤ y ∧ y ≤ 5 ∧ 2 ≤ x ∧ x ≤ 7 then Half.one else Half.zero)

/-- An image whose samples are all zero, with a data window whose origin is
not `(0, 0)`. -/
def scenario_zero : InputFile :=
  InputFile.mk
    (scenario_header ⟨⟨0, 0⟩, ⟨9, 9⟩⟩ ⟨⟨-5, -3⟩, ⟨4, 6⟩⟩
      [("A", Channel.ofType .HALF), ("B", Channel.ofType .FLOAT)])
    (fun _ _ _ => Half.zero)

/-- An image with one sample that is not zero, in channel `B` at `(2, -1)`. -/
def scenario_point : InputFile :=
  InputFile.mk
    (scenario_header ⟨⟨0, 0⟩, ⟨9, 9⟩⟩ ⟨⟨-5, -3⟩, ⟨4, 6⟩⟩
      [("A", Channel.ofType .HALF), ("B", Channel.ofType .FLOAT)])
    (fun c x y => if c = "B" ∧ x = 2 ∧ y = -1 then Half.one else Half.zero)

/-- The image `file` with its channel list reduced to the one channel `c`. -/
def only_channel (file : InputFile) (c : String × Channel) : InputFile :=
  InputFile.mk (header_assign file.header "channels" (.chlist [c])) file.pixels

/-- The smallest rectangle that encloses the boxes `a` and `b`. -/
def box_hull (a b : Box2i) : Box2i :=
  { min := { x := Min.min a.min.x b.min.x, y := Min.min a.min.y b.min.y },
    max := { x := Max.max a.max.x b.max.x, y := Max.max a.max.y b.max.y } }

/-- The second scenario of the specification: channel `A` is not zero at
`(0, 0)` only, channel `B` at `(9, 9)` only. -/
def scenario_corners : InputFile :=
  InputFile.mk
    (scenario_header ⟨⟨0, 0⟩, ⟨9, 9⟩⟩ ⟨⟨0, 0⟩, ⟨9, 9⟩⟩
      [("A", Channel.ofType .HALF), ("B", Channel.ofType .HALF)])
    (fun c x y => if (c = "A" ∧ x = 0 ∧ y = 0) ∨ (c = "B" ∧ x = 9 ∧ y = 9)
      then Half.one else Half.zero)

/-- The names and types of the predefined attributes, which every header of
the library holds. -/
def predefined_types : List (String × String) :=
  [ ("displayWindow", "box2i"), ("dataWindow", "box2i"),
    ("pixelAspectRatio", "float"), ("screenWindowCenter", "v2f"),
    ("screenWindowWidth", "float"), ("lineOrder", "lineOrder"),
    ("compression", "compression"), ("channels", "chlist") ]

/-- The type names of the attribute types the model spells out; an attribute
of any other type is an `Attribute.other`. -/
def known_type_names : List String :=
  ["box2i", "chlist", "compression", "lineOrder", "float", "v2f", "tiledesc"]

/-- An `Attribute.other` has none of the type names the model spells out. -/
def attribute_ok : Attribute → Bool
  | .other n _ => !(known_type_names.contains n)
  | _ => true

/-- What the library guarantees for the header of an opened file: the names
are distinct (the header is a map) and not empty, the predefined attributes
are present with their types, and an `Attribute.other` has none of the type
names the model spells out. -/
def header_wellFormed (h : Header) : Prop :=
  (h.map Prod.fst).Nodup ∧ (∀ p ∈ h, p.1 ≠ "") ∧
  (∀ q ∈ predefined_types, (header_find h q.1).map Attribute.typeName = some q.2) ∧
  (∀ p ∈ h, attribute_ok p.2 = true)

/-- A source `autocrop` can process: an image the bounding-box pass can
read, with a well-formed header. -/
def source_wellFormed (file : InputFile) (dw disp : Box2i) (cs : ChannelList) : Prop :=
  image_wellFormed file dw disp cs ∧ header_wellFormed file.header

/-- What the header `autocrop` builds holds under the name `k`: the fixed
compression, the channels of the source as `HALF`, for the other names the
copy loop skips what the constructor `Header(display_window, bounding_box)`
put there, and for every remaining name the attribute of the source, or the
constructor's when the source has none. -/
def cropped_header_find (src : Header) (disp bb : Box2i) (cs : ChannelList)
    (k : String) : Option Attribute :=
  if k = "compression" then some (.compression .ZIPS_COMPRESSION)
  else if k = "channels" then
    some (.chlist (cs.map fun c => (c.1, Channel.ofType .HALF)))
  else if is_derived_key k = true then header_find (header_create disp bb) k
  else match header_find src k with
    | some a => some a
    | none => header_find (header_create disp bb) k

/-- Scan line `y` of the cropped image: for every channel the samples of the
source for the `x` of the bounding box. -/
def cropped_line (file : InputFile) (bb : Box2i) (cs : ChannelList) (y : Int) :
    Int × List (String × List Half) :=
  (y, cs.map fun c => (c.1, (intRange bb.min.x bb.max.x).map fun x => file.pixels c.1 x y))

/-- The output file `autocrop` produces for the bounding box `bb` and the
header `h`: the scan lines of `bb`, top to bottom. -/
def cropped_file (file : InputFile) (dw bb : Box2i) (cs : ChannelList) (h : Header) :
    OutputFile :=
  { header := h, frameBuffer := frame_buffer_of cs dw,
    currentScanLine := bb.max.y + 1,
    scanLines := (intRange bb.min.y bb.max.y).map (cropped_line file bb cs) }

/-- A source stored in tiles, with an attribute of a type the model does not
spell out, a compression other than `ZIPS_COMPRESSION`, a line order other
than `INCREASING_Y`, channels of two pixel types, and a data window whose
origin is not `(0, 0)`.  Channel `A` is not zero at `(-1, 3)`, channel `B`
at `(2, -1)`. -/
def scenario_tiled : InputFile :=
  InputFile.mk
    [ ("channels", .chlist [("A", Channel.ofType .UINT), ("B", Channel.ofType .FLOAT)]),
      ("comments", .other "string" [104, 105]),
      ("compression", .compression .PIZ_COMPRESSION),
      ("dataWindow", .box2i ⟨⟨-5, -3⟩, ⟨4, 6⟩⟩),
      ("displayWindow", .box2i ⟨⟨0, 0⟩, ⟨9, 9⟩⟩),
      ("lineOrder", .lineOrder .DECREASING_Y),
      ("pixelAspectRatio", .float 0x3F800000),
      ("screenWindowCenter", .v2f 0 0),
      ("screenWindowWidth", .float 0x3F800000),
      ("tiles", .tiledesc 32 32 0) ]
    (fun c x y => if (c = "A" ∧ x = -1 ∧ y = 3) ∨ (c = "B" ∧ x = 2 ∧ y = -1)
      then Half.one else Half.zero)

/-- The header a header-building pass that copies nothing from the source
attributes would produce: the constructor's attributes and the `HALF`
channel list. -/
def derived_header (disp bb : Box2i) (cs : ChannelList) : Header :=
  header_assign (header_create disp bb) "channels"
    (.chlist (cs.map fun c => (c.1, Channel.ofType .HALF)))

/-! ## Vocabulary of the statements on single rows and on addressing -/

/-- Index `i` is the first index of `l` that holds a sample that is not
zero. -/
def first_nonzero (l : List Half) (i : Nat) : Prop :=
  (∃ v, l.get? i = some v ∧ v.isNonZero = true) ∧
  ∀ k v, l.get? k = some v → v.isNonZero = true → i ≤ k

/-- Index `j` is the last index of `l` that holds a sample that is not
zero. -/
def last_nonzero (l : List Half) (j : Nat) : Prop :=
  (∃ v, l.get? j = some v ∧ v.isNonZero = true) ∧
  ∀ k v, l.get? k = some v → v.isNonZero = true → k ≤ j

/-- The bit pattern is a NaN: the exponent bits 14..10 are all ones and the
mantissa bits 9..0 are not all zero (either sign). -/
def Half.isNaN (h : Half) : Bool :=
  (h.bits / 1024) % 32 == 31 && h.bits % 1024 != 0

/-- A quiet NaN, `0x7E00`. -/
def Half.qnan : Half := ⟨0x7E00⟩

/-- The image `file` with its channel list replaced by `cs` (the samples are
kept). -/
def with_channels (file : InputFile) (cs : ChannelList) : InputFile :=
  InputFile.mk (header_assign file.header "channels" (.chlist cs)) file.pixels

/-- The box `b` moved by `(dx, dy)`. -/
def shift_box (b : Box2i) (dx dy : Int) : Box2i :=
  { min := { x := b.min.x + dx, y := b.min.y + dy },
    max := { x := b.max.x + dx, y := b.max.y + dy } }

/-- The image `file`, whose data window is `dw`, moved by `(dx, dy)`: the
data window is moved, and the sample the new image has at `(x, y)` is the
sample `file` has at `(x - dx, y - dy)`. -/
def shift_image (file : InputFile) (dw : Box2i) (dx dy : Int) : InputFile :=
  InputFile.mk (header_assign file.header "dataWindow" (.box2i (shift_box dw dx dy)))
    (fun c x y => file.pixels c (x - dx) (y - dy))

/-! ## The entry point (lines 235-261) -/

/-- The loop of lines 244-249 of `main` over the values of `i`: the first
argument `argv[i]` that equals `"-h"` makes `main` return 1. -/
def help_loop (argv : List String) : List Nat → Option Int
  | [] => none
  | i :: rest => if argv.getD i "" = "-h" then some 1 else help_loop argv rest

/-- Source `main`.  `argv` holds the program name and the arguments, so
`argc` is its length; `run a b` is the outcome of the call
`autocrop(a, b)`: it completes, or it throws an exception, which the handler
of `main` catches.  The result is the exit code together with the calls of
`autocrop` that `main` made. -/
def main (argv : List String) (run : String → String → Except Exc Unit) :
    Int × List (String × String) :=
  let argc := argv.length
  if argc < 3 then (1, [])
  else
    match help_loop argv ((List.range argc).drop 1) with
    | some code => (code, [])
    | none =>
      match run (argv.getD 1 "") (argv.getD 2 "") with
      | .ok _ => (0, [(argv.getD 1 "", argv.getD 2 "")])
      | .error _ => (1, [(argv.getD 1 "", argv.getD 2 "")])

/-! ## The copy pass with a record of its calls -/

/-- A call the copy loop makes: `readPixels` for scan line `y` of the
source, or `writePixels`, which stores scan line `y` of the output. -/
inductive RowEvent where
  | read (y : Int)
  | write (y : Int)
deriving DecidableEq, Repr

/-- Lines 197-225 of `autocrop` as in `autocrop_copy`, with a record of the
calls of the loop in the order they are made: the `y` of a `read` is the
argument of `readPixels`, the `y` of a `write` is the current scan line of
the output file when `writePixels` is called. -/
def autocrop_copy_events (in_file : InputFile) (bounding_box : Box2i) (h : Header)
    (channel_count : Nat) : Except Exc (OutputFile × List RowEvent) := do
  let data_window ← header_dataWindow in_file.header
  let data_width := data_window.max.x - data_window.min.x + 1
  let channels ← header_channels in_file.header
  let out_file ← outputfile_create h
  let data : Buffers := List.replicate channel_count []
  let (data, frame_buffer, _) ←
    setup_frame_buffer channels data_window data_width data
  inputfile_setFrameBuffer in_file frame_buffer
  let out_file ← outputfile_setFrameBuffer out_file frame_buffer
  let (out_file, _, events) ← (intRange bounding_box.min.y bounding_box.max.y).foldlM
    (fun (st : OutputFile × Buffers × List RowEvent) y => do
      let data ← inputfile_readPixels in_file frame_buffer st.2.1 y
      let out ← outputfile_writePixels st.1 data
      pure (out, data,
        st.2.2 ++ [RowEvent.read y, RowEvent.write st.1.currentScanLine]))
    (out_file, data, [])
  pure (out_file, events)

/-- Source `autocrop` as in `autocrop`, with the record of the calls of the
copy loop. -/
def autocrop_events (in_file : InputFile) : Except Exc (OutputFile × List RowEvent) := do
  let bounding_box ← get_bounding_box in_file
  let (h, channel_count) ← autocrop_header in_file bounding_box
  autocrop_copy_events in_file bounding_box h channel_count

/-! ## Reading an output file back -/

/-- Model of opening a file `autocrop` has written: the header is the
header the file was created with, and a stored sample is read back as it was
stored (the channels are `HALF` and the compression is lossless).  The data
window of the header is exactly the stored area; for a coordinate outside it
the model answers zero. -/
def reopen (out : OutputFile) : InputFile :=
  InputFile.mk out.header
    (fun name x y => (outputfile_sample out name x y).getD Half.zero)

/-- An image that is already tightly cropped: data window (1,1)-(2,2), one
channel of type `HALF`, samples that are not zero at `(1, 1)` and `(2, 2)`. -/
def scenario_tight : InputFile :=
  InputFile.mk
    (scenario_header ⟨⟨0, 0⟩, ⟨9, 9⟩⟩ ⟨⟨1, 1⟩, ⟨2, 2⟩⟩ [("R", Channel.ofType .HALF)])
    (fun _ x y => if (x = 1 ∧ y = 1) ∨ (x = 2 ∧ y = 2) then Half.one else Half.zero)

/-! ## The scan of one row -/

theorem scan_fold_inv (dw : Box2i) (l : List Half) :
    ScanInv dw l (l.foldl scanline_step
      ({ box := min_box dw, pixel_seen := false }, dw.min.x)) := by
  induction l using List.reverseRecOn with
  | nil => simp [ScanInv, min_box]
  | append_singleton l a ih =>
    rw [List.foldl_append]
    simp only [List.foldl_cons, List.foldl_nil]
    generalize l.foldl scanline_step _ = st at ih ⊢
    obtain ⟨r, x⟩ := st
    obtain ⟨hx, hmy, hMy, hF, hT⟩ := ih
    simp only at hx hmy hMy hF hT
    have hget : ∀ k v, (l ++ [a]).get? k = some v →
        (k < l.length ∧ l.get? k = some v) ∨ (k = l.length ∧ v = a) := by
      intro k v hk
      rcases Nat.lt_or_ge k l.length with h | h
      · left
        refine ⟨h, ?_⟩
        rw [List.get?_eq_getElem?, List.getElem?_append_left h] at hk
        rw [List.get?_eq_getElem?]; exact hk
      · right
        rw [List.get?_eq_getElem?, List.getElem?_append_right h] at hk
        rcases Nat.eq_zero_or_pos (k - l.length) with h0 | h0
        · rw [h0] at hk
          simp at hk
          exact ⟨by omega, hk.symm⟩
        · rw [List.getElem?_eq_none (by simp; omega)] at hk
          cases hk
    have hlast : (l ++ [a]).get? l.length = some a := by
      rw [List.get?_eq_getElem?]; simp
    have hpre : ∀ k v, l.get? k = some v → (l ++ [a]).get? k = some v := by
      intro k v hk
      rw [List.get?_eq_getElem?] at hk ⊢
      have hlt : k < l.length := by
        by_contra hc
        rw [List.getElem?_eq_none (by omega)] at hk
        cases hk
      rw [List.getElem?_append_left hlt]; exact hk
    cases hnz : a.isNonZero
    · -- a zero sample leaves the result alone
      refine ⟨?_, ?_, ?_, ?_, ?_⟩
      · simp [scanline_step, hx]; omega
      · simpa [scanline_step, hnz] using hmy
      · simpa [scanline_step, hnz] using hMy
      · intro hs
        simp only [scanline_step, hnz] at hs ⊢
        obtain ⟨hb, hz⟩ := hF (by simpa using hs)
        refine ⟨by simpa using hb, ?_⟩
        intro v hv
        rcases List.mem_append.mp hv with h | h
        · exact hz v h
        · simp at h; rw [h]; exact hnz
      · intro hs
        simp only [scanline_step, hnz] at hs ⊢
        obtain ⟨i, j, ⟨vi, hi, hvi⟩, ⟨vj, hj, hvj⟩, hmin, hmax, hall⟩ :=
          hT (by simpa using hs)
        refine ⟨i, j, ⟨vi, hpre _ _ hi, hvi⟩, ⟨vj, hpre _ _ hj, hvj⟩,
          by simpa using hmin, by simpa using hmax, ?_⟩
        intro k v hk hv
        rcases hget k v hk with ⟨_, h⟩ | ⟨_, h⟩
        · exact hall k v h hv
        · rw [h, hnz] at hv; cases hv
    · cases hseen : r.pixel_seen
      · -- the first sample that is not zero
        obtain ⟨_, hz⟩ := hF hseen
        refine ⟨?_, ?_, ?_, ?_, ?_⟩
        · simp [scanline_step, hx]; omega
        · simpa [scanline_step, hnz, hseen] using hmy
        · simpa [scanline_step, hnz, hseen] using hMy
        · intro hs
          simp [scanline_step, hnz, hseen] at hs
        · intro _
          refine ⟨l.length, l.length, ⟨a, hlast, hnz⟩, ⟨a, hlast, hnz⟩, ?_, ?_, ?_⟩
          · simp [scanline_step, hnz, hseen, hx]
          · simp [scanline_step, hnz, hseen, hx]
          · intro k v hk hv
            rcases hget k v hk with ⟨_, h⟩ | ⟨h, _⟩
            · have hmem : v ∈ l := List.get?_mem h
              rw [hz v hmem] at hv; cases hv
            · omega
      · -- a later sample that is not zero moves the right edge
        obtain ⟨i, j, ⟨vi, hi, hvi⟩, ⟨vj, hj, hvj⟩, hmin, hmax, hall⟩ := hT hseen
        have hil : i < l.length := by
          by_contra hc
          rw [List.get?_eq_getElem?, List.getElem?_eq_none (by omega)] at hi
          cases hi
        refine ⟨?_, ?_, ?_, ?_, ?_⟩
        · simp [scanline_step, hx]; omega
        · simpa [scanline_step, hnz, hseen] using hmy
        · simpa [scanline_step, hnz, hseen] using hMy
        · intro hs
          simp [scanline_step, hnz, hseen] at hs
        · intro _
          refine ⟨i, l.length, ⟨vi, hpre _ _ hi, hvi⟩, ⟨a, hlast, hnz⟩, ?_, ?_, ?_⟩
          · simpa [scanline_step, hnz, hseen] using hmin
          · simp [scanline_step, hnz, hseen, hx]
          · intro k v hk hv
            rcases hget k v hk with ⟨hlt, h⟩ | ⟨h, _⟩
            · exact ⟨(hall k v h hv).1, by omega⟩
            · omega

theorem intRange_length (lo hi : Int) :
    (intRange lo hi).length = (hi - lo + 1).toNat := by
  simp [intRange]

theorem intRange_get? (lo hi : Int) (k : Nat) (hk : k < (hi - lo + 1).toNat) :
    (intRange lo hi).get? k = some (lo + (k : Int)) := by
  rw [List.get?_eq_getElem?]
  simp [intRange, List.getElem?_map, List.getElem?_range hk]

theorem mem_intRange (lo hi x : Int) :
    x ∈ intRange lo hi ↔ lo ≤ x ∧ x ≤ hi := by
  simp only [intRange, List.mem_map, List.mem_range]
  constructor
  · rintro ⟨k, hk, rfl⟩
    omega
  · intro h
    exact ⟨(x - lo).toNat, by omega, by omega⟩

theorem map_intRange_get? (lo hi : Int) (f : Int → Half) (k : Nat) (v : Half)
    (h : ((intRange lo hi).map f).get? k = some v) :
    k < (hi - lo + 1).toNat ∧ v = f (lo + (k : Int)) := by
  rw [List.get?_eq_getElem?, List.getElem?_map] at h
  have hk : k < (hi - lo + 1).toNat := by
    by_contra hc
    rw [List.getElem?_eq_none (by rw [intRange_length]; omega)] at h
    cases h
  have := intRange_get? lo hi k hk
  rw [List.get?_eq_getElem?] at this
  rw [this] at h
  simp at h
  exact ⟨hk, h.symm⟩

/-- What `get_scanline_bounding_box` returns for the row of samples `f x`,
`x` from `data_window.min.x` to `hi`. -/
theorem scan_row (dw : Box2i) (hi : Int) (f : Int → Half) :
    (get_scanline_bounding_box ((intRange dw.min.x hi).map f) dw).box.min.y = dw.min.y ∧
    (get_scanline_bounding_box ((intRange dw.min.x hi).map f) dw).box.max.y = dw.min.y ∧
    ((get_scanline_bounding_box ((intRange dw.min.x hi).map f) dw).pixel_seen = false →
      (get_scanline_bounding_box ((intRange dw.min.x hi).map f) dw).box = min_box dw ∧
      ∀ x, dw.min.x ≤ x → x ≤ hi → (f x).isNonZero = false) ∧
    ((get_scanline_bounding_box ((intRange dw.min.x hi).map f) dw).pixel_seen = true →
      dw.min.x ≤ (get_scanline_bounding_box ((intRange dw.min.x hi).map f) dw).box.min.x ∧
      (get_scanline_bounding_box ((intRange dw.min.x hi).map f) dw).box.min.x ≤
        (get_scanline_bounding_box ((intRange dw.min.x hi).map f) dw).box.max.x ∧
      (get_scanline_bounding_box ((intRange dw.min.x hi).map f) dw).box.max.x ≤ hi ∧
      (f (get_scanline_bounding_box ((intRange dw.min.x hi).map f) dw).box.min.x).isNonZero = true ∧
      (f (get_scanline_bounding_box ((intRange dw.min.x hi).map f) dw).box.max.x).isNonZero = true ∧
      ∀ x, dw.min.x ≤ x → x ≤ hi → (f x).isNonZero = true →
        (get_scanline_bounding_box ((intRange dw.min.x hi).map f) dw).box.min.x ≤ x ∧
        x ≤ (get_scanline_bounding_box ((intRange dw.min.x hi).map f) dw).box.max.x) := by
  have h := scan_fold_inv dw ((intRange dw.min.x hi).map f)
  unfold get_scanline_bounding_box
  generalize ((intRange dw.min.x hi).map f).foldl scanline_step _ = st at h ⊢
  obtain ⟨_, hmy, hMy, hF, hT⟩ := h
  refine ⟨hmy, hMy, ?_, ?_⟩
  · intro hs
    obtain ⟨hb, hz⟩ := hF hs
    refine ⟨hb, ?_⟩
    intro x h1 h2
    exact hz _ (List.mem_map_of_mem f ((mem_intRange _ _ _).mpr ⟨h1, h2⟩))
  · intro hs
    obtain ⟨i, j, ⟨vi, hi1, hvi⟩, ⟨vj, hj1, hvj⟩, hmin, hmax, hall⟩ := hT hs
    obtain ⟨hik, hiv⟩ := map_intRange_get? _ _ _ _ _ hi1
    obtain ⟨hjk, hjv⟩ := map_intRange_get? _ _ _ _ _ hj1
    have hij := hall i vi hi1 hvi
    refine ⟨by omega, by omega, by omega, ?_, ?_, ?_⟩
    · rw [hmin, ← hiv]; exact hvi
    · rw [hmax, ← hjv]; exact hvj
    · intro x h1 h2 hx
      have hk : (x - dw.min.x).toNat < (hi - dw.min.x + 1).toNat := by omega
      have hg : ((intRange dw.min.x hi).map f).get? (x - dw.min.x).toNat = some (f x) := by
        rw [List.get?_eq_getElem?, List.getElem?_map]
        have := intRange_get? dw.min.x hi _ hk
        rw [List.get?_eq_getElem?] at this
        rw [this]
        simp
        congr 1
        omega
      have := hall _ _ hg hx
      omega

/-! ## Row buffers, frame buffer and `readPixels` -/

theorem frame_buffer_of_append (cs : ChannelList) (c : String × Channel) (dw : Box2i) :
    frame_buffer_of (cs ++ [c]) dw =
      frame_buffer_of cs dw ++ [(c.1, row_slice cs.length dw)] := by
  simp [frame_buffer_of, List.enum_append, List.enumFrom]

theorem frame_buffer_of_lookup_none (cs : ChannelList) (dw : Box2i) (name : String)
    (h : name ∉ cs.map Prod.fst) : (frame_buffer_of cs dw).lookup name = none := by
  rw [List.lookup_eq_none_iff]
  intro p hp
  simp only [frame_buffer_of, List.mem_map] at hp
  obtain ⟨q, hq, rfl⟩ := hp
  have hq2 : q.2 ∈ cs := by
    obtain ⟨h1, h2⟩ := List.mem_enum hq
    rw [h2]; exact List.getElem_mem h1
  have : q.2.1 ∈ cs.map Prod.fst := List.mem_map_of_mem Prod.fst hq2
  simp only [bne_iff_ne, ne_eq]
  intro heq
  exact h (heq ▸ this)

theorem setup_frame_buffer_ok (cs : ChannelList) (dw : Box2i) (w : Int) (data : Buffers)
    (hw : 0 < w) (hne : ∀ c ∈ cs, c.1 ≠ "") (hnd : (cs.map Prod.fst).Nodup)
    (hlen : cs.length ≤ data.length) :
    ∃ data1, setup_frame_buffer cs dw w data =
        .ok (data1, frame_buffer_of cs dw, cs.length) ∧
      data1.length = data.length ∧
      ∀ i b, i < cs.length → data1.get? i = some b → b.length = w.toNat := by
  unfold setup_frame_buffer
  induction cs using List.reverseRecOn with
  | nil =>
    refine ⟨data, ?_, rfl, ?_⟩
    · simp [frame_buffer_of]; rfl
    · intro i b hi; simp at hi
  | append_singleton cs c ih =>
    have hnd1 : (cs.map Prod.fst).Nodup ∧ c.1 ∉ cs.map Prod.fst := by
      rw [List.map_append, List.nodup_append] at hnd
      refine ⟨hnd.1, ?_⟩
      intro hc
      exact hnd.2.2 hc (by simp)
    have hlen1 : cs.length < data.length := by
      simp at hlen; omega
    obtain ⟨data1, h1, hl1, hb1⟩ := ih (fun c hc => hne c (by simp [hc])) hnd1.1
      (by omega)
    rw [List.foldlM_append, h1]
    have hget : ∃ b, data1.get? cs.length = some b := by
      have : cs.length < data1.length := by omega
      exact ⟨data1.get ⟨cs.length, this⟩, List.get?_eq_get this⟩
    obtain ⟨b, hb⟩ := hget
    have hcne : c.1 ≠ "" := hne c (by simp)
    refine ⟨data1.set cs.length (b.take w.toNat ++
        List.replicate (w.toNat - b.length) Half.zero), ?_, ?_, ?_⟩
    · simp only [List.foldlM_cons, List.foldlM_nil, resize_row, framebuffer_insert,
        bind, Except.bind, pure, Except.pure]
      rw [if_neg (by omega), if_neg (by omega), hb]
      simp only [if_neg hcne, frame_buffer_of_lookup_none cs dw c.1 hnd1.2,
        frame_buffer_of_append, List.length_append, List.length_singleton]
    · simp [hl1]
    · intro i b2 hi hb2
      simp only [List.length_append, List.length_singleton] at hi
      rw [List.get?_eq_getElem?, List.getElem?_set] at hb2
      by_cases hic : cs.length = i
      · rw [if_pos hic] at hb2
        rw [if_pos (by omega)] at hb2
        simp only [Option.some.injEq] at hb2
        rw [← hb2]
        simp
        omega
      · rw [if_neg hic] at hb2
        exact hb1 i b2 (by omega) (by rw [List.get?_eq_getElem?]; exact hb2)

theorem store_upto (dw : Box2i) (i : Nat) (y : Int) (g : Int → Half) (b : List Half)
    (n : Nat) (hn : n ≤ b.length) (data : Buffers) (hb : data.get? i = some b) :
    ((List.range n).map fun (k : Nat) => dw.min.x + (k : Int)).foldlM
        (fun d x => buffers_store d (row_slice i dw) x y (g x)) data =
      .ok (data.set i
        (((List.range n).map fun (k : Nat) => g (dw.min.x + (k : Int))) ++ b.drop n)) := by
  induction n with
  | zero =>
    simp only [List.range_zero, List.map_nil, List.foldlM_nil, List.nil_append, List.drop_zero]
    have : data.set i b = data := by
      rw [List.get?_eq_getElem?] at hb
      apply List.ext_getElem?
      intro k
      rw [List.getElem?_set]
      split
      · next h => subst h; rw [if_pos (by
          by_contra hc
          rw [List.getElem?_eq_none (by omega)] at hb
          cases hb)]; exact hb.symm
      · rfl
    rw [this]; rfl
  | succ n ih =>
    have hlt : n < b.length := by omega
    rw [List.range_succ, List.map_append, List.foldlM_append, ih (by omega)]
    simp only [List.map_cons, List.map_nil, List.foldlM_cons, List.foldlM_nil, bind, Except.bind]
    have hi : i < data.length := by
      by_contra hc
      rw [List.get?_eq_getElem?, List.getElem?_eq_none (by omega)] at hb
      cases hb
    have hoff : (row_slice i dw).offset (dw.min.x + (n : Int)) y = 2 * (n : Int) := by
      simp only [Slice.offset, row_slice]; ring
    simp only [buffers_store, hoff]
    have hbuf : (row_slice i dw).buf = i := rfl
    rw [hbuf, List.get?_eq_getElem?, List.getElem?_set_self (by simpa using hi)]
    have hdiv : (2 * (n : Int) / 2).toNat = n := by omega
    have hlen2 : (((List.range n).map fun (k : Nat) => g (dw.min.x + (k : Int))) ++ b.drop n).length
        = b.length := by
      simp; omega
    simp only [hdiv]
    rw [if_pos ⟨by omega, by omega, by rw [hlen2]; exact hlt⟩]
    simp only [List.set_set, List.map_append, List.map_cons, List.map_nil]
    congr 2
    have hml : ((List.range n).map fun (k : Nat) => g (dw.min.x + (k : Int))).length = n := by
      simp
    rw [List.set_append_right _ _ (by rw [hml]), hml, Nat.sub_self,
      List.drop_eq_getElem_cons hlt, List.set_cons_zero, List.append_assoc]
    rfl

theorem store_row (dw : Box2i) (i : Nat) (y : Int) (g : Int → Half) (b : List Half)
    (hw : b.length = (dw.max.x - dw.min.x + 1).toNat) (data : Buffers)
    (hb : data.get? i = some b) :
    (intRange dw.min.x dw.max.x).foldlM
        (fun d x => buffers_store d (row_slice i dw) x y (g x)) data =
      .ok (data.set i ((intRange dw.min.x dw.max.x).map g)) := by
  have h := store_upto dw i y g b b.length (le_refl _) data hb
  rw [List.drop_length, List.append_nil, hw] at h
  unfold intRange
  rw [h, List.map_map]
  rfl

theorem lookup_of_mem {β : Type} (l : List (String × β)) (c : String × β) (h : c ∈ l) :
    ∃ v, l.lookup c.1 = some v := by
  cases hl : l.lookup c.1 with
  | some v => exact ⟨v, rfl⟩
  | none =>
    rw [List.lookup_eq_none_iff] at hl
    have := hl c h
    simp at this

theorem read_rows (file : InputFile) (dw : Box2i) (channels : ChannelList) (y : Int)
    (pre : ChannelList) (data : Buffers)
    (hsub : ∀ c ∈ pre, ∃ ch, channels.lookup c.1 = some ch)
    (hlen : pre.length ≤ data.length)
    (hw : ∀ i b, data.get? i = some b → b.length = (dw.max.x - dw.min.x + 1).toNat) :
    (frame_buffer_of pre dw).foldlM (fun d p =>
      (intRange dw.min.x dw.max.x).foldlM (fun d x =>
        buffers_store d p.2 x y
          (match channels.lookup p.1 with
           | some _ => file.pixels p.1 x y
           | none => p.2.fillValue)) d) data =
      .ok (pre.map (fun c => image_row file dw c.1 y) ++ data.drop pre.length) := by
  induction pre using List.reverseRecOn with
  | nil => simp [frame_buffer_of]; rfl
  | append_singleton pre c ih =>
    have hlt : pre.length < data.length := by simp at hlen; omega
    rw [frame_buffer_of_append, List.foldlM_append,
      ih (fun c hc => hsub c (by simp [hc])) (by omega)]
    obtain ⟨ch, hch⟩ := hsub c (by simp)
    simp only [List.foldlM_cons, List.foldlM_nil, bind, Except.bind, hch]
    have hget : (pre.map (fun c => image_row file dw c.1 y) ++ data.drop pre.length).get?
        pre.length = some (data.get ⟨pre.length, hlt⟩) := by
      rw [List.get?_eq_getElem?, List.getElem?_append_right (by simp)]
      simp
    have hbl := hw pre.length _ (List.get?_eq_get hlt)
    rw [store_row dw pre.length y (fun x => file.pixels c.1 x y) _ hbl _ hget]
    simp only [pure, Except.pure, List.map_append, List.map_cons, List.map_nil,
      List.length_append, List.length_singleton]
    congr 1
    rw [List.set_append_right _ _ (by simp)]
    simp only [List.length_map, Nat.sub_self, List.append_assoc]
    congr 1
    rw [List.drop_eq_getElem_cons hlt, List.set_cons_zero]
    rfl

theorem readPixels_ok (file : InputFile) (dw : Box2i) (cs : ChannelList) (y : Int)
    (data : Buffers)
    (hdw : header_dataWindow file.header = .ok dw)
    (hcs : header_channels file.header = .ok cs)
    (hy : dw.min.y ≤ y ∧ y ≤ dw.max.y)
    (hlen : data.length = cs.length)
    (hw : ∀ i b, data.get? i = some b → b.length = (dw.max.x - dw.min.x + 1).toNat) :
    inputfile_readPixels file (frame_buffer_of cs dw) data y =
      .ok (cs.map fun c => image_row file dw c.1 y) := by
  unfold inputfile_readPixels
  simp only [hdw, hcs, bind, Except.bind]
  rw [if_neg (by omega)]
  rw [read_rows file dw cs y cs data (fun c hc => lookup_of_mem cs c hc) (by omega) hw]
  rw [List.drop_of_length_le (by omega), List.append_nil]

theorem rows_length (file : InputFile) (dw : Box2i) (cs : ChannelList) (y : Int) :
    (cs.map fun c => image_row file dw c.1 y).length = cs.length ∧
    ∀ i b, (cs.map fun c => image_row file dw c.1 y).get? i = some b →
      b.length = (dw.max.x - dw.min.x + 1).toNat := by
  refine ⟨by simp, ?_⟩
  intro i b hb
  have hmem := List.get?_mem hb
  simp only [List.mem_map] at hmem
  obtain ⟨c, _, rfl⟩ := hmem
  simp [image_row, intRange_length]

theorem channels_loop_upto (file : InputFile) (dw : Box2i) (y : Int) (r : BoundingBox)
    (pre suf : ChannelList) :
    pre.foldl (fun (st : BoundingBox × Nat) _ =>
      (merge_scanline st.1 (get_scanline_bounding_box
        (((pre ++ suf).map fun c => image_row file dw c.1 y).getD st.2 []) dw) y,
        st.2 + 1)) (r, 0) =
    (merge_row file dw pre r y, pre.length) := by
  induction pre using List.reverseRecOn generalizing suf with
  | nil => rfl
  | append_singleton pre c ih =>
    have h := ih (c :: suf)
    simp only [List.append_assoc, List.singleton_append] at h ⊢
    rw [List.foldl_append, h]
    simp only [List.foldl_cons, List.foldl_nil, merge_row, List.foldl_append,
      List.length_append, List.length_singleton]
    congr 3
    rw [List.getD_eq_getElem?_getD, List.map_append,
      List.getElem?_append_right (by simp)]
    simp

theorem channels_loop_eq (file : InputFile) (dw : Box2i) (y : Int) (r : BoundingBox)
    (cs : ChannelList) :
    channels_loop cs (cs.map fun c => image_row file dw c.1 y) dw y r =
      merge_row file dw cs r y := by
  have h := channels_loop_upto file dw y r cs []
  rw [List.append_nil] at h
  unfold channels_loop
  rw [h]

theorem lookup_mem {β : Type} (l : List (String × β)) (k : String) (v : β)
    (h : l.lookup k = some v) : (k, v) ∈ l := by
  induction l with
  | nil => simp at h
  | cons p l ih =>
    obtain ⟨k1, v1⟩ := p
    rw [List.lookup_cons] at h
    by_cases hk : k = k1
    · subst hk
      simp at h
      subst h
      simp
    · have : (k == k1) = false := by simpa using hk
      rw [this] at h
      exact List.mem_cons_of_mem _ (ih h)

theorem setFrameBuffer_ok (file : InputFile) (dw : Box2i) (cs : ChannelList)
    (hcs : header_channels file.header = .ok cs)
    (hs : ∀ c ∈ cs, c.2.xSampling = 1 ∧ c.2.ySampling = 1) :
    inputfile_setFrameBuffer file (frame_buffer_of cs dw) = .ok () := by
  unfold inputfile_setFrameBuffer
  simp only [hcs, bind, Except.bind]
  rw [if_pos]
  rw [List.all_eq_true]
  intro p hp
  simp only [frame_buffer_of, List.mem_map] at hp
  obtain ⟨q, _, rfl⟩ := hp
  cases hl : cs.lookup q.2.1 with
  | none => rfl
  | some c =>
    have := hs _ (lookup_mem cs _ _ hl)
    simp only at this
    simp [row_slice, this.1, this.2]

theorem rows_loop_ok (file : InputFile) (dw : Box2i) (cs : ChannelList)
    (hdw : header_dataWindow file.header = .ok dw)
    (hcs : header_channels file.header = .ok cs)
    (ys : List Int) (hys : ∀ y ∈ ys, dw.min.y ≤ y ∧ y ≤ dw.max.y)
    (r : BoundingBox) (data : Buffers) (hlen : data.length = cs.length)
    (hw : ∀ i b, data.get? i = some b → b.length = (dw.max.x - dw.min.x + 1).toNat) :
    ∃ data1, ys.foldlM (fun (st : BoundingBox × Buffers) y => do
        let data ← inputfile_readPixels file (frame_buffer_of cs dw) st.2 y
        pure (channels_loop cs data dw y st.1, data)) (r, data) =
      .ok (ys.foldl (merge_row file dw cs) r, data1) := by
  induction ys generalizing r data with
  | nil => exact ⟨data, rfl⟩
  | cons y ys ih =>
    simp only [List.foldlM_cons, List.foldl_cons, bind, Except.bind]
    rw [readPixels_ok file dw cs y data hdw hcs (hys y (by simp)) hlen hw]
    simp only [pure, Except.pure, channels_loop_eq]
    obtain ⟨hl, hb⟩ := rows_length file dw cs y
    exact ih (fun y hy => hys y (by simp [hy])) _ _ hl hb

theorem get_bounding_box_eq (file : InputFile) (dw disp : Box2i) (cs : ChannelList)
    (h : image_wellFormed file dw disp cs) :
    get_bounding_box file = .ok (bounding_box_of file dw cs).box := by
  obtain ⟨hdw, hdisp, hcs, hx, _, hnd, hne, hs⟩ := h
  unfold get_bounding_box
  simp only [hdw, hdisp, hcs, bind, Except.bind]
  obtain ⟨data1, h1, hl1, hb1⟩ := setup_frame_buffer_ok cs dw
    (dw.max.x - dw.min.x + 1) (List.replicate cs.length []) (by omega) hne hnd (by simp)
  rw [h1]
  simp only [setFrameBuffer_ok file dw cs hcs hs]
  have hl2 : data1.length = cs.length := by simpa using hl1
  have hb2 : ∀ i b, data1.get? i = some b → b.length = (dw.max.x - dw.min.x + 1).toNat := by
    intro i b hb
    refine hb1 i b ?_ hb
    by_contra hc
    rw [List.get?_eq_getElem?, List.getElem?_eq_none (by omega)] at hb
    cases hb
  obtain ⟨data2, h2⟩ := rows_loop_ok file dw cs hdw hcs (intRange dw.min.y dw.max.y)
    (fun y hy => (mem_intRange _ _ _).mp hy)
    { box := min_box dw, pixel_seen := false } data1 hl2 hb2
  simp only [bind, Except.bind] at h2
  rw [h2]
  rfl

/-! ## The bounding-box pass -/

theorem BoxInv_congr (file : InputFile) (dw : Box2i) (d1 d2 : String → Int → Prop)
    (r : BoundingBox) (h : ∀ c y, d1 c y ↔ d2 c y) (h1 : BoxInv file dw d1 r) :
    BoxInv file dw d2 r := by
  have : d1 = d2 := funext fun c => funext fun y => propext (h c y)
  rw [← this]; exact h1

theorem BoxInv_step (file : InputFile) (dw : Box2i) (done : String → Int → Prop)
    (r : BoundingBox) (name : String) (y : Int)
    (hinv : BoxInv file dw done r) (hle : ∀ c y1, done c y1 → y1 ≤ y) :
    BoxInv file dw (fun c y1 => done c y1 ∨ (c = name ∧ y1 = y))
      (merge_scanline r (get_scanline_bounding_box (image_row file dw name y) dw) y) := by
  obtain ⟨_, _, hsF, hsT⟩ := scan_row dw dw.max.x (fun x => file.pixels name x y)
  have hrow : image_row file dw name y =
      (intRange dw.min.x dw.max.x).map (fun x => file.pixels name x y) := rfl
  rw [← hrow] at hsF hsT
  generalize get_scanline_bounding_box (image_row file dw name y) dw = s at hsF hsT ⊢
  obtain ⟨hF, hT⟩ := hinv
  cases hs : s.pixel_seen
  · -- the row holds zeros only
    obtain ⟨_, hz⟩ := hsF hs
    have hm : merge_scanline r s y = r := by simp [merge_scanline, hs]
    rw [hm]
    refine ⟨?_, ?_⟩
    · intro hr
      obtain ⟨hb, hzd⟩ := hF hr
      refine ⟨hb, ?_⟩
      intro c y1 x hd h1 h2
      rcases hd with hd | ⟨rfl, rfl⟩
      · exact hzd c y1 x hd h1 h2
      · simp [nonzero_at, hz x h1 h2]
    · intro hr
      obtain ⟨hall, hx1, hx12, hx2, ⟨c1, y1, hd1, hn1⟩, ⟨c2, y2, hd2, hn2⟩,
        ⟨c3, x3, hd3, hn3⟩, ⟨c4, x4, hd4, hn4⟩⟩ := hT hr
      refine ⟨?_, hx1, hx12, hx2, ⟨c1, y1, Or.inl hd1, hn1⟩, ⟨c2, y2, Or.inl hd2, hn2⟩,
        ⟨c3, x3, Or.inl hd3, hn3⟩, ⟨c4, x4, Or.inl hd4, hn4⟩⟩
      intro c y1 x hd h1 h2 hn
      rcases hd with hd | ⟨rfl, rfl⟩
      · exact hall c y1 x hd h1 h2 hn
      · exfalso
        have := hz x h1 h2
        simp only [nonzero_at] at hn
        rw [this] at hn; cases hn
  · obtain ⟨hs1, hs12, hs2, hsmin, hsmax, hsall⟩ := hsT hs
    cases hr : r.pixel_seen
    · -- the first row with a pixel
      obtain ⟨_, hzd⟩ := hF hr
      have hm : merge_scanline r s y =
          { box := { min := { x := s.box.min.x, y := y },
                     max := { x := s.box.max.x, y := y } },
            pixel_seen := true } := by
        simp [merge_scanline, hs, hr]
      rw [hm]
      refine ⟨by simp, ?_⟩
      intro _
      refine ⟨?_, hs1, hs12, hs2, ⟨name, y, Or.inr ⟨rfl, rfl⟩, hsmin⟩,
        ⟨name, y, Or.inr ⟨rfl, rfl⟩, hsmax⟩,
        ⟨name, s.box.min.x, Or.inr ⟨rfl, rfl⟩, hs1, by omega, hsmin⟩,
        ⟨name, s.box.min.x, Or.inr ⟨rfl, rfl⟩, hs1, by omega, hsmin⟩⟩
      intro c y1 x hd h1 h2 hn
      rcases hd with hd | ⟨rfl, rfl⟩
      · exact absurd hn (hzd c y1 x hd h1 h2)
      · have := hsall x h1 h2 hn
        simp only
        omega
    · -- a later row with a pixel
      obtain ⟨hall, hx1, hx12, hx2, ⟨c1, y1, hd1, hn1⟩, ⟨c2, y2, hd2, hn2⟩,
        ⟨c3, x3, hd3, hn3⟩, ⟨c4, x4, hd4, hn4⟩⟩ := hT hr
      have hm : merge_scanline r s y =
          { box := { min := { x := Min.min s.box.min.x r.box.min.x, y := r.box.min.y },
                     max := { x := Max.max s.box.max.x r.box.max.x, y := y } },
            pixel_seen := true } := by
        simp [merge_scanline, hs, hr]
      rw [hm]
      have hminy : r.box.min.y ≤ y := hle _ _ hd3
      refine ⟨by simp, ?_⟩
      intro _
      refine ⟨?_, ?_, ?_, ?_, ?_, ?_, ?_, ?_⟩
      · intro c y0 x hd h1 h2 hn
        simp only
        rcases hd with hd | ⟨rfl, rfl⟩
        · have := hall c y0 x hd h1 h2 hn
          have := hle c y0 hd
          omega
        · have := hsall x h1 h2 hn
          omega
      · simp only; omega
      · simp only; omega
      · simp only; omega
      · simp only
        rcases le_total s.box.min.x r.box.min.x with h | h
        · rw [min_eq_left h]; exact ⟨name, y, Or.inr ⟨rfl, rfl⟩, hsmin⟩
        · rw [min_eq_right h]; exact ⟨c1, y1, Or.inl hd1, hn1⟩
      · simp only
        rcases le_total s.box.max.x r.box.max.x with h | h
        · rw [max_eq_right h]; exact ⟨c2, y2, Or.inl hd2, hn2⟩
        · rw [max_eq_left h]; exact ⟨name, y, Or.inr ⟨rfl, rfl⟩, hsmax⟩
      · exact ⟨c3, x3, Or.inl hd3, hn3⟩
      · exact ⟨name, s.box.min.x, Or.inr ⟨rfl, rfl⟩, hs1, by omega, hsmin⟩

theorem BoxInv_row (file : InputFile) (dw : Box2i) (done : String → Int → Prop)
    (r : BoundingBox) (y : Int) (cs : ChannelList)
    (hinv : BoxInv file dw done r) (hle : ∀ c y1, done c y1 → y1 ≤ y) :
    BoxInv file dw (fun c y1 => done c y1 ∨ (c ∈ cs.map Prod.fst ∧ y1 = y))
      (merge_row file dw cs r y) := by
  induction cs using List.reverseRecOn with
  | nil =>
    refine BoxInv_congr file dw done _ r ?_ hinv
    intro c y1; simp
  | append_singleton cs c ih =>
    have hstep := BoxInv_step file dw _ _ c.1 y ih (by
      intro c1 y1 h
      rcases h with h | ⟨_, h⟩
      · exact hle c1 y1 h
      · omega)
    have hm : merge_row file dw (cs ++ [c]) r y =
        merge_scanline (merge_row file dw cs r y)
          (get_scanline_bounding_box (image_row file dw c.1 y) dw) y := by
      simp [merge_row, List.foldl_append]
    rw [hm]
    refine BoxInv_congr file dw _ _ _ ?_ hstep
    intro c1 y1
    simp only [List.map_append, List.map_cons, List.map_nil, List.mem_append,
      List.mem_singleton]
    tauto

theorem BoxInv_rows (file : InputFile) (dw : Box2i) (cs : ChannelList) (n : Nat) :
    BoxInv file dw
      (fun c y => c ∈ cs.map Prod.fst ∧ dw.min.y ≤ y ∧ y < dw.min.y + (n : Int))
      (((List.range n).map fun (k : Nat) => dw.min.y + (k : Int)).foldl
        (merge_row file dw cs) { box := min_box dw, pixel_seen := false }) := by
  induction n with
  | zero =>
    refine ⟨?_, by simp⟩
    intro _
    refine ⟨rfl, ?_⟩
    intro c y x hd
    simp only [Nat.cast_zero, add_zero] at hd
    omega
  | succ n ih =>
    rw [List.range_succ, List.map_append, List.foldl_append]
    simp only [List.map_cons, List.map_nil, List.foldl_cons, List.foldl_nil]
    have hrow := BoxInv_row file dw _ _ (dw.min.y + (n : Int)) cs ih (by
      intro c y1 h
      omega)
    refine BoxInv_congr file dw _ _ _ ?_ hrow
    intro c y
    simp only [Nat.cast_add, Nat.cast_one]
    constructor
    · rintro (⟨h1, h2, h3⟩ | ⟨h1, h2⟩)
      · exact ⟨h1, h2, by omega⟩
      · exact ⟨h1, by omega, by omega⟩
    · rintro ⟨h1, h2, h3⟩
      by_cases h : y < dw.min.y + (n : Int)
      · exact Or.inl ⟨h1, h2, h⟩
      · exact Or.inr ⟨h1, by omega⟩

theorem BoxInv_image (file : InputFile) (dw : Box2i) (cs : ChannelList) :
    BoxInv file dw
      (fun c y => c ∈ cs.map Prod.fst ∧ dw.min.y ≤ y ∧ y ≤ dw.max.y)
      (bounding_box_of file dw cs) := by
  have h := BoxInv_rows file dw cs (dw.max.y - dw.min.y + 1).toNat
  refine BoxInv_congr file dw _ _ _ ?_ h
  intro c y
  constructor
  · rintro ⟨h1, h2, h3⟩
    exact ⟨h1, h2, by omega⟩
  · rintro ⟨h1, h2, h3⟩
    exact ⟨h1, h2, by omega⟩

theorem mem_names (cs : ChannelList) (name : String) (h : name ∈ cs.map Prod.fst) :
    ∃ c ∈ cs, c.1 = name := by
  simp only [List.mem_map] at h
  obtain ⟨c, hc, rfl⟩ := h
  exact ⟨c, hc, rfl⟩

theorem bounding_box_of_empty (file : InputFile) (dw : Box2i) (cs : ChannelList)
    (hz : ∀ x y, ¬ occupied file dw cs x y) :
    (bounding_box_of file dw cs).pixel_seen = false ∧
    (bounding_box_of file dw cs).box = min_box dw := by
  obtain ⟨hF, hT⟩ := BoxInv_image file dw cs
  cases hs : (bounding_box_of file dw cs).pixel_seen
  · exact ⟨rfl, (hF hs).1⟩
  · exfalso
    obtain ⟨_, h1, h12, h2, ⟨c, y, ⟨hc, hy1, hy2⟩, hn⟩, _⟩ := hT hs
    obtain ⟨c1, hc1, rfl⟩ := mem_names cs c hc
    exact hz _ y ⟨h1, by omega, hy1, hy2, c1, hc1, hn⟩

theorem bounding_box_of_occupied (file : InputFile) (dw : Box2i) (cs : ChannelList)
    (hnz : ∃ x y, occupied file dw cs x y) :
    (bounding_box_of file dw cs).pixel_seen = true ∧
    IsBoundingWindow file dw cs (bounding_box_of file dw cs).box := by
  obtain ⟨hF, hT⟩ := BoxInv_image file dw cs
  cases hs : (bounding_box_of file dw cs).pixel_seen
  · exfalso
    obtain ⟨x, y, hx1, hx2, hy1, hy2, c, hc, hn⟩ := hnz
    exact (hF hs).2 c.1 y x ⟨List.mem_map_of_mem Prod.fst hc, hy1, hy2⟩ hx1 hx2 hn
  · refine ⟨rfl, ?_⟩
    obtain ⟨hall, h1, h12, h2, ⟨c1, y1, ⟨hc1, hy1⟩, hn1⟩, ⟨c2, y2, ⟨hc2, hy2⟩, hn2⟩,
      ⟨c3, x3, ⟨hc3, hy3⟩, hx3, hx3b, hn3⟩, ⟨c4, x4, ⟨hc4, hy4⟩, hx4, hx4b, hn4⟩⟩ := hT hs
    obtain ⟨d1, hd1, rfl⟩ := mem_names cs c1 hc1
    obtain ⟨d2, hd2, rfl⟩ := mem_names cs c2 hc2
    obtain ⟨d3, hd3, rfl⟩ := mem_names cs c3 hc3
    obtain ⟨d4, hd4, rfl⟩ := mem_names cs c4 hc4
    have hb : ∀ x y, occupied file dw cs x y →
        (bounding_box_of file dw cs).box.min.x ≤ x ∧
        x ≤ (bounding_box_of file dw cs).box.max.x ∧
        (bounding_box_of file dw cs).box.min.y ≤ y ∧
        y ≤ (bounding_box_of file dw cs).box.max.y := by
      rintro x y ⟨hx1, hx2, hy1, hy2, c, hc, hn⟩
      exact hall c.1 y x ⟨List.mem_map_of_mem Prod.fst hc, hy1, hy2⟩ hx1 hx2 hn
    refine ⟨⟨⟨y1, h1, by omega, hy1.1, hy1.2, d1, hd1, hn1⟩, fun x y h => (hb x y h).1⟩,
      ⟨⟨y2, by omega, h2, hy2.1, hy2.2, d2, hd2, hn2⟩, fun x y h => (hb x y h).2.1⟩,
      ⟨⟨x3, hx3, hx3b, hy3.1, hy3.2, d3, hd3, hn3⟩, fun x y h => (hb x y h).2.2.1⟩,
      ⟨⟨x4, hx4, hx4b, hy4.1, hy4.2, d4, hd4, hn4⟩, fun x y h => (hb x y h).2.2.2⟩⟩

/-- C1: for an image with a data window that is not empty and at least one
sample that is not zero, `get_bounding_box` returns the minimal rectangle
around the coordinates at which some channel is not zero. -/
theorem get_bounding_box_minimal (file : InputFile) (dw disp : Box2i) (cs : ChannelList)
    (hwf : image_wellFormed file dw disp cs)
    (hnz : ∃ x y, occupied file dw cs x y) :
    ∃ bb, get_bounding_box file = .ok bb ∧ IsBoundingWindow file dw cs bb :=
  ⟨_, get_bounding_box_eq file dw disp cs hwf,
    (bounding_box_of_occupied file dw cs hnz).2⟩

theorem scenario_wellFormed (disp dw : Box2i) (cs : ChannelList)
    (pix : String → Int → Int → Half)
    (hx : dw.min.x ≤ dw.max.x) (hy : dw.min.y ≤ dw.max.y) (hcs : channels_wellFormed cs) :
    image_wellFormed (InputFile.mk (scenario_header disp dw cs) pix) dw disp cs :=
  ⟨rfl, rfl, rfl, hx, hy, hcs⟩

theorem get_bounding_box_minimal_witness :
    image_wellFormed scenario_block ⟨⟨0, 0⟩, ⟨9, 9⟩⟩ ⟨⟨0, 0⟩, ⟨9, 9⟩⟩
      [("R", Channel.ofType .FLOAT)] ∧
    (∃ x y, occupied scenario_block ⟨⟨0, 0⟩, ⟨9, 9⟩⟩ [("R", Channel.ofType .FLOAT)] x y) ∧
    get_bounding_box scenario_block = .ok ⟨⟨2, 3⟩, ⟨7, 5⟩⟩ ∧
    (∃ bb, get_bounding_box scenario_block = .ok bb ∧
      IsBoundingWindow scenario_block ⟨⟨0, 0⟩, ⟨9, 9⟩⟩ [("R", Channel.ofType .FLOAT)] bb) :=
  have hwf : image_wellFormed scenario_block ⟨⟨0, 0⟩, ⟨9, 9⟩⟩ ⟨⟨0, 0⟩, ⟨9, 9⟩⟩
      [("R", Channel.ofType .FLOAT)] :=
    scenario_wellFormed _ _ _ _ (by decide) (by decide)
      (by simp [channels_wellFormed, Channel.ofType])
  have hocc : ∃ x y, occupied scenario_block ⟨⟨0, 0⟩, ⟨9, 9⟩⟩
      [("R", Channel.ofType .FLOAT)] x y :=
    ⟨2, 3, by decide, by decide, by decide, by decide, ("R", Channel.ofType .FLOAT),
      by simp, by simp [nonzero_at, scenario_block, Half.one, Half.isNonZero]⟩
  ⟨hwf, hocc, rfl, get_bounding_box_minimal scenario_block _ _ _ hwf hocc⟩

/-- C2, as the claim states it, fails: for an image whose samples are all
zero `get_bounding_box` reports no condition; it returns a window of one
pixel. -/
theorem get_bounding_box_all_zero_returns_window :
    (∀ c x y, (scenario_zero.pixels c x y).isNonZero = false) ∧
    get_bounding_box scenario_zero = .ok ⟨⟨-5, -3⟩, ⟨-5, -3⟩⟩ :=
  ⟨fun _ _ _ => rfl, rfl⟩

/-- C2, amended: for an image whose samples are all zero `get_bounding_box`
does not fail; it returns the window of the one pixel at the `min` corner of
the data window. -/
theorem get_bounding_box_all_zero (file : InputFile) (dw disp : Box2i) (cs : ChannelList)
    (hwf : image_wellFormed file dw disp cs)
    (hz : ∀ c ∈ cs, ∀ x y, dw.min.x ≤ x → x ≤ dw.max.x → dw.min.y ≤ y → y ≤ dw.max.y →
      (file.pixels c.1 x y).isNonZero = false) :
    get_bounding_box file = .ok { min := dw.min, max := dw.min } := by
  rw [get_bounding_box_eq file dw disp cs hwf]
  have hno : ∀ x y, ¬ occupied file dw cs x y := by
    rintro x y ⟨h1, h2, h3, h4, c, hc, hn⟩
    simp only [nonzero_at] at hn
    rw [hz c hc x y h1 h2 h3 h4] at hn
    cases hn
  rw [(bounding_box_of_empty file dw cs hno).2]
  rfl

theorem get_bounding_box_all_zero_witness :
    image_wellFormed scenario_zero ⟨⟨-5, -3⟩, ⟨4, 6⟩⟩ ⟨⟨0, 0⟩, ⟨9, 9⟩⟩
      [("A", Channel.ofType .HALF), ("B", Channel.ofType .FLOAT)] ∧
    (∀ c ∈ [("A", Channel.ofType .HALF), ("B", Channel.ofType .FLOAT)],
      ∀ x y, (-5 : Int) ≤ x → x ≤ 4 → (-3 : Int) ≤ y → y ≤ 6 →
        (scenario_zero.pixels c.1 x y).isNonZero = false) ∧
    get_bounding_box scenario_zero =
      .ok { min := { x := -5, y := -3 }, max := { x := -5, y := -3 } } :=
  have hwf : image_wellFormed scenario_zero ⟨⟨-5, -3⟩, ⟨4, 6⟩⟩ ⟨⟨0, 0⟩, ⟨9, 9⟩⟩
      [("A", Channel.ofType .HALF), ("B", Channel.ofType .FLOAT)] :=
    scenario_wellFormed _ _ _ _ (by decide) (by decide)
      (by simp [channels_wellFormed, Channel.ofType])
  ⟨hwf, fun _ _ _ _ _ _ _ _ => rfl,
    get_bounding_box_all_zero scenario_zero _ _ _ hwf (fun _ _ _ _ _ _ _ _ => rfl)⟩

theorem IsBoundingWindow_unique (file : InputFile) (dw : Box2i) (cs : ChannelList)
    (a b : Box2i) (ha : IsBoundingWindow file dw cs a) (hb : IsBoundingWindow file dw cs b) :
    a = b := by
  obtain ⟨⟨⟨y1, h1⟩, a1⟩, ⟨⟨y2, h2⟩, a2⟩, ⟨⟨x3, h3⟩, a3⟩, ⟨⟨x4, h4⟩, a4⟩⟩ := ha
  obtain ⟨⟨⟨v1, k1⟩, b1⟩, ⟨⟨v2, k2⟩, b2⟩, ⟨⟨u3, k3⟩, b3⟩, ⟨⟨u4, k4⟩, b4⟩⟩ := hb
  have e1 := a1 _ _ k1
  have e2 := b1 _ _ h1
  have e3 := a2 _ _ k2
  have e4 := b2 _ _ h2
  have e5 := a3 _ _ k3
  have e6 := b3 _ _ h3
  have e7 := a4 _ _ k4
  have e8 := b4 _ _ h4
  obtain ⟨⟨ax, ay⟩, ⟨bx, by1⟩⟩ := a
  obtain ⟨⟨cx, cy⟩, ⟨dx, dy⟩⟩ := b
  simp only at e1 e2 e3 e4 e5 e6 e7 e8
  simp only [Box2i.mk.injEq, V2i.mk.injEq]
  omega

/-- C3: when `(x0, y0)` is the only coordinate at which some channel has a
sample that is not zero, `get_bounding_box` returns the window with
`min = max = (x0, y0)`. -/
theorem get_bounding_box_single_point (file : InputFile) (dw disp : Box2i)
    (cs : ChannelList) (x0 y0 : Int)
    (hwf : image_wellFormed file dw disp cs)
    (h0 : occupied file dw cs x0 y0)
    (honly : ∀ x y, occupied file dw cs x y → x = x0 ∧ y = y0) :
    get_bounding_box file = .ok { min := { x := x0, y := y0 }, max := { x := x0, y := y0 } } := by
  rw [get_bounding_box_eq file dw disp cs hwf]
  congr 1
  refine IsBoundingWindow_unique file dw cs _ _
    (bounding_box_of_occupied file dw cs ⟨x0, y0, h0⟩).2 ?_
  exact ⟨⟨⟨y0, h0⟩, fun x y h => by have := honly x y h; simp only; omega⟩,
    ⟨⟨y0, h0⟩, fun x y h => by have := honly x y h; simp only; omega⟩,
    ⟨⟨x0, h0⟩, fun x y h => by have := honly x y h; simp only; omega⟩,
    ⟨⟨x0, h0⟩, fun x y h => by have := honly x y h; simp only; omega⟩⟩

theorem get_bounding_box_single_point_witness :
    image_wellFormed scenario_point ⟨⟨-5, -3⟩, ⟨4, 6⟩⟩ ⟨⟨0, 0⟩, ⟨9, 9⟩⟩
      [("A", Channel.ofType .HALF), ("B", Channel.ofType .FLOAT)] ∧
    occupied scenario_point ⟨⟨-5, -3⟩, ⟨4, 6⟩⟩
      [("A", Channel.ofType .HALF), ("B", Channel.ofType .FLOAT)] 2 (-1) ∧
    (∀ x y, occupied scenario_point ⟨⟨-5, -3⟩, ⟨4, 6⟩⟩
      [("A", Channel.ofType .HALF), ("B", Channel.ofType .FLOAT)] x y → x = 2 ∧ y = -1) ∧
    get_bounding_box scenario_point =
      .ok { min := { x := 2, y := -1 }, max := { x := 2, y := -1 } } :=
  have hwf : image_wellFormed scenario_point ⟨⟨-5, -3⟩, ⟨4, 6⟩⟩ ⟨⟨0, 0⟩, ⟨9, 9⟩⟩
      [("A", Channel.ofType .HALF), ("B", Channel.ofType .FLOAT)] :=
    scenario_wellFormed _ _ _ _ (by decide) (by decide)
      (by simp [channels_wellFormed, Channel.ofType])
  have h0 : occupied scenario_point ⟨⟨-5, -3⟩, ⟨4, 6⟩⟩
      [("A", Channel.ofType .HALF), ("B", Channel.ofType .FLOAT)] 2 (-1) :=
    ⟨by decide, by decide, by decide, by decide, ("B", Channel.ofType .FLOAT),
      by simp, by simp [nonzero_at, scenario_point, Half.one, Half.isNonZero]⟩
  have honly : ∀ x y, occupied scenario_point ⟨⟨-5, -3⟩, ⟨4, 6⟩⟩
      [("A", Channel.ofType .HALF), ("B", Channel.ofType .FLOAT)] x y → x = 2 ∧ y = -1 := by
    rintro x y ⟨_, _, _, _, c, _, hn⟩
    simp only [nonzero_at, scenario_point] at hn
    by_cases h : c.1 = "B" ∧ x = 2 ∧ y = -1
    · exact h.2
    · rw [if_neg h] at hn
      simp [Half.zero, Half.isNonZero] at hn
  ⟨hwf, h0, honly, get_bounding_box_single_point scenario_point _ _ _ 2 (-1) hwf h0 honly⟩

/-- C4: for an image with a data window that is not empty, the window
`get_bounding_box` returns lies inside the data window, also when no sample
is different from zero. -/
theorem get_bounding_box_subset (file : InputFile) (dw disp : Box2i) (cs : ChannelList)
    (hwf : image_wellFormed file dw disp cs) :
    ∃ bb, get_bounding_box file = .ok bb ∧
      dw.min.x ≤ bb.min.x ∧ bb.max.x ≤ dw.max.x ∧
      dw.min.y ≤ bb.min.y ∧ bb.max.y ≤ dw.max.y := by
  refine ⟨_, get_bounding_box_eq file dw disp cs hwf, ?_⟩
  obtain ⟨_, _, _, hx, hy, _⟩ := hwf
  by_cases hocc : ∃ x y, occupied file dw cs x y
  · obtain ⟨_, ⟨⟨y1, h1, _⟩, _⟩, ⟨⟨y2, _, h2, _⟩, _⟩, ⟨⟨x3, _, _, h3, _⟩, _⟩,
      ⟨⟨x4, _, _, _, h4, _⟩, _⟩⟩ := bounding_box_of_occupied file dw cs hocc
    exact ⟨h1, h2, h3, h4⟩
  · have hno : ∀ x y, ¬ occupied file dw cs x y := fun x y h => hocc ⟨x, y, h⟩
    rw [(bounding_box_of_empty file dw cs hno).2]
    simp only [min_box]
    omega

theorem get_bounding_box_subset_witness :
    image_wellFormed scenario_zero ⟨⟨-5, -3⟩, ⟨4, 6⟩⟩ ⟨⟨0, 0⟩, ⟨9, 9⟩⟩
      [("A", Channel.ofType .HALF), ("B", Channel.ofType .FLOAT)] ∧
    ∃ bb, get_bounding_box scenario_zero = .ok bb ∧
      (-5 : Int) ≤ bb.min.x ∧ bb.max.x ≤ 4 ∧ (-3 : Int) ≤ bb.min.y ∧ bb.max.y ≤ 6 :=
  have hwf : image_wellFormed scenario_zero ⟨⟨-5, -3⟩, ⟨4, 6⟩⟩ ⟨⟨0, 0⟩, ⟨9, 9⟩⟩
      [("A", Channel.ofType .HALF), ("B", Channel.ofType .FLOAT)] :=
    scenario_wellFormed _ _ _ _ (by decide) (by decide)
      (by simp [channels_wellFormed, Channel.ofType])
  ⟨hwf, get_bounding_box_subset scenario_zero _ _ _ hwf⟩

theorem header_find_assign (h : Header) (n k : String) (a : Attribute) :
    header_find (header_assign h n a) k =
      if k = n then (header_find h k).map (fun _ => a) else header_find h k := by
  unfold header_find header_assign
  induction h with
  | nil => simp
  | cons p h ih =>
    obtain ⟨k1, v1⟩ := p
    simp only [List.map_cons, List.lookup_cons]
    by_cases hk : k = k1
    · subst hk
      by_cases hn : k = n
      · subst hn; simp
      · simp [hn]
    · have hb : (k == k1) = false := by simpa using hk
      by_cases hn : k1 = n
      · subst hn
        simp only [if_true, List.lookup_cons, hb, ih]
      · simp only [if_neg hn, List.lookup_cons, hb, ih]

theorem only_channel_wellFormed (file : InputFile) (dw disp : Box2i) (cs : ChannelList)
    (c : String × Channel) (hwf : image_wellFormed file dw disp cs) (hc : c ∈ cs) :
    image_wellFormed (only_channel file c) dw disp [c] := by
  obtain ⟨hdw, hdisp, hcs, hx, hy, hnd, hne, hs⟩ := hwf
  refine ⟨?_, ?_, ?_, hx, hy, by simp, ?_, ?_⟩
  · unfold header_dataWindow at hdw ⊢
    simp only [only_channel]
    rw [header_find_assign, if_neg (by decide)]
    exact hdw
  · unfold header_displayWindow at hdisp ⊢
    simp only [only_channel]
    rw [header_find_assign, if_neg (by decide)]
    exact hdisp
  · unfold header_channels at hcs ⊢
    simp only [only_channel]
    rw [header_find_assign, if_pos rfl]
    cases hf : header_find file.header "channels" with
    | none => rw [hf] at hcs; cases hcs
    | some a => rfl
  · intro c1 h1
    simp only [List.mem_singleton] at h1
    subst h1
    exact hne _ hc
  · intro c1 h1
    simp only [List.mem_singleton] at h1
    subst h1
    exact hs _ hc

theorem occupied_append (file : InputFile) (dw : Box2i) (l1 l2 : ChannelList) (x y : Int) :
    occupied file dw (l1 ++ l2) x y ↔ occupied file dw l1 x y ∨ occupied file dw l2 x y := by
  unfold occupied
  constructor
  · rintro ⟨h1, h2, h3, h4, c, hc, hn⟩
    rcases List.mem_append.mp hc with h | h
    · exact Or.inl ⟨h1, h2, h3, h4, c, h, hn⟩
    · exact Or.inr ⟨h1, h2, h3, h4, c, h, hn⟩
  · rintro (⟨h1, h2, h3, h4, c, hc, hn⟩ | ⟨h1, h2, h3, h4, c, hc, hn⟩)
    · exact ⟨h1, h2, h3, h4, c, List.mem_append_left _ hc, hn⟩
    · exact ⟨h1, h2, h3, h4, c, List.mem_append_right _ hc, hn⟩

theorem IsBoundingWindow_hull (file : InputFile) (dw : Box2i) (l1 l2 : ChannelList)
    (b1 b2 : Box2i) (h1 : IsBoundingWindow file dw l1 b1)
    (h2 : IsBoundingWindow file dw l2 b2) :
    IsBoundingWindow file dw (l1 ++ l2) (box_hull b1 b2) := by
  obtain ⟨⟨⟨y1, p1⟩, a1⟩, ⟨⟨y2, p2⟩, a2⟩, ⟨⟨x3, p3⟩, a3⟩, ⟨⟨x4, p4⟩, a4⟩⟩ := h1
  obtain ⟨⟨⟨v1, q1⟩, c1⟩, ⟨⟨v2, q2⟩, c2⟩, ⟨⟨u3, q3⟩, c3⟩, ⟨⟨u4, q4⟩, c4⟩⟩ := h2
  simp only [IsBoundingWindow, occupied_append, box_hull]
  refine ⟨⟨?_, ?_⟩, ⟨?_, ?_⟩, ⟨?_, ?_⟩, ⟨?_, ?_⟩⟩
  · rcases le_total b1.min.x b2.min.x with h | h
    · rw [min_eq_left h]; exact ⟨y1, Or.inl p1⟩
    · rw [min_eq_right h]; exact ⟨v1, Or.inr q1⟩
  · rintro x y (h | h)
    · have := a1 x y h; omega
    · have := c1 x y h; omega
  · rcases le_total b1.max.x b2.max.x with h | h
    · rw [max_eq_right h]; exact ⟨v2, Or.inr q2⟩
    · rw [max_eq_left h]; exact ⟨y2, Or.inl p2⟩
  · rintro x y (h | h)
    · have := a2 x y h; omega
    · have := c2 x y h; omega
  · rcases le_total b1.min.y b2.min.y with h | h
    · rw [min_eq_left h]; exact ⟨x3, Or.inl p3⟩
    · rw [min_eq_right h]; exact ⟨u3, Or.inr q3⟩
  · rintro x y (h | h)
    · have := a3 x y h; omega
    · have := c3 x y h; omega
  · rcases le_total b1.max.y b2.max.y with h | h
    · rw [max_eq_right h]; exact ⟨u4, Or.inr q4⟩
    · rw [max_eq_left h]; exact ⟨x4, Or.inl p4⟩
  · rintro x y (h | h)
    · have := a4 x y h; omega
    · have := c4 x y h; omega

theorem IsBoundingWindow_fold (file : InputFile) (dw : Box2i) (cs : ChannelList)
    (hnz : ∀ c ∈ cs, ∃ x y, occupied file dw [c] x y)
    (l0 : ChannelList) (b : Box2i) (hb : IsBoundingWindow file dw l0 b) :
    IsBoundingWindow file dw (l0 ++ cs)
      ((cs.map fun c => (bounding_box_of file dw [c]).box).foldl box_hull b) := by
  induction cs generalizing l0 b with
  | nil => simpa using hb
  | cons c cs ih =>
    have hc := (bounding_box_of_occupied file dw [c] (hnz c (by simp))).2
    have h := ih (fun c1 h1 => hnz c1 (by simp [h1])) (l0 ++ [c]) _
      (IsBoundingWindow_hull file dw l0 [c] b _ hb hc)
    simpa using h

/-- C5: when every channel holds a sample that is not zero, the window
`get_bounding_box` returns for the image is the smallest rectangle that
encloses the windows it returns for each channel alone. -/
theorem get_bounding_box_union (file : InputFile) (dw disp : Box2i)
    (c : String × Channel) (cs : ChannelList)
    (hwf : image_wellFormed file dw disp (c :: cs))
    (hnz : ∀ c1 ∈ c :: cs, ∃ x y, occupied file dw [c1] x y) :
    ∃ b bs, get_bounding_box (only_channel file c) = .ok b ∧
      List.Forall₂ (fun c1 b1 => get_bounding_box (only_channel file c1) = .ok b1) cs bs ∧
      get_bounding_box file = .ok (bs.foldl box_hull b) := by
  refine ⟨(bounding_box_of file dw [c]).box,
    cs.map fun c1 => (bounding_box_of file dw [c1]).box, ?_, ?_, ?_⟩
  · exact get_bounding_box_eq _ dw disp [c]
      (only_channel_wellFormed file dw disp _ c hwf (by simp))
  · rw [List.forall₂_map_right_iff, List.forall₂_same]
    intro c1 h1
    exact get_bounding_box_eq _ dw disp [c1]
      (only_channel_wellFormed file dw disp _ c1 hwf (by simp [h1]))
  · rw [get_bounding_box_eq file dw disp _ hwf]
    congr 1
    have hocc : ∃ x y, occupied file dw (c :: cs) x y := by
      obtain ⟨x, y, h⟩ := hnz c (by simp)
      exact ⟨x, y, (occupied_append file dw [c] cs x y).mpr (Or.inl h)⟩
    refine IsBoundingWindow_unique file dw (c :: cs) _ _
      (bounding_box_of_occupied file dw _ hocc).2 ?_
    exact IsBoundingWindow_fold file dw cs (fun c1 h1 => hnz c1 (by simp [h1])) [c] _
      (bounding_box_of_occupied file dw [c] (hnz c (by simp))).2

theorem get_bounding_box_union_witness :
    image_wellFormed scenario_corners ⟨⟨0, 0⟩, ⟨9, 9⟩⟩ ⟨⟨0, 0⟩, ⟨9, 9⟩⟩
      (("A", Channel.ofType .HALF) :: [("B", Channel.ofType .HALF)]) ∧
    (∀ c1 ∈ ("A", Channel.ofType .HALF) :: [("B", Channel.ofType .HALF)],
      ∃ x y, occupied scenario_corners ⟨⟨0, 0⟩, ⟨9, 9⟩⟩ [c1] x y) ∧
    get_bounding_box scenario_corners = .ok ⟨⟨0, 0⟩, ⟨9, 9⟩⟩ ∧
    get_bounding_box (only_channel scenario_corners ("A", Channel.ofType .HALF)) =
      .ok ⟨⟨0, 0⟩, ⟨0, 0⟩⟩ ∧
    get_bounding_box (only_channel scenario_corners ("B", Channel.ofType .HALF)) =
      .ok ⟨⟨9, 9⟩, ⟨9, 9⟩⟩ ∧
    ∃ b bs, get_bounding_box (only_channel scenario_corners ("A", Channel.ofType .HALF)) =
        .ok b ∧
      List.Forall₂ (fun c1 b1 => get_bounding_box (only_channel scenario_corners c1) = .ok b1)
        [("B", Channel.ofType .HALF)] bs ∧
      get_bounding_box scenario_corners = .ok (bs.foldl box_hull b) :=
  have hwf : image_wellFormed scenario_corners ⟨⟨0, 0⟩, ⟨9, 9⟩⟩ ⟨⟨0, 0⟩, ⟨9, 9⟩⟩
      (("A", Channel.ofType .HALF) :: [("B", Channel.ofType .HALF)]) :=
    scenario_wellFormed _ _ _ _ (by decide) (by decide)
      (by simp [channels_wellFormed, Channel.ofType])
  have hnz : ∀ c1 ∈ ("A", Channel.ofType .HALF) :: [("B", Channel.ofType .HALF)],
      ∃ x y, occupied scenario_corners ⟨⟨0, 0⟩, ⟨9, 9⟩⟩ [c1] x y := by
    intro c1 h1
    simp only [List.mem_cons, List.mem_singleton, List.not_mem_nil, or_false] at h1
    rcases h1 with rfl | rfl
    · exact ⟨0, 0, by decide, by decide, by decide, by decide, _, List.mem_singleton.mpr rfl,
        by simp [nonzero_at, scenario_corners, Half.one, Half.isNonZero]⟩
    · exact ⟨9, 9, by decide, by decide, by decide, by decide, _, List.mem_singleton.mpr rfl,
        by simp [nonzero_at, scenario_corners, Half.one, Half.isNonZero]⟩
  ⟨hwf, hnz, rfl, rfl, rfl, get_bounding_box_union scenario_corners _ _ _ _ hwf hnz⟩

/-! ## The header of the output file -/

theorem lookup_map_replace {β : Type} (l : List (String × β)) (n k : String) (a : β) :
    (l.map fun p => if p.1 = n then (p.1, a) else p).lookup k =
      if k = n then (l.lookup k).map (fun _ => a) else l.lookup k := by
  induction l with
  | nil => simp
  | cons p l ih =>
    obtain ⟨k1, v1⟩ := p
    simp only [List.map_cons, List.lookup_cons]
    by_cases hk : k = k1
    · subst hk
      by_cases hn : k = n
      · subst hn; simp
      · simp [hn]
    · have hb : (k == k1) = false := by simpa using hk
      by_cases hn : k1 = n
      · subst hn
        simp only [if_true, List.lookup_cons, hb, ih]
      · simp only [if_neg hn, List.lookup_cons, hb, ih]

theorem lookup_put {β : Type} (l : List (String × β)) (n k : String) (a : β) :
    (match l.lookup n with
      | some _ => l.map fun (p : String × β) => if p.1 = n then (p.1, a) else p
      | none => l ++ [(n, a)]).lookup k =
      if k = n then some a else l.lookup k := by
  cases hl : l.lookup n with
  | some v =>
    simp only [lookup_map_replace]
    by_cases hk : k = n
    · subst hk; simp [hl]
    · simp [hk]
  | none =>
    simp only [List.lookup_append]
    by_cases hk : k = n
    · subst hk; simp [hl, List.lookup_cons]
    · have hb : (k == n) = false := by simpa using hk
      simp [hk, List.lookup_cons, hb]

theorem header_find_cons (h : Header) (n k : String) (a : Attribute) :
    header_find ((n, a) :: h) k = if k = n then some a else header_find h k := by
  unfold header_find
  rw [List.lookup_cons]
  by_cases hk : k = n
  · subst hk; simp
  · have hb : (k == n) = false := by simpa using hk
    simp [hk, hb]

theorem header_insert_spec (h : Header) (name : String) (a : Attribute)
    (hne : name ≠ "")
    (hty : ∀ old, header_find h name = some old → old.typeName = a.typeName) :
    ∃ h1, header_insert h name a = .ok h1 ∧
      ∀ k, header_find h1 k = if k = name then some a else header_find h k := by
  unfold header_insert
  rw [if_neg hne]
  cases hf : header_find h name with
  | none =>
    refine ⟨_, rfl, ?_⟩
    intro k
    have := lookup_put h name k a
    unfold header_find at hf ⊢
    rw [hf] at this
    exact this
  | some old =>
    simp only [if_pos (hty old hf)]
    refine ⟨_, rfl, ?_⟩
    intro k
    have := lookup_put h name k a
    unfold header_find at hf ⊢
    rw [hf] at this
    exact this

theorem copy_attributes_spec (src : Header) (h : Header)
    (hnd : (src.map Prod.fst).Nodup) (hne : ∀ p ∈ src, p.1 ≠ "")
    (hty : ∀ p ∈ src, ∀ old, header_find h p.1 = some old → old.typeName = p.2.typeName) :
    ∃ h1, copy_attributes src h = .ok h1 ∧
      ∀ k, header_find h1 k =
        if is_derived_key k = true then header_find h k
        else match header_find src k with
          | some a => some a
          | none => header_find h k := by
  unfold copy_attributes
  induction src generalizing h with
  | nil =>
    refine ⟨h, rfl, ?_⟩
    intro k
    simp [header_find]
  | cons p src ih =>
    obtain ⟨n, a⟩ := p
    simp only [List.map_cons, List.nodup_cons] at hnd
    simp only [List.foldlM_cons, bind, Except.bind]
    by_cases hd : is_derived_key n = true
    · simp only [hd, if_true, pure, Except.pure]
      obtain ⟨h1, e1, s1⟩ := ih h hnd.2 (fun p hp => hne p (by simp [hp]))
        (fun p hp => hty p (by simp [hp]))
      refine ⟨h1, e1, ?_⟩
      intro k
      rw [s1 k]
      by_cases hk : is_derived_key k = true
      · simp [hk]
      · have hkn : k ≠ n := by
          intro e; subst e; exact hk hd
        simp only [hk, header_find_cons, if_neg hkn]
    · simp only [hd]
      obtain ⟨h0, e0, s0⟩ := header_insert_spec h n a (hne (n, a) (by simp))
        (hty (n, a) (by simp))
      simp only [Bool.false_eq_true, if_false] at e0 ⊢
      rw [e0]
      simp only
      obtain ⟨h1, e1, s1⟩ := ih h0 hnd.2 (fun p hp => hne p (by simp [hp])) (by
        intro p hp old hold
        have hpn : p.1 ≠ n := by
          intro e
          exact hnd.1 (e ▸ List.mem_map_of_mem Prod.fst hp)
        rw [s0, if_neg hpn] at hold
        exact hty p (by simp [hp]) old hold)
      refine ⟨h1, e1, ?_⟩
      intro k
      rw [s1 k]
      by_cases hk : is_derived_key k = true
      · have hkn : k ≠ n := by
          intro e; subst e; exact hd hk
        simp [hk, s0, hkn]
      · simp only [hk, Bool.false_eq_true, if_false]
        by_cases hkn : k = n
        · subst hkn
          have hnone : header_find src k = none := by
            unfold header_find
            rw [List.lookup_eq_none_iff]
            intro q hq
            simp only [bne_iff_ne, ne_eq]
            intro e
            exact hnd.1 (e ▸ List.mem_map_of_mem Prod.fst hq)
          rw [hnone, header_find_cons, if_pos rfl, s0, if_pos rfl]
        · rw [header_find_cons, if_neg hkn, s0, if_neg hkn]

theorem nodup_lookup {β : Type} (l : List (String × β)) (p : String × β)
    (hnd : (l.map Prod.fst).Nodup) (hp : p ∈ l) : l.lookup p.1 = some p.2 := by
  induction l with
  | nil => simp at hp
  | cons q l ih =>
    simp only [List.map_cons, List.nodup_cons] at hnd
    rw [List.lookup_cons]
    rcases List.mem_cons.mp hp with h | h
    · subst h; simp
    · have hne : p.1 ≠ q.1 := by
        intro e
        exact hnd.1 (e ▸ List.mem_map_of_mem Prod.fst h)
      have hb : (p.1 == q.1) = false := by simpa using hne
      rw [hb]
      exact ih hnd.2 h

theorem header_create_types (disp bb : Box2i) (k : String) (old : Attribute)
    (h : header_find (header_create disp bb) k = some old) :
    (k, old.typeName) ∈ predefined_types := by
  simp only [header_create, header_find_cons] at h
  simp only [predefined_types, List.mem_cons, Prod.mk.injEq, List.mem_singleton]
  split_ifs at h with h1 h2 h3 h4 h5 h6 h7 h8
  all_goals first
    | (simp only [Option.some.injEq] at h; subst h; simp [Attribute.typeName, *])
    | (simp [header_find] at h)

theorem copy_channels_spec (cs : ChannelList) (h : Header)
    (hch : header_find h "channels" = some (.chlist []))
    (hnd : (cs.map Prod.fst).Nodup) (hne : ∀ c ∈ cs, c.1 ≠ "") :
    ∃ h1, copy_channels cs h = .ok (h1, cs.length) ∧
      ∀ k, header_find h1 k =
        if k = "channels" then
          some (.chlist (cs.map fun c => (c.1, Channel.ofType .HALF)))
        else header_find h k := by
  unfold copy_channels
  induction cs using List.reverseRecOn with
  | nil =>
    refine ⟨h, rfl, ?_⟩
    intro k
    by_cases hk : k = "channels"
    · subst hk; simp [hch]
    · simp [hk]
  | append_singleton cs c ih =>
    have hnd1 : (cs.map Prod.fst).Nodup ∧ c.1 ∉ cs.map Prod.fst := by
      rw [List.map_append, List.nodup_append] at hnd
      refine ⟨hnd.1, ?_⟩
      intro hc
      exact hnd.2.2 hc (by simp)
    obtain ⟨h1, e1, s1⟩ := ih hnd1.1 (fun c hc => hne c (by simp [hc]))
    rw [List.foldlM_append, e1]
    have hc1 : header_channels h1 =
        .ok (cs.map fun c => (c.1, Channel.ofType .HALF)) := by
      unfold header_channels
      rw [s1, if_pos rfl]
    have hlk : (cs.map fun c => (c.1, Channel.ofType PixelType.HALF)).lookup c.1 = none := by
      rw [List.lookup_eq_none_iff]
      intro q hq
      simp only [List.mem_map] at hq
      obtain ⟨d, hd, rfl⟩ := hq
      simp only [bne_iff_ne, ne_eq]
      intro e
      exact hnd1.2 (e ▸ List.mem_map_of_mem Prod.fst hd)
    simp only [List.foldlM_cons, List.foldlM_nil, bind, Except.bind, hc1, chlist_insert,
      if_neg (hne c (by simp)), hlk, pure, Except.pure, List.length_append,
      List.length_singleton]
    refine ⟨_, rfl, ?_⟩
    intro k
    rw [header_find_assign]
    by_cases hk : k = "channels"
    · subst hk
      simp [s1]
    · simp only [if_neg hk, s1]

theorem autocrop_header_spec (file : InputFile) (dw disp : Box2i) (cs : ChannelList)
    (bb : Box2i) (hwf : source_wellFormed file dw disp cs) :
    ∃ h, autocrop_header file bb = .ok (h, cs.length) ∧
      ∀ k, header_find h k = cropped_header_find file.header disp bb cs k := by
  unfold cropped_header_find
  obtain ⟨⟨hdw, hdisp, hcs, _, _, hcnd, hcne, _⟩, hnd, hne, hpre, hoth⟩ := hwf
  unfold autocrop_header
  simp only [hdw, hdisp, hcs, bind, Except.bind]
  obtain ⟨h1, e1, s1⟩ := copy_attributes_spec file.header (header_create disp bb) hnd hne (by
    intro p hp old hold
    have hq := header_create_types disp bb p.1 old hold
    have := hpre _ hq
    simp only at this
    have hl : header_find file.header p.1 = some p.2 := nodup_lookup _ p hnd hp
    rw [hl] at this
    simp only [Option.map_some', Option.some.injEq] at this
    exact this.symm)
  rw [e1]
  simp only
  obtain ⟨h2, e2, s2⟩ := copy_channels_spec cs h1 (by
    rw [s1, if_pos (by decide)]
    rfl) hcnd hcne
  rw [e2]
  simp only
  have hcomp : ∃ c, header_find h2 "compression" = some (.compression c) := by
    rw [s2, if_neg (by decide), s1, if_neg (by decide)]
    have := hpre ("compression", "compression") (by simp [predefined_types])
    simp only at this
    cases hf : header_find file.header "compression" with
    | none => rw [hf] at this; simp at this
    | some a =>
      rw [hf] at this
      simp only [Option.map_some', Option.some.injEq] at this
      have hmem : ("compression", a) ∈ file.header := lookup_mem _ _ _ hf
      cases a with
      | compression c => exact ⟨c, rfl⟩
      | other n d =>
        exfalso
        have hok := hoth _ hmem
        simp only [Attribute.typeName] at this
        subst this
        simp [attribute_ok, known_type_names] at hok
      | box2i v => simp [Attribute.typeName] at this
      | chlist v => simp [Attribute.typeName] at this
      | lineOrder v => simp [Attribute.typeName] at this
      | float v => simp [Attribute.typeName] at this
      | v2f v w => simp [Attribute.typeName] at this
      | tiledesc u v w => simp [Attribute.typeName] at this
  obtain ⟨c, hc⟩ := hcomp
  simp only [header_compression, hc, pure, Except.pure]
  refine ⟨_, rfl, ?_⟩
  intro k
  rw [header_find_assign]
  by_cases hk : k = "compression"
  · subst hk
    simp [hc]
  · rw [if_neg hk, if_neg hk, s2]
    by_cases hk2 : k = "channels"
    · simp [hk2]
    · rw [if_neg hk2, if_neg hk2, s1]

/-! ## The copy pass -/

theorem bounding_box_of_bounds (file : InputFile) (dw : Box2i) (cs : ChannelList)
    (hx : dw.min.x ≤ dw.max.x) (hy : dw.min.y ≤ dw.max.y) :
    dw.min.x ≤ (bounding_box_of file dw cs).box.min.x ∧
    (bounding_box_of file dw cs).box.min.x ≤ (bounding_box_of file dw cs).box.max.x ∧
    (bounding_box_of file dw cs).box.max.x ≤ dw.max.x ∧
    dw.min.y ≤ (bounding_box_of file dw cs).box.min.y ∧
    (bounding_box_of file dw cs).box.min.y ≤ (bounding_box_of file dw cs).box.max.y ∧
    (bounding_box_of file dw cs).box.max.y ≤ dw.max.y := by
  by_cases hocc : ∃ x y, occupied file dw cs x y
  · obtain ⟨_, ⟨⟨y1, h1, h1b, _⟩, _⟩, ⟨⟨y2, _, h2, _⟩, a2⟩, ⟨⟨x3, h3a, h3b, h3, h3c, h3d⟩, _⟩,
      ⟨⟨x4, _, _, _, h4, _⟩, a4⟩⟩ := bounding_box_of_occupied file dw cs hocc
    have e1 := a2 _ y1 ⟨h1, h1b, by assumption⟩
    have e2 := a4 x3 _ ⟨h3a, h3b, h3, h3c, h3d⟩
    exact ⟨h1, e1, h2, h3, e2, h4⟩
  · have hno : ∀ x y, ¬ occupied file dw cs x y := fun x y h => hocc ⟨x, y, h⟩
    rw [(bounding_box_of_empty file dw cs hno).2]
    simp only [min_box]
    omega

theorem mapM_ok {α β : Type} (f : α → Except Exc β) (g : α → β) (l : List α)
    (h : ∀ a ∈ l, f a = .ok (g a)) : l.mapM f = .ok (l.map g) := by
  induction l with
  | nil => rfl
  | cons a l ih =>
    rw [List.mapM_cons, h a (by simp), ih (fun b hb => h b (by simp [hb]))]
    rfl

theorem frame_buffer_of_lookup (cs : ChannelList) (dw : Box2i) (c : String × Channel)
    (hnd : (cs.map Prod.fst).Nodup) (hc : c ∈ cs) :
    ∃ i, (frame_buffer_of cs dw).lookup c.1 = some (row_slice i dw) ∧ cs.get? i = some c := by
  obtain ⟨i, hi, hget⟩ := List.getElem_of_mem hc
  refine ⟨i, ?_, ?_⟩
  · have hmem : (c.1, row_slice i dw) ∈ frame_buffer_of cs dw := by
      simp only [frame_buffer_of, List.mem_map]
      refine ⟨(i, c), ?_, rfl⟩
      rw [List.mk_mem_enum_iff_getElem?, List.getElem?_eq_getElem hi, hget]
    have hnd2 : ((frame_buffer_of cs dw).map Prod.fst).Nodup := by
      have : (frame_buffer_of cs dw).map Prod.fst = cs.map Prod.fst := by
        simp only [frame_buffer_of, List.map_map]
        have h2 : (cs.enum.map Prod.snd).map Prod.fst = cs.map Prod.fst := by
          rw [List.enum_map_snd]
        rw [← h2, List.map_map]
        rfl
      rw [this]; exact hnd
    exact nodup_lookup _ (c.1, row_slice i dw) hnd2 hmem
  · rw [List.get?_eq_getElem?, List.getElem?_eq_getElem hi, hget]

theorem load_row (file : InputFile) (dw : Box2i) (data : Buffers) (i : Nat)
    (name : String) (x y : Int)
    (hd : data.get? i = some (image_row file dw name y))
    (h1 : dw.min.x ≤ x) (h2 : x ≤ dw.max.x) :
    buffers_load data (row_slice i dw) x y = .ok (file.pixels name x y) := by
  have hoff : (row_slice i dw).offset x y = 2 * (x - dw.min.x) := by
    simp only [Slice.offset, row_slice]; ring
  have hbuf : (row_slice i dw).buf = i := rfl
  simp only [buffers_load, hoff, hbuf, hd]
  rw [if_pos ⟨by omega, by omega⟩]
  have hdiv : (2 * (x - dw.min.x) / 2).toNat = (x - dw.min.x).toNat := by omega
  rw [hdiv]
  have hg : (image_row file dw name y).get? (x - dw.min.x).toNat =
      some (file.pixels name x y) := by
    unfold image_row
    rw [List.get?_eq_getElem?, List.getElem?_map]
    have := intRange_get? dw.min.x dw.max.x (x - dw.min.x).toNat (by omega)
    rw [List.get?_eq_getElem?] at this
    rw [this]
    simp only [Option.map_some', Option.some.injEq]
    congr 1
    omega
  rw [hg]

theorem intRange_cons (lo hi : Int) (h : lo ≤ hi) :
    intRange lo hi = lo :: intRange (lo + 1) hi := by
  unfold intRange
  have hn : (hi - lo + 1).toNat = (hi - (lo + 1) + 1).toNat + 1 := by omega
  rw [hn, List.range_succ_eq_map]
  simp only [List.map_cons, List.map_map, Nat.cast_zero, add_zero]
  congr 1
  apply List.map_congr_left
  intro k _
  simp only [Function.comp, Nat.cast_succ]
  ring

theorem intRange_nil (lo hi : Int) (h : hi < lo) : intRange lo hi = [] := by
  unfold intRange
  have hn : (hi - lo + 1).toNat = 0 := by omega
  rw [hn]; rfl

theorem writePixels_ok (file : InputFile) (dw bb : Box2i) (cs : ChannelList)
    (out : OutputFile) (data : Buffers) (y : Int)
    (hnd : (cs.map Prod.fst).Nodup)
    (hdw : header_dataWindow out.header = .ok bb)
    (hlo : header_lineOrder out.header = .ok .INCREASING_Y)
    (hch : header_channels out.header = .ok (cs.map fun c => (c.1, Channel.ofType .HALF)))
    (hfb : out.frameBuffer = frame_buffer_of cs dw)
    (hcur : out.currentScanLine = y)
    (hy : bb.min.y ≤ y ∧ y ≤ bb.max.y)
    (hx : dw.min.x ≤ bb.min.x ∧ bb.max.x ≤ dw.max.x)
    (hdata : data = cs.map fun c => image_row file dw c.1 y) :
    outputfile_writePixels out data =
      .ok { out with currentScanLine := y + 1,
                     scanLines := out.scanLines ++ [cropped_line file bb cs y] } := by
  unfold outputfile_writePixels
  simp only [hdw, hlo, hch, hcur, bind, Except.bind]
  rw [if_neg (by omega)]
  have hline : (cs.map fun c => (c.1, Channel.ofType PixelType.HALF)).mapM
      (fun c => do
        let samples ← outputfile_collect out.frameBuffer data bb y c.1
        pure (c.1, samples)) =
      .ok ((cs.map fun c => (c.1, Channel.ofType PixelType.HALF)).map fun c =>
        (c.1, (intRange bb.min.x bb.max.x).map fun x => file.pixels c.1 x y)) := by
    apply mapM_ok
    intro a ha
    simp only [List.mem_map] at ha
    obtain ⟨c, hc, rfl⟩ := ha
    obtain ⟨i, hl, hget⟩ := frame_buffer_of_lookup cs dw c hnd hc
    have hcol : outputfile_collect out.frameBuffer data bb y c.1 =
        .ok ((intRange bb.min.x bb.max.x).map fun x => file.pixels c.1 x y) := by
      unfold outputfile_collect
      rw [hfb, hl]
      simp only
      apply mapM_ok
      intro x hx1
      rw [mem_intRange] at hx1
      refine load_row file dw data i c.1 x y ?_ (by omega) (by omega)
      rw [hdata, List.get?_eq_getElem?, List.getElem?_map]
      rw [List.get?_eq_getElem?] at hget
      rw [hget]
      rfl
    simp only [hcol, bind, Except.bind, pure, Except.pure]
  simp only [bind, Except.bind] at hline
  rw [hline]
  simp only [List.map_map, cropped_line]
  rfl

theorem copy_loop_ok (file : InputFile) (dw bb : Box2i) (cs : ChannelList) (h : Header)
    (hsdw : header_dataWindow file.header = .ok dw)
    (hscs : header_channels file.header = .ok cs)
    (hnd : (cs.map Prod.fst).Nodup)
    (hdw : header_dataWindow h = .ok bb)
    (hlo : header_lineOrder h = .ok .INCREASING_Y)
    (hch : header_channels h = .ok (cs.map fun c => (c.1, Channel.ofType .HALF)))
    (hx : dw.min.x ≤ bb.min.x ∧ bb.max.x ≤ dw.max.x)
    (hy : dw.min.y ≤ bb.min.y ∧ bb.max.y ≤ dw.max.y)
    (n : Nat) :
    ∀ (lo : Int) (out : OutputFile) (data : Buffers),
      (bb.max.y - lo + 1).toNat = n → bb.min.y ≤ lo → lo ≤ bb.max.y + 1 →
      out.header = h → out.frameBuffer = frame_buffer_of cs dw →
      out.currentScanLine = lo → data.length = cs.length →
      (∀ i b, data.get? i = some b → b.length = (dw.max.x - dw.min.x + 1).toNat) →
      ∃ data1, (intRange lo bb.max.y).foldlM
          (fun (st : OutputFile × Buffers) y => do
            let data ← inputfile_readPixels file (frame_buffer_of cs dw) st.2 y
            let out ← outputfile_writePixels st.1 data
            pure (out, data))
          (out, data) =
        .ok ({ header := h, frameBuffer := frame_buffer_of cs dw,
               currentScanLine := bb.max.y + 1,
               scanLines := out.scanLines ++
                 (intRange lo bb.max.y).map (cropped_line file bb cs) }, data1) := by
  induction n with
  | zero =>
    intro lo out data hn h1 h2 hh hf hc _ _
    have hlo1 : lo = bb.max.y + 1 := by omega
    rw [intRange_nil lo bb.max.y (by omega)]
    refine ⟨data, ?_⟩
    simp only [List.foldlM_nil, List.map_nil, List.append_nil, pure, Except.pure]
    congr 2
    obtain ⟨a, b, c, d⟩ := out
    simp only at hh hf hc
    rw [hh, hf, hc, hlo1]
  | succ n ih =>
    intro lo out data hn h1 h2 hh hf hc hl hw
    have hle : lo ≤ bb.max.y := by omega
    rw [intRange_cons lo bb.max.y hle]
    simp only [List.foldlM_cons, bind, Except.bind]
    rw [readPixels_ok file dw cs lo data hsdw hscs ⟨by omega, by omega⟩ hl hw]
    simp only
    rw [writePixels_ok file dw bb cs out _ lo hnd (hh ▸ hdw) (hh ▸ hlo) (hh ▸ hch) hf hc
      ⟨h1, hle⟩ hx rfl]
    simp only [pure, Except.pure]
    obtain ⟨hl2, hw2⟩ := rows_length file dw cs lo
    obtain ⟨data1, e1⟩ := ih (lo + 1)
      { out with currentScanLine := lo + 1,
                 scanLines := out.scanLines ++ [cropped_line file bb cs lo] }
      (cs.map fun c => image_row file dw c.1 lo)
      (by omega) (by omega) (by omega) hh hf rfl hl2 hw2
    simp only [bind, Except.bind, pure, Except.pure] at e1
    refine ⟨data1, ?_⟩
    rw [e1]
    simp only [List.map_cons, List.append_assoc, List.singleton_append]

theorem cropped_header_accessors (src : Header) (disp bb : Box2i) (cs : ChannelList)
    (h : Header) (hspec : ∀ k, header_find h k = cropped_header_find src disp bb cs k) :
    header_dataWindow h = .ok bb ∧ header_displayWindow h = .ok disp ∧
    header_lineOrder h = .ok .INCREASING_Y ∧
    header_compression h = .ok .ZIPS_COMPRESSION ∧
    header_channels h = .ok (cs.map fun c => (c.1, Channel.ofType .HALF)) ∧
    header_find h "tiles" = none := by
  refine ⟨?_, ?_, ?_, ?_, ?_, ?_⟩
  · unfold header_dataWindow
    rw [hspec]
    simp only [cropped_header_find]
    rw [if_neg (by decide), if_neg (by decide), if_pos (by decide)]
    rfl
  · unfold header_displayWindow
    rw [hspec]
    simp only [cropped_header_find]
    rw [if_neg (by decide), if_neg (by decide), if_pos (by decide)]
    rfl
  · unfold header_lineOrder
    rw [hspec]
    simp only [cropped_header_find]
    rw [if_neg (by decide), if_neg (by decide), if_pos (by decide)]
    rfl
  · unfold header_compression
    rw [hspec]
    unfold cropped_header_find
    rw [if_pos rfl]
  · unfold header_channels
    rw [hspec]
    unfold cropped_header_find
    rw [if_neg (by decide), if_pos rfl]
  · rw [hspec]
    simp only [cropped_header_find]
    rw [if_neg (by decide), if_neg (by decide), if_pos (by decide)]
    rfl

theorem autocrop_copy_ok (file : InputFile) (dw disp : Box2i) (cs : ChannelList)
    (bb : Box2i) (h : Header)
    (hwf : image_wellFormed file dw disp cs)
    (hbx : dw.min.x ≤ bb.min.x ∧ bb.min.x ≤ bb.max.x ∧ bb.max.x ≤ dw.max.x)
    (hby : dw.min.y ≤ bb.min.y ∧ bb.min.y ≤ bb.max.y ∧ bb.max.y ≤ dw.max.y)
    (hspec : ∀ k, header_find h k = cropped_header_find file.header disp bb cs k) :
    autocrop_copy file bb h cs.length = .ok (cropped_file file dw bb cs h) := by
  obtain ⟨hdw, hdisp, hcs, hx, hy, hnd, hne, hs⟩ := hwf
  obtain ⟨a1, a2, a3, a4, a5, _⟩ := cropped_header_accessors _ disp bb cs h hspec
  unfold autocrop_copy
  simp only [hdw, hcs, bind, Except.bind, outputfile_create, a1, a2, a3, a4, a5]
  rw [if_neg (by omega)]
  obtain ⟨data1, h1, hl1, hb1⟩ := setup_frame_buffer_ok cs dw
    (dw.max.x - dw.min.x + 1) (List.replicate cs.length []) (by omega) hne hnd (by simp)
  rw [h1]
  simp only [setFrameBuffer_ok file dw cs hcs hs]
  have hset : outputfile_setFrameBuffer
      { header := h, frameBuffer := [],
        currentScanLine := if LineOrder.INCREASING_Y = LineOrder.DECREASING_Y
          then bb.max.y else bb.min.y,
        scanLines := [] } (frame_buffer_of cs dw) =
      .ok { header := h, frameBuffer := frame_buffer_of cs dw,
            currentScanLine := bb.min.y, scanLines := [] } := by
    unfold outputfile_setFrameBuffer
    simp only [a5, bind, Except.bind]
    rw [if_pos]
    · rfl
    · rw [List.all_eq_true]
      intro c hc
      simp only [List.mem_map] at hc
      obtain ⟨d, hd, rfl⟩ := hc
      obtain ⟨i, hl, _⟩ := frame_buffer_of_lookup cs dw d hnd hd
      simp only [hl]
      simp [row_slice, Channel.ofType]
  rw [hset]
  simp only
  have hl2 : data1.length = cs.length := by simpa using hl1
  have hb2 : ∀ i b, data1.get? i = some b → b.length = (dw.max.x - dw.min.x + 1).toNat := by
    intro i b hb
    refine hb1 i b ?_ hb
    by_contra hc
    rw [List.get?_eq_getElem?, List.getElem?_eq_none (by omega)] at hb
    cases hb
  obtain ⟨data2, e2⟩ := copy_loop_ok file dw bb cs h hdw hcs hnd a1 a3 a5
    ⟨hbx.1, hbx.2.2⟩ ⟨hby.1, hby.2.2⟩ (bb.max.y - bb.min.y + 1).toNat bb.min.y
    { header := h, frameBuffer := frame_buffer_of cs dw,
      currentScanLine := bb.min.y, scanLines := [] } data1
    rfl (le_refl _) (by omega) rfl rfl rfl hl2 hb2
  simp only [bind, Except.bind] at e2
  rw [e2]
  rfl

theorem autocrop_ok (file : InputFile) (dw disp : Box2i) (cs : ChannelList)
    (hwf : source_wellFormed file dw disp cs) :
    ∃ h, autocrop_header file (bounding_box_of file dw cs).box = .ok (h, cs.length) ∧
      (∀ k, header_find h k =
        cropped_header_find file.header disp (bounding_box_of file dw cs).box cs k) ∧
      autocrop file = .ok (cropped_file file dw (bounding_box_of file dw cs).box cs h) := by
  obtain ⟨h, e1, s1⟩ := autocrop_header_spec file dw disp cs
    (bounding_box_of file dw cs).box hwf
  refine ⟨h, e1, s1, ?_⟩
  obtain ⟨b1, b2, b3, b4, b5, b6⟩ :=
    bounding_box_of_bounds file dw cs hwf.1.2.2.2.1 hwf.1.2.2.2.2.1
  unfold autocrop
  simp only [get_bounding_box_eq file dw disp cs hwf.1, bind, Except.bind, e1]
  exact autocrop_copy_ok file dw disp cs _ h hwf.1 ⟨b1, b2, b3⟩ ⟨b4, b5, b6⟩ s1

theorem scenario_tiled_wellFormed :
    source_wellFormed scenario_tiled ⟨⟨-5, -3⟩, ⟨4, 6⟩⟩ ⟨⟨0, 0⟩, ⟨9, 9⟩⟩
      [("A", Channel.ofType .UINT), ("B", Channel.ofType .FLOAT)] :=
  ⟨⟨rfl, rfl, rfl, by decide, by decide, by simp [channels_wellFormed, Channel.ofType]⟩,
    by decide, by decide, by decide, by decide⟩

/-- C6, as the claim states it, fails: `compression` is an attribute of the
source whose name is not one of the five names the copy loop skips, and the
output header holds another value under it. -/
theorem autocrop_compression_not_kept :
    header_find scenario_tiled.header "compression" =
      some (.compression .PIZ_COMPRESSION) ∧
    is_derived_key "compression" = false ∧
    (autocrop scenario_tiled).toOption.map
        (fun out => header_find out.header "compression") =
      some (some (.compression .ZIPS_COMPRESSION)) :=
  ⟨rfl, rfl, rfl⟩

/-- C6, amended: every attribute of the source whose name is neither one of
the five names the copy loop skips nor `compression` is in the output header
under the same name with the same value; under the five skipped names the
output header holds what the freshly built header holds, whatever the source
holds there. -/
theorem autocrop_attributes_kept (file : InputFile) (dw disp : Box2i) (cs : ChannelList)
    (hwf : source_wellFormed file dw disp cs) :
    ∃ bb out, get_bounding_box file = .ok bb ∧ autocrop file = .ok out ∧
      (∀ k a, header_find file.header k = some a → is_derived_key k = false →
        k ≠ "compression" → header_find out.header k = some a) ∧
      (∀ k, is_derived_key k = true →
        header_find out.header k = header_find (derived_header disp bb cs) k) := by
  obtain ⟨h, _, s1, e2⟩ := autocrop_ok file dw disp cs hwf
  refine ⟨_, _, get_bounding_box_eq file dw disp cs hwf.1, e2, ?_, ?_⟩
  · intro k a hk hd hc
    have hch : k ≠ "channels" := by
      intro e; subst e; revert hd; decide
    simp only [cropped_file]
    rw [s1, cropped_header_find, if_neg hc, if_neg hch, hd, hk]
    simp
  · intro k hd
    have hc : k ≠ "compression" := by
      intro e; subst e; revert hd; decide
    simp only [cropped_file, derived_header]
    rw [s1, cropped_header_find, if_neg hc, header_find_assign]
    by_cases hch : k = "channels"
    · subst hch
      simp [header_create, header_find_cons]
    · rw [if_neg hch, if_neg hch, if_pos hd]

theorem autocrop_attributes_kept_witness :
    source_wellFormed scenario_tiled ⟨⟨-5, -3⟩, ⟨4, 6⟩⟩ ⟨⟨0, 0⟩, ⟨9, 9⟩⟩
      [("A", Channel.ofType .UINT), ("B", Channel.ofType .FLOAT)] ∧
    (autocrop scenario_tiled).toOption.map
        (fun out => header_find out.header "comments") =
      some (some (.other "string" [104, 105])) ∧
    ∃ bb out, get_bounding_box scenario_tiled = .ok bb ∧
      autocrop scenario_tiled = .ok out ∧
      (∀ k a, header_find scenario_tiled.header k = some a → is_derived_key k = false →
        k ≠ "compression" → header_find out.header k = some a) ∧
      (∀ k, is_derived_key k = true →
        header_find out.header k =
          header_find (derived_header ⟨⟨0, 0⟩, ⟨9, 9⟩⟩ bb
            [("A", Channel.ofType .UINT), ("B", Channel.ofType .FLOAT)]) k) :=
  ⟨scenario_tiled_wellFormed, rfl,
    autocrop_attributes_kept scenario_tiled _ _ _ scenario_tiled_wellFormed⟩

/-- C7: in the header `autocrop` passes to the output file the display
window is the display window of the source and the data window is the window
`get_bounding_box` returned; the header-building pass gives this for every
bounding box it is handed. -/
theorem autocrop_header_windows (file : InputFile) (dw disp : Box2i) (cs : ChannelList)
    (hwf : source_wellFormed file dw disp cs) :
    (∀ bb, ∃ h n, autocrop_header file bb = .ok (h, n) ∧
      header_displayWindow h = .ok disp ∧ header_dataWindow h = .ok bb) ∧
    ∃ bb out, get_bounding_box file = .ok bb ∧ autocrop file = .ok out ∧
      header_displayWindow out.header = .ok disp ∧
      header_dataWindow out.header = .ok bb := by
  constructor
  · intro bb
    obtain ⟨h, e1, s1⟩ := autocrop_header_spec file dw disp cs bb hwf
    obtain ⟨a1, a2, _⟩ := cropped_header_accessors _ disp bb cs h s1
    exact ⟨h, _, e1, a2, a1⟩
  · obtain ⟨h, _, s1, e2⟩ := autocrop_ok file dw disp cs hwf
    obtain ⟨a1, a2, _⟩ := cropped_header_accessors _ disp _ cs h s1
    exact ⟨_, _, get_bounding_box_eq file dw disp cs hwf.1, e2, a2, a1⟩

theorem autocrop_header_windows_witness :
    source_wellFormed scenario_tiled ⟨⟨-5, -3⟩, ⟨4, 6⟩⟩ ⟨⟨0, 0⟩, ⟨9, 9⟩⟩
      [("A", Channel.ofType .UINT), ("B", Channel.ofType .FLOAT)] ∧
    get_bounding_box scenario_tiled = .ok ⟨⟨-1, -1⟩, ⟨2, 3⟩⟩ ∧
    ((∀ bb, ∃ h n, autocrop_header scenario_tiled bb = .ok (h, n) ∧
      header_displayWindow h = .ok ⟨⟨0, 0⟩, ⟨9, 9⟩⟩ ∧ header_dataWindow h = .ok bb) ∧
    ∃ bb out, get_bounding_box scenario_tiled = .ok bb ∧
      autocrop scenario_tiled = .ok out ∧
      header_displayWindow out.header = .ok ⟨⟨0, 0⟩, ⟨9, 9⟩⟩ ∧
      header_dataWindow out.header = .ok bb) :=
  ⟨scenario_tiled_wellFormed, rfl,
    autocrop_header_windows scenario_tiled _ _ _ scenario_tiled_wellFormed⟩

/-- C8: in the header `autocrop` passes to the output file the channel list
has the names of the channels of the source, every channel has pixel type
`HALF`, and the compression is `ZIPS_COMPRESSION`. -/
theorem autocrop_header_channels (file : InputFile) (dw disp : Box2i) (cs : ChannelList)
    (hwf : source_wellFormed file dw disp cs) :
    ∃ out cl, autocrop file = .ok out ∧ header_channels out.header = .ok cl ∧
      cl.map Prod.fst = cs.map Prod.fst ∧
      (∀ c ∈ cl, c.2 = Channel.ofType .HALF) ∧
      header_compression out.header = .ok .ZIPS_COMPRESSION := by
  obtain ⟨h, _, s1, e2⟩ := autocrop_ok file dw disp cs hwf
  obtain ⟨_, _, _, a4, a5, _⟩ := cropped_header_accessors _ disp _ cs h s1
  refine ⟨_, _, e2, a5, ?_, ?_, a4⟩
  · simp [List.map_map, Function.comp_def]
  · intro c hc
    simp only [List.mem_map] at hc
    obtain ⟨d, _, rfl⟩ := hc
    rfl

theorem autocrop_header_channels_witness :
    source_wellFormed scenario_tiled ⟨⟨-5, -3⟩, ⟨4, 6⟩⟩ ⟨⟨0, 0⟩, ⟨9, 9⟩⟩
      [("A", Channel.ofType .UINT), ("B", Channel.ofType .FLOAT)] ∧
    ∃ out cl, autocrop scenario_tiled = .ok out ∧ header_channels out.header = .ok cl ∧
      cl.map Prod.fst =
        [("A", Channel.ofType .UINT), ("B", Channel.ofType .FLOAT)].map Prod.fst ∧
      (∀ c ∈ cl, c.2 = Channel.ofType .HALF) ∧
      header_compression out.header = .ok .ZIPS_COMPRESSION :=
  ⟨scenario_tiled_wellFormed,
    autocrop_header_channels scenario_tiled _ _ _ scenario_tiled_wellFormed⟩

/-- C9, as the claim states it, fails: for a source whose header has a
`tiles` attribute `autocrop` raises no error; it produces an output file. -/
theorem autocrop_tiled_no_error :
    header_find scenario_tiled.header "tiles" = some (.tiledesc 32 32 0) ∧
    (autocrop scenario_tiled).toOption.map (fun out => out.scanLines.map Prod.fst) =
      some [-1, 0, 1, 2, 3] :=
  ⟨rfl, rfl⟩

/-- C9, amended: for a source whose header has a `tiles` attribute `autocrop`
does not fail; the copy loop skips the attribute, so the header of the output
file has no `tiles` attribute. -/
theorem autocrop_tiled_source (file : InputFile) (dw disp : Box2i) (cs : ChannelList)
    (t : Attribute) (hwf : source_wellFormed file dw disp cs)
    (_ht : header_find file.header "tiles" = some t) :
    ∃ out, autocrop file = .ok out ∧ header_find out.header "tiles" = none := by
  obtain ⟨h, _, s1, e2⟩ := autocrop_ok file dw disp cs hwf
  obtain ⟨_, _, _, _, _, a6⟩ := cropped_header_accessors _ disp _ cs h s1
  exact ⟨_, e2, a6⟩

theorem autocrop_tiled_source_witness :
    source_wellFormed scenario_tiled ⟨⟨-5, -3⟩, ⟨4, 6⟩⟩ ⟨⟨0, 0⟩, ⟨9, 9⟩⟩
      [("A", Channel.ofType .UINT), ("B", Channel.ofType .FLOAT)] ∧
    header_find scenario_tiled.header "tiles" = some (.tiledesc 32 32 0) ∧
    ∃ out, autocrop scenario_tiled = .ok out ∧ header_find out.header "tiles" = none :=
  ⟨scenario_tiled_wellFormed, rfl,
    autocrop_tiled_source scenario_tiled _ _ _ _ scenario_tiled_wellFormed rfl⟩

theorem lookup_map_key {β : Type} (l : List Int) (g : Int → β) (k : Int) :
    (l.map fun y => (y, g y)).lookup k = if k ∈ l then some (g k) else none := by
  induction l with
  | nil => simp
  | cons a l ih =>
    simp only [List.map_cons, List.lookup_cons, List.mem_cons]
    by_cases hk : k = a
    · subst hk; simp
    · have hb : (k == a) = false := by simpa using hk
      rw [hb, ih]
      simp [hk]

theorem cropped_file_sample (file : InputFile) (dw bb : Box2i) (cs : ChannelList)
    (h : Header) (hdw : header_dataWindow h = .ok bb)
    (hnd : (cs.map Prod.fst).Nodup) (c : String × Channel) (hc : c ∈ cs) (x y : Int) :
    outputfile_sample (cropped_file file dw bb cs h) c.1 x y =
      if bb.min.x ≤ x ∧ x ≤ bb.max.x ∧ bb.min.y ≤ y ∧ y ≤ bb.max.y then
        some (file.pixels c.1 x y)
      else none := by
  unfold outputfile_sample
  simp only [cropped_file, hdw]
  by_cases hx : bb.min.x ≤ x ∧ x ≤ bb.max.x
  · rw [if_pos hx]
    have hl : ((intRange bb.min.y bb.max.y).map (cropped_line file bb cs)).lookup y =
        if y ∈ intRange bb.min.y bb.max.y then some (cropped_line file bb cs y).2
        else none :=
      lookup_map_key (intRange bb.min.y bb.max.y) (fun y => (cropped_line file bb cs y).2) y
    rw [hl]
    by_cases hy : bb.min.y ≤ y ∧ y ≤ bb.max.y
    · rw [if_pos ((mem_intRange _ _ _).mpr hy), if_pos ⟨hx.1, hx.2, hy.1, hy.2⟩]
      simp only [cropped_line]
      have hnd2 : ((cs.map fun c => (c.1, (intRange bb.min.x bb.max.x).map
          fun x => file.pixels c.1 x y)).map Prod.fst).Nodup := by
        simpa [List.map_map, Function.comp_def] using hnd
      have hmem : (c.1, (intRange bb.min.x bb.max.x).map fun x => file.pixels c.1 x y) ∈
          cs.map fun c => (c.1, (intRange bb.min.x bb.max.x).map
            fun x => file.pixels c.1 x y) :=
        List.mem_map_of_mem _ hc
      have := nodup_lookup _ _ hnd2 hmem
      simp only at this
      rw [this]
      simp only
      rw [List.get?_eq_getElem?, List.getElem?_map]
      have hg := intRange_get? bb.min.x bb.max.x (x - bb.min.x).toNat (by omega)
      rw [List.get?_eq_getElem?] at hg
      rw [hg]
      simp only [Option.map_some', Option.some.injEq]
      congr 1
      omega
    · rw [if_neg (fun hm => hy ((mem_intRange _ _ _).mp hm)),
        if_neg (fun hh => hy ⟨hh.2.2.1, hh.2.2.2⟩)]
  · rw [if_neg hx, if_neg (fun hh => hx ⟨hh.1, hh.2.1⟩)]

/-- C10: for every bounding window inside the data window, the copy pass
produces an output file that stores, for every channel and every coordinate
of the bounding window, the sample the source stores at the same coordinate,
and that stores no sample outside the bounding window; `autocrop` is this
pass run on the window `get_bounding_box` returns. -/
theorem autocrop_copy_samples (file : InputFile) (dw disp : Box2i) (cs : ChannelList)
    (bb : Box2i) (hwf : source_wellFormed file dw disp cs)
    (hbx : dw.min.x ≤ bb.min.x ∧ bb.min.x ≤ bb.max.x ∧ bb.max.x ≤ dw.max.x)
    (hby : dw.min.y ≤ bb.min.y ∧ bb.min.y ≤ bb.max.y ∧ bb.max.y ≤ dw.max.y) :
    ∃ h n out, autocrop_header file bb = .ok (h, n) ∧
      autocrop_copy file bb h n = .ok out ∧
      (get_bounding_box file = .ok bb → autocrop file = .ok out) ∧
      ∀ c ∈ cs, ∀ x y, outputfile_sample out c.1 x y =
        if bb.min.x ≤ x ∧ x ≤ bb.max.x ∧ bb.min.y ≤ y ∧ y ≤ bb.max.y then
          some (file.pixels c.1 x y)
        else none := by
  obtain ⟨h, e1, s1⟩ := autocrop_header_spec file dw disp cs bb hwf
  have e2 := autocrop_copy_ok file dw disp cs bb h hwf.1 hbx hby s1
  refine ⟨h, cs.length, _, e1, e2, ?_, ?_⟩
  · intro hbb
    unfold autocrop
    simp only [hbb, bind, Except.bind, e1]
    exact e2
  · intro c hc x y
    exact cropped_file_sample file dw bb cs h
      (cropped_header_accessors _ disp bb cs h s1).1 hwf.1.2.2.2.2.2.1 c hc x y

theorem autocrop_copy_samples_witness :
    source_wellFormed scenario_tiled ⟨⟨-5, -3⟩, ⟨4, 6⟩⟩ ⟨⟨0, 0⟩, ⟨9, 9⟩⟩
      [("A", Channel.ofType .UINT), ("B", Channel.ofType .FLOAT)] ∧
    ((-5 : Int) ≤ -1 ∧ (-1 : Int) ≤ 2 ∧ (2 : Int) ≤ 4) ∧
    ((-3 : Int) ≤ -1 ∧ (-1 : Int) ≤ 3 ∧ (3 : Int) ≤ 6) ∧
    (autocrop scenario_tiled).toOption.map
        (fun out => (outputfile_sample out "B" 2 (-1), outputfile_sample out "A" (-1) 3,
          outputfile_sample out "A" 0 0, outputfile_sample out "A" 3 0)) =
      some (some Half.one, some Half.one, some Half.zero, none) ∧
    ∃ h n out, autocrop_header scenario_tiled ⟨⟨-1, -1⟩, ⟨2, 3⟩⟩ = .ok (h, n) ∧
      autocrop_copy scenario_tiled ⟨⟨-1, -1⟩, ⟨2, 3⟩⟩ h n = .ok out ∧
      (get_bounding_box scenario_tiled = .ok ⟨⟨-1, -1⟩, ⟨2, 3⟩⟩ →
        autocrop scenario_tiled = .ok out) ∧
      ∀ c ∈ [("A", Channel.ofType .UINT), ("B", Channel.ofType .FLOAT)],
        ∀ x y, outputfile_sample out c.1 x y =
          if (-1 : Int) ≤ x ∧ x ≤ 2 ∧ (-1 : Int) ≤ y ∧ y ≤ 3 then
            some (scenario_tiled.pixels c.1 x y)
          else none :=
  ⟨scenario_tiled_wellFormed, by decide, by decide, rfl,
    autocrop_copy_samples scenario_tiled _ _ _ ⟨⟨-1, -1⟩, ⟨2, 3⟩⟩
      scenario_tiled_wellFormed (by decide) (by decide)⟩

/-! ## Single rows: first and last sample, NaN -/

/-- C14: `get_scanline_bounding_box` sets `pixel_seen` exactly when some
sample of the scanline is not zero; then `box.min.x` and `box.max.x` are
`data_window.min.x` plus the index of the first and of the last such sample;
and merging a scanline result without a pixel leaves the accumulated result
of `get_bounding_box` unchanged. -/
theorem get_scanline_bounding_box_spec (scanline : List Half) (data_window : Box2i) :
    ((get_scanline_bounding_box scanline data_window).pixel_seen = true ↔
      ∃ v ∈ scanline, v.isNonZero = true) ∧
    ((get_scanline_bounding_box scanline data_window).pixel_seen = true →
      ∃ i j : Nat, first_nonzero scanline i ∧ last_nonzero scanline j ∧
        (get_scanline_bounding_box scanline data_window).box.min.x =
          data_window.min.x + (i : Int) ∧
        (get_scanline_bounding_box scanline data_window).box.max.x =
          data_window.min.x + (j : Int)) ∧
    (∀ (r s_r : BoundingBox) (y : Int), s_r.pixel_seen = false →
      merge_scanline r s_r y = r) := by
  have h := scan_fold_inv data_window scanline
  unfold get_scanline_bounding_box
  generalize scanline.foldl scanline_step _ = st at h ⊢
  obtain ⟨_, _, _, hF, hT⟩ := h
  refine ⟨⟨?_, ?_⟩, ?_, ?_⟩
  · intro hs
    obtain ⟨i, _, ⟨v, hv, hn⟩, _⟩ := hT hs
    exact ⟨v, List.get?_mem hv, hn⟩
  · rintro ⟨v, hv, hn⟩
    cases hs : st.1.pixel_seen
    · have := (hF hs).2 v hv
      rw [this] at hn; cases hn
    · rfl
  · intro hs
    obtain ⟨i, j, hi, hj, hmin, hmax, hall⟩ := hT hs
    exact ⟨i, j, ⟨hi, fun k v hk hv => (hall k v hk hv).1⟩,
      ⟨hj, fun k v hk hv => (hall k v hk hv).2⟩, hmin, hmax⟩
  · intro r s_r y hs
    simp [merge_scanline, hs]

theorem get_scanline_bounding_box_spec_witness :
    get_scanline_bounding_box [Half.zero, Half.one, Half.zero, Half.one, Half.zero]
        ⟨⟨-5, -3⟩, ⟨-1, 6⟩⟩ =
      { box := ⟨⟨-4, -3⟩, ⟨-2, -3⟩⟩, pixel_seen := true } ∧
    get_scanline_bounding_box [Half.zero, Half.zero] ⟨⟨-5, -3⟩, ⟨-4, 6⟩⟩ =
      { box := ⟨⟨-5, -3⟩, ⟨-5, -3⟩⟩, pixel_seen := false } ∧
    (get_scanline_bounding_box [Half.zero, Half.one, Half.zero, Half.one, Half.zero]
        ⟨⟨-5, -3⟩, ⟨-1, 6⟩⟩).pixel_seen = true ∧
    merge_scanline { box := ⟨⟨1, 2⟩, ⟨3, 4⟩⟩, pixel_seen := true }
        (get_scanline_bounding_box [Half.zero, Half.zero] ⟨⟨-5, -3⟩, ⟨-4, 6⟩⟩) 7 =
      { box := ⟨⟨1, 2⟩, ⟨3, 4⟩⟩, pixel_seen := true } :=
  ⟨rfl, rfl,
    (get_scanline_bounding_box_spec [Half.zero, Half.one, Half.zero, Half.one, Half.zero]
      ⟨⟨-5, -3⟩, ⟨-1, 6⟩⟩).1.mpr ⟨Half.one, by simp, rfl⟩,
    (get_scanline_bounding_box_spec [Half.zero, Half.zero] ⟨⟨-5, -3⟩, ⟨-4, 6⟩⟩).2.2 _ _ 7 rfl⟩

theorem isNonZero_of_isNaN (v : Half) (h : v.isNaN = true) : v.isNonZero = true := by
  simp only [Half.isNaN, Bool.and_eq_true, beq_iff_eq, bne_iff_ne, ne_eq] at h
  simp only [Half.isNonZero, bne_iff_ne, ne_eq]
  omega

/-- C15: a NaN counts as a sample that is not zero: for a scanline whose
only sample other than zero is a NaN at index `i`, `get_scanline_bounding_box`
sets `pixel_seen` and returns `box.min.x = box.max.x = data_window.min.x + i`. -/
theorem get_scanline_bounding_box_nan (scanline : List Half) (data_window : Box2i)
    (i : Nat) (v : Half) (hi : scanline.get? i = some v) (hnan : v.isNaN = true)
    (hz : ∀ k w, scanline.get? k = some w → k ≠ i → w.isNonZero = false) :
    (get_scanline_bounding_box scanline data_window).pixel_seen = true ∧
    (get_scanline_bounding_box scanline data_window).box.min.x =
      data_window.min.x + (i : Int) ∧
    (get_scanline_bounding_box scanline data_window).box.max.x =
      data_window.min.x + (i : Int) := by
  have hnz := isNonZero_of_isNaN v hnan
  have h := scan_fold_inv data_window scanline
  unfold get_scanline_bounding_box
  generalize scanline.foldl scanline_step _ = st at h ⊢
  obtain ⟨_, _, _, hF, hT⟩ := h
  have hs : st.1.pixel_seen = true := by
    cases hs : st.1.pixel_seen
    · have := (hF hs).2 v (List.get?_mem hi)
      rw [this] at hnz; cases hnz
    · rfl
  obtain ⟨a, b, ⟨va, hva, hna⟩, ⟨vb, hvb, hnb⟩, hmin, hmax, _⟩ := hT hs
  have ha : a = i := by
    by_contra hc
    rw [hz a va hva hc] at hna; cases hna
  have hb : b = i := by
    by_contra hc
    rw [hz b vb hvb hc] at hnb; cases hnb
  subst ha; subst hb
  exact ⟨hs, hmin, hmax⟩

theorem get_scanline_bounding_box_nan_witness :
    [Half.zero, Half.zero, Half.qnan, Half.zero].get? 2 = some Half.qnan ∧
    Half.qnan.isNaN = true ∧
    (∀ k w, [Half.zero, Half.zero, Half.qnan, Half.zero].get? k = some w → k ≠ 2 →
      w.isNonZero = false) ∧
    get_scanline_bounding_box [Half.zero, Half.zero, Half.qnan, Half.zero]
        ⟨⟨-5, -3⟩, ⟨-2, 6⟩⟩ =
      { box := ⟨⟨-3, -3⟩, ⟨-3, -3⟩⟩, pixel_seen := true } ∧
    ((get_scanline_bounding_box [Half.zero, Half.zero, Half.qnan, Half.zero]
        ⟨⟨-5, -3⟩, ⟨-2, 6⟩⟩).pixel_seen = true ∧
    (get_scanline_bounding_box [Half.zero, Half.zero, Half.qnan, Half.zero]
        ⟨⟨-5, -3⟩, ⟨-2, 6⟩⟩).box.min.x = -5 + ((2 : Nat) : Int) ∧
    (get_scanline_bounding_box [Half.zero, Half.zero, Half.qnan, Half.zero]
        ⟨⟨-5, -3⟩, ⟨-2, 6⟩⟩).box.max.x = -5 + ((2 : Nat) : Int)) :=
  have hz : ∀ k w, [Half.zero, Half.zero, Half.qnan, Half.zero].get? k = some w → k ≠ 2 →
      w.isNonZero = false := by
    intro k w hk hne
    match k, hk, hne with
    | 0, hk, _ => simp at hk; subst hk; rfl
    | 1, hk, _ => simp at hk; subst hk; rfl
    | 2, _, hne => exact absurd rfl hne
    | 3, hk, _ => simp at hk; subst hk; rfl
    | n + 4, hk, _ => simp at hk
  ⟨rfl, rfl, hz, rfl,
    get_scanline_bounding_box_nan _ ⟨⟨-5, -3⟩, ⟨-2, 6⟩⟩ 2 Half.qnan rfl rfl hz⟩

/-! ## The returned window is not empty; row-buffer addressing -/

/-- C17: the window `get_bounding_box` returns has `min.x <= max.x` and
`min.y <= max.y`, so the width and the height of the data window of the
output file, which is this window, are at least 1. -/
theorem get_bounding_box_nonempty (file : InputFile) (dw disp : Box2i) (cs : ChannelList)
    (hwf : source_wellFormed file dw disp cs) :
    ∃ bb out, get_bounding_box file = .ok bb ∧ autocrop file = .ok out ∧
      header_dataWindow out.header = .ok bb ∧
      bb.min.x ≤ bb.max.x ∧ bb.min.y ≤ bb.max.y ∧
      1 ≤ bb.max.x - bb.min.x + 1 ∧ 1 ≤ bb.max.y - bb.min.y + 1 := by
  obtain ⟨h, _, s1, e2⟩ := autocrop_ok file dw disp cs hwf
  obtain ⟨a1, _⟩ := cropped_header_accessors _ disp _ cs h s1
  obtain ⟨_, b2, _, _, b5, _⟩ :=
    bounding_box_of_bounds file dw cs hwf.1.2.2.2.1 hwf.1.2.2.2.2.1
  exact ⟨_, _, get_bounding_box_eq file dw disp cs hwf.1, e2, a1, b2, b5,
    by omega, by omega⟩

theorem get_bounding_box_nonempty_witness :
    source_wellFormed scenario_tiled ⟨⟨-5, -3⟩, ⟨4, 6⟩⟩ ⟨⟨0, 0⟩, ⟨9, 9⟩⟩
      [("A", Channel.ofType .UINT), ("B", Channel.ofType .FLOAT)] ∧
    ∃ bb out, get_bounding_box scenario_tiled = .ok bb ∧
      autocrop scenario_tiled = .ok out ∧
      header_dataWindow out.header = .ok bb ∧
      bb.min.x ≤ bb.max.x ∧ bb.min.y ≤ bb.max.y ∧
      1 ≤ bb.max.x - bb.min.x + 1 ∧ 1 ≤ bb.max.y - bb.min.y + 1 :=
  ⟨scenario_tiled_wellFormed,
    get_bounding_box_nonempty scenario_tiled _ _ _ scenario_tiled_wellFormed⟩

/-- C18: with the base of the slice `2 * data_window.min.x` bytes before the
start of the row buffer and an x stride of 2 bytes, the sample of `x` lives
at index `x - data_window.min.x` of the buffer; for every `x` of the data
window, and so for every `x` of a bounding window inside it, this index is at
least 0 and below `data_width`, and a store or a load through the slice
touches exactly this element of a buffer of `data_width` samples. -/
theorem row_slice_in_bounds (data_window : Box2i) (index : Nat) :
    (∀ x y, (row_slice index data_window).offset x y = 2 * (x - data_window.min.x)) ∧
    (∀ x, data_window.min.x ≤ x → x ≤ data_window.max.x →
      0 ≤ x - data_window.min.x ∧
      x - data_window.min.x < data_window.max.x - data_window.min.x + 1) ∧
    (∀ bb : Box2i, data_window.min.x ≤ bb.min.x → bb.max.x ≤ data_window.max.x →
      ∀ x, bb.min.x ≤ x → x ≤ bb.max.x →
        0 ≤ x - data_window.min.x ∧
        x - data_window.min.x < data_window.max.x - data_window.min.x + 1) ∧
    (∀ (data : Buffers) (b : List Half) (x y : Int) (v : Half),
      data.get? index = some b →
      b.length = (data_window.max.x - data_window.min.x + 1).toNat →
      data_window.min.x ≤ x → x ≤ data_window.max.x →
      buffers_store data (row_slice index data_window) x y v =
        .ok (data.set index (b.set (x - data_window.min.x).toNat v)) ∧
      ∃ w, b.get? (x - data_window.min.x).toNat = some w ∧
        buffers_load data (row_slice index data_window) x y = .ok w) := by
  have hoff : ∀ x y, (row_slice index data_window).offset x y =
      2 * (x - data_window.min.x) := by
    intro x y
    simp only [Slice.offset, row_slice]; ring
  refine ⟨hoff, ?_, ?_, ?_⟩
  · intro x h1 h2
    omega
  · intro bb h1 h2 x h3 h4
    omega
  · intro data b x y v hb hl h1 h2
    have hbuf : (row_slice index data_window).buf = index := rfl
    have hdiv : (2 * (x - data_window.min.x) / 2).toNat = (x - data_window.min.x).toNat := by
      omega
    have hlt : (x - data_window.min.x).toNat < b.length := by omega
    constructor
    · simp only [buffers_store, hoff, hbuf, hb, hdiv]
      rw [if_pos ⟨by omega, by omega, hlt⟩]
    · refine ⟨b.get ⟨_, hlt⟩, List.get?_eq_get hlt, ?_⟩
      simp only [buffers_load, hoff, hbuf, hb, hdiv]
      rw [if_pos ⟨by omega, by omega⟩, List.get?_eq_get hlt]

theorem row_slice_in_bounds_witness :
    (row_slice 0 ⟨⟨-5, -3⟩, ⟨-2, 6⟩⟩).offset (-3) 4 = 2 * (-3 - -5) ∧
    buffers_store [[Half.zero, Half.zero, Half.zero, Half.zero]]
        (row_slice 0 ⟨⟨-5, -3⟩, ⟨-2, 6⟩⟩) (-3) 4 Half.one =
      .ok [[Half.zero, Half.zero, Half.one, Half.zero]] ∧
    buffers_store [[Half.zero, Half.zero, Half.zero, Half.zero]]
        (row_slice 0 ⟨⟨-5, -3⟩, ⟨-2, 6⟩⟩) (-1) 4 Half.one = .error .badAccess ∧
    ((-5 : Int) ≤ -3 → (-3 : Int) ≤ -2 →
      (0 : Int) ≤ -3 - -5 ∧ (-3 : Int) - -5 < -2 - -5 + 1) :=
  ⟨(row_slice_in_bounds ⟨⟨-5, -3⟩, ⟨-2, 6⟩⟩ 0).1 (-3) 4, rfl, rfl,
    (row_slice_in_bounds ⟨⟨-5, -3⟩, ⟨-2, 6⟩⟩ 0).2.1 (-3)⟩

/-! ## The empty image -/

theorem intRange_self (a : Int) : intRange a a = [a] := by
  rw [intRange_cons a a (le_refl _), intRange_nil (a + 1) a (by omega)]

/-- C16: for an image whose samples are all zero, `get_bounding_box` returns
the window of the one pixel at the `min` corner of the data window, and
`autocrop` then writes one scan line that holds one sample per channel. -/
theorem autocrop_all_zero (file : InputFile) (dw disp : Box2i) (cs : ChannelList)
    (hwf : source_wellFormed file dw disp cs)
    (hz : ∀ c ∈ cs, ∀ x y, dw.min.x ≤ x → x ≤ dw.max.x → dw.min.y ≤ y → y ≤ dw.max.y →
      (file.pixels c.1 x y).isNonZero = false) :
    get_bounding_box file = .ok { min := dw.min, max := dw.min } ∧
    ∃ out, autocrop file = .ok out ∧
      header_dataWindow out.header = .ok { min := dw.min, max := dw.min } ∧
      out.scanLines =
        [(dw.min.y, cs.map fun c => (c.1, [file.pixels c.1 dw.min.x dw.min.y]))] := by
  have hno : ∀ x y, ¬ occupied file dw cs x y := by
    rintro x y ⟨h1, h2, h3, h4, c, hc, hn⟩
    simp only [nonzero_at] at hn
    rw [hz c hc x y h1 h2 h3 h4] at hn
    cases hn
  have hbox : (bounding_box_of file dw cs).box = { min := dw.min, max := dw.min } := by
    rw [(bounding_box_of_empty file dw cs hno).2]
    rfl
  obtain ⟨h, _, s1, e2⟩ := autocrop_ok file dw disp cs hwf
  obtain ⟨a1, _⟩ := cropped_header_accessors _ disp _ cs h s1
  refine ⟨?_, _, e2, ?_, ?_⟩
  · rw [get_bounding_box_eq file dw disp cs hwf.1, hbox]
  · show header_dataWindow h = _
    rw [a1, hbox]
  · simp only [cropped_file, hbox, intRange_self, List.map_cons, List.map_nil, cropped_line]

theorem autocrop_all_zero_witness :
    source_wellFormed scenario_zero ⟨⟨-5, -3⟩, ⟨4, 6⟩⟩ ⟨⟨0, 0⟩, ⟨9, 9⟩⟩
      [("A", Channel.ofType .HALF), ("B", Channel.ofType .FLOAT)] ∧
    (∀ c ∈ [("A", Channel.ofType .HALF), ("B", Channel.ofType .FLOAT)],
      ∀ x y, (-5 : Int) ≤ x → x ≤ 4 → (-3 : Int) ≤ y → y ≤ 6 →
        (scenario_zero.pixels c.1 x y).isNonZero = false) ∧
    (get_bounding_box scenario_zero = .ok { min := ⟨-5, -3⟩, max := ⟨-5, -3⟩ } ∧
    ∃ out, autocrop scenario_zero = .ok out ∧
      header_dataWindow out.header = .ok { min := ⟨-5, -3⟩, max := ⟨-5, -3⟩ } ∧
      out.scanLines =
        [(-3, [("A", Channel.ofType .HALF), ("B", Channel.ofType .FLOAT)].map
          fun c => (c.1, [scenario_zero.pixels c.1 (-5) (-3)]))]) :=
  have hwf : source_wellFormed scenario_zero ⟨⟨-5, -3⟩, ⟨4, 6⟩⟩ ⟨⟨0, 0⟩, ⟨9, 9⟩⟩
      [("A", Channel.ofType .HALF), ("B", Channel.ofType .FLOAT)] :=
    ⟨scenario_wellFormed _ _ _ _ (by decide) (by decide)
      (by simp [channels_wellFormed, Channel.ofType]),
      by decide, by decide, by decide, by decide⟩
  ⟨hwf, fun _ _ _ _ _ _ _ _ => rfl,
    autocrop_all_zero scenario_zero _ _ _ hwf (fun _ _ _ _ _ _ _ _ => rfl)⟩

/-! ## Channel order and translation -/

theorem IsBoundingWindow_congr (f1 f2 : InputFile) (dw1 dw2 : Box2i)
    (cs1 cs2 : ChannelList) (bb : Box2i)
    (h : ∀ x y, occupied f1 dw1 cs1 x y ↔ occupied f2 dw2 cs2 x y)
    (h1 : IsBoundingWindow f1 dw1 cs1 bb) : IsBoundingWindow f2 dw2 cs2 bb := by
  have : occupied f1 dw1 cs1 = occupied f2 dw2 cs2 :=
    funext fun x => funext fun y => propext (h x y)
  unfold IsBoundingWindow at h1 ⊢
  rw [← this]
  exact h1

theorem with_channels_wellFormed (file : InputFile) (dw disp : Box2i)
    (cs cs1 : ChannelList) (hwf : image_wellFormed file dw disp cs)
    (hcs : channels_wellFormed cs1) :
    image_wellFormed (with_channels file cs1) dw disp cs1 := by
  obtain ⟨hdw, hdisp, hch, hx, hy, _⟩ := hwf
  refine ⟨?_, ?_, ?_, hx, hy, hcs⟩
  · unfold header_dataWindow at hdw ⊢
    simp only [with_channels]
    rw [header_find_assign, if_neg (by decide)]
    exact hdw
  · unfold header_displayWindow at hdisp ⊢
    simp only [with_channels]
    rw [header_find_assign, if_neg (by decide)]
    exact hdisp
  · unfold header_channels at hch ⊢
    simp only [with_channels]
    rw [header_find_assign, if_pos rfl]
    cases hf : header_find file.header "channels" with
    | none => rw [hf] at hch; cases hch
    | some a => rfl

theorem bounding_box_of_mem_congr (file : InputFile) (dw : Box2i) (cs cs1 : ChannelList)
    (hmem : ∀ c, c ∈ cs1 ↔ c ∈ cs) :
    (bounding_box_of file dw cs1).box = (bounding_box_of file dw cs).box := by
  have hocc : ∀ x y, occupied file dw cs1 x y ↔ occupied file dw cs x y := by
    intro x y
    unfold occupied
    constructor
    · rintro ⟨h1, h2, h3, h4, c, hc, hn⟩
      exact ⟨h1, h2, h3, h4, c, (hmem c).mp hc, hn⟩
    · rintro ⟨h1, h2, h3, h4, c, hc, hn⟩
      exact ⟨h1, h2, h3, h4, c, (hmem c).mpr hc, hn⟩
  by_cases hex : ∃ x y, occupied file dw cs x y
  · have hex1 : ∃ x y, occupied file dw cs1 x y := by
      obtain ⟨x, y, h⟩ := hex
      exact ⟨x, y, (hocc x y).mpr h⟩
    exact IsBoundingWindow_unique file dw cs _ _
      (IsBoundingWindow_congr file file dw dw cs1 cs _ hocc
        (bounding_box_of_occupied file dw cs1 hex1).2)
      (bounding_box_of_occupied file dw cs hex).2
  · have hno : ∀ x y, ¬ occupied file dw cs x y := fun x y h => hex ⟨x, y, h⟩
    have hno1 : ∀ x y, ¬ occupied file dw cs1 x y := fun x y h => hno x y ((hocc x y).mp h)
    rw [(bounding_box_of_empty file dw cs hno).2, (bounding_box_of_empty file dw cs1 hno1).2]

/-- C19: the window `get_bounding_box` returns does not depend on the order
of the channels: for every permutation of the channel list of an image the
result is the same. -/
theorem get_bounding_box_channel_order (file : InputFile) (dw disp : Box2i)
    (cs cs1 : ChannelList) (hwf : image_wellFormed file dw disp cs)
    (hp : cs1.Perm cs) :
    ∃ bb, get_bounding_box file = .ok bb ∧
      get_bounding_box (with_channels file cs1) = .ok bb := by
  have hcs1 : channels_wellFormed cs1 := by
    obtain ⟨_, _, _, _, _, hnd, hne, hs⟩ := hwf
    refine ⟨?_, ?_, ?_⟩
    · exact ((hp.map Prod.fst).nodup_iff).mpr hnd
    · intro c hc
      exact hne c (hp.mem_iff.mp hc)
    · intro c hc
      exact hs c (hp.mem_iff.mp hc)
  refine ⟨_, get_bounding_box_eq file dw disp cs hwf, ?_⟩
  rw [get_bounding_box_eq _ dw disp cs1 (with_channels_wellFormed file dw disp cs cs1 hwf hcs1)]
  congr 1
  exact bounding_box_of_mem_congr file dw cs cs1 (fun c => hp.mem_iff)

theorem get_bounding_box_channel_order_witness :
    image_wellFormed scenario_tiled ⟨⟨-5, -3⟩, ⟨4, 6⟩⟩ ⟨⟨0, 0⟩, ⟨9, 9⟩⟩
      [("A", Channel.ofType .UINT), ("B", Channel.ofType .FLOAT)] ∧
    [("B", Channel.ofType .FLOAT), ("A", Channel.ofType .UINT)].Perm
      [("A", Channel.ofType .UINT), ("B", Channel.ofType .FLOAT)] ∧
    get_bounding_box (with_channels scenario_tiled
        [("B", Channel.ofType .FLOAT), ("A", Channel.ofType .UINT)]) =
      .ok ⟨⟨-1, -1⟩, ⟨2, 3⟩⟩ ∧
    ∃ bb, get_bounding_box scenario_tiled = .ok bb ∧
      get_bounding_box (with_channels scenario_tiled
        [("B", Channel.ofType .FLOAT), ("A", Channel.ofType .UINT)]) = .ok bb :=
  ⟨scenario_tiled_wellFormed.1, List.Perm.swap _ _ _, rfl,
    get_bounding_box_channel_order scenario_tiled _ _ _ _ scenario_tiled_wellFormed.1
      (List.Perm.swap _ _ _)⟩

theorem shift_image_wellFormed (file : InputFile) (dw disp : Box2i) (cs : ChannelList)
    (dx dy : Int) (hwf : image_wellFormed file dw disp cs) :
    image_wellFormed (shift_image file dw dx dy) (shift_box dw dx dy) disp cs := by
  obtain ⟨hdw, hdisp, hch, hx, hy, hcs⟩ := hwf
  refine ⟨?_, ?_, ?_, by simp only [shift_box]; omega, by simp only [shift_box]; omega, hcs⟩
  · unfold header_dataWindow at hdw ⊢
    simp only [shift_image]
    rw [header_find_assign, if_pos rfl]
    cases hf : header_find file.header "dataWindow" with
    | none => rw [hf] at hdw; cases hdw
    | some a => rfl
  · unfold header_displayWindow at hdisp ⊢
    simp only [shift_image]
    rw [header_find_assign, if_neg (by decide)]
    exact hdisp
  · unfold header_channels at hch ⊢
    simp only [shift_image]
    rw [header_find_assign, if_neg (by decide)]
    exact hch

theorem occupied_shift (file : InputFile) (dw : Box2i) (cs : ChannelList)
    (dx dy x y : Int) :
    occupied (shift_image file dw dx dy) (shift_box dw dx dy) cs x y ↔
      occupied file dw cs (x - dx) (y - dy) := by
  unfold occupied nonzero_at
  simp only [shift_image, shift_box]
  constructor
  · rintro ⟨h1, h2, h3, h4, c, hc, hn⟩
    exact ⟨by omega, by omega, by omega, by omega, c, hc, hn⟩
  · rintro ⟨h1, h2, h3, h4, c, hc, hn⟩
    exact ⟨by omega, by omega, by omega, by omega, c, hc, hn⟩

theorem IsBoundingWindow_shift (file : InputFile) (dw : Box2i) (cs : ChannelList)
    (dx dy : Int) (bb : Box2i) (h : IsBoundingWindow file dw cs bb) :
    IsBoundingWindow (shift_image file dw dx dy) (shift_box dw dx dy) cs
      (shift_box bb dx dy) := by
  obtain ⟨⟨⟨y1, p1⟩, a1⟩, ⟨⟨y2, p2⟩, a2⟩, ⟨⟨x3, p3⟩, a3⟩, ⟨⟨x4, p4⟩, a4⟩⟩ := h
  have e : ∀ a d : Int, a + d - d = a := fun a d => by omega
  refine ⟨⟨⟨y1 + dy, ?_⟩, ?_⟩, ⟨⟨y2 + dy, ?_⟩, ?_⟩, ⟨⟨x3 + dx, ?_⟩, ?_⟩,
    ⟨⟨x4 + dx, ?_⟩, ?_⟩⟩
  · rw [occupied_shift]; simp only [shift_box, e]; exact p1
  · intro x y hxy
    rw [occupied_shift] at hxy
    have := a1 _ _ hxy
    simp only [shift_box]; omega
  · rw [occupied_shift]; simp only [shift_box, e]; exact p2
  · intro x y hxy
    rw [occupied_shift] at hxy
    have := a2 _ _ hxy
    simp only [shift_box]; omega
  · rw [occupied_shift]; simp only [shift_box, e]; exact p3
  · intro x y hxy
    rw [occupied_shift] at hxy
    have := a3 _ _ hxy
    simp only [shift_box]; omega
  · rw [occupied_shift]; simp only [shift_box, e]; exact p4
  · intro x y hxy
    rw [occupied_shift] at hxy
    have := a4 _ _ hxy
    simp only [shift_box]; omega

/-- C20: moving the data window and every sample of an image by `(dx, dy)`
moves the window `get_bounding_box` returns by `(dx, dy)`, for an image
with a sample that is not zero and for an image of zeros alike. -/
theorem get_bounding_box_shift (file : InputFile) (dw disp : Box2i) (cs : ChannelList)
    (dx dy : Int) (hwf : image_wellFormed file dw disp cs) :
    ∃ bb, get_bounding_box file = .ok bb ∧
      get_bounding_box (shift_image file dw dx dy) = .ok (shift_box bb dx dy) := by
  refine ⟨_, get_bounding_box_eq file dw disp cs hwf, ?_⟩
  rw [get_bounding_box_eq _ _ disp cs (shift_image_wellFormed file dw disp cs dx dy hwf)]
  congr 1
  by_cases hex : ∃ x y, occupied file dw cs x y
  · have hex1 : ∃ x y, occupied (shift_image file dw dx dy) (shift_box dw dx dy) cs x y := by
      obtain ⟨x, y, h⟩ := hex
      refine ⟨x + dx, y + dy, ?_⟩
      rw [occupied_shift]
      have e : ∀ a d : Int, a + d - d = a := fun a d => by omega
      rw [e, e]
      exact h
    exact IsBoundingWindow_unique _ _ cs _ _
      (bounding_box_of_occupied _ _ cs hex1).2
      (IsBoundingWindow_shift file dw cs dx dy _ (bounding_box_of_occupied file dw cs hex).2)
  · have hno : ∀ x y, ¬ occupied file dw cs x y := fun x y h => hex ⟨x, y, h⟩
    have hno1 : ∀ x y, ¬ occupied (shift_image file dw dx dy) (shift_box dw dx dy) cs x y := by
      intro x y h
      rw [occupied_shift] at h
      exact hno _ _ h
    rw [(bounding_box_of_empty file dw cs hno).2, (bounding_box_of_empty _ _ cs hno1).2]
    rfl

theorem get_bounding_box_shift_witness :
    image_wellFormed scenario_tiled ⟨⟨-5, -3⟩, ⟨4, 6⟩⟩ ⟨⟨0, 0⟩, ⟨9, 9⟩⟩
      [("A", Channel.ofType .UINT), ("B", Channel.ofType .FLOAT)] ∧
    get_bounding_box scenario_tiled = .ok ⟨⟨-1, -1⟩, ⟨2, 3⟩⟩ ∧
    get_bounding_box (shift_image scenario_tiled ⟨⟨-5, -3⟩, ⟨4, 6⟩⟩ (-7) 11) =
      .ok ⟨⟨-8, 10⟩, ⟨-5, 14⟩⟩ ∧
    get_bounding_box (shift_image scenario_zero ⟨⟨-5, -3⟩, ⟨4, 6⟩⟩ (-7) 11) =
      .ok ⟨⟨-12, 8⟩, ⟨-12, 8⟩⟩ ∧
    ∃ bb, get_bounding_box scenario_tiled = .ok bb ∧
      get_bounding_box (shift_image scenario_tiled ⟨⟨-5, -3⟩, ⟨4, 6⟩⟩ (-7) 11) =
        .ok (shift_box bb (-7) 11) :=
  ⟨scenario_tiled_wellFormed.1, rfl, rfl, rfl,
    get_bounding_box_shift scenario_tiled _ _ _ (-7) 11 scenario_tiled_wellFormed.1⟩

/-! ## The exit code of `main` -/

theorem help_loop_none (argv : List String) (is : List Nat)
    (h : ∀ i ∈ is, argv.getD i "" ≠ "-h") : help_loop argv is = none := by
  induction is with
  | nil => rfl
  | cons i rest ih =>
    simp only [help_loop]
    rw [if_neg (h i (by simp))]
    exact ih (fun j hj => h j (by simp [hj]))

theorem help_loop_some (argv : List String) (is : List Nat)
    (h : ∃ i ∈ is, argv.getD i "" = "-h") : help_loop argv is = some 1 := by
  induction is with
  | nil => simp at h
  | cons i rest ih =>
    simp only [help_loop]
    by_cases hi : argv.getD i "" = "-h"
    · rw [if_pos hi]
    · rw [if_neg hi]
      obtain ⟨j, hj, hjh⟩ := h
      rcases List.mem_cons.mp hj with e | e
      · subst e; exact absurd hjh hi
      · exact ih ⟨j, e, hjh⟩

theorem mem_drop_one_iff (argv : List String) (s : String) :
    s ∈ argv.drop 1 ↔ ∃ i ∈ (List.range argv.length).drop 1, argv.getD i "" = s := by
  constructor
  · intro h
    obtain ⟨k, hk, hget⟩ := List.getElem_of_mem h
    simp only [List.length_drop] at hk
    rw [List.getElem_drop] at hget
    refine ⟨1 + k, ?_, ?_⟩
    · rw [List.mem_iff_getElem]
      refine ⟨k, by simp; omega, ?_⟩
      simp [List.getElem_drop]
    · rw [List.getD_eq_getElem?_getD, List.getElem?_eq_getElem (by omega)]
      exact hget
  · rintro ⟨i, hi, hget⟩
    obtain ⟨k, hk, hk2⟩ := List.getElem_of_mem hi
    simp only [List.length_drop, List.length_range] at hk
    rw [List.getElem_drop, List.getElem_range] at hk2
    subst hk2
    rw [List.getD_eq_getElem?_getD, List.getElem?_eq_getElem (by omega)] at hget
    simp only [Option.getD_some] at hget
    rw [← hget, List.mem_iff_getElem]
    exact ⟨k, by simp only [List.length_drop]; omega, by rw [List.getElem_drop]⟩

/-- C13: the exit code of `main`.  With fewer than two arguments after the
program name it is 1 and `autocrop` is not called; when an argument equals
`"-h"` it is 1 and `autocrop` is not called; otherwise `autocrop` is called
once, on the first two arguments, and the exit code is 1 when the call raises
an error and 0 when it completes; so the exit code is 0 exactly when
`autocrop` is called and completes. -/
theorem main_exit_code (argv : List String) (run : String → String → Except Exc Unit) :
    (argv.length < 3 → main argv run = (1, [])) ∧
    ("-h" ∈ argv.drop 1 → main argv run = (1, [])) ∧
    (3 ≤ argv.length → "-h" ∉ argv.drop 1 →
      (main argv run).2 = [(argv.getD 1 "", argv.getD 2 "")] ∧
      ((∃ e, run (argv.getD 1 "") (argv.getD 2 "") = .error e) → (main argv run).1 = 1) ∧
      (run (argv.getD 1 "") (argv.getD 2 "") = .ok () → (main argv run).1 = 0)) ∧
    ((main argv run).1 = 0 ↔
      (main argv run).2 = [(argv.getD 1 "", argv.getD 2 "")] ∧
      run (argv.getD 1 "") (argv.getD 2 "") = .ok ()) := by
  have hlt : argv.length < 3 → main argv run = (1, []) := by
    intro h
    simp only [main]
    rw [if_pos h]
  have hhelp : "-h" ∈ argv.drop 1 → main argv run = (1, []) := by
    intro h
    simp only [main]
    split
    · rfl
    · rw [help_loop_some argv _ ((mem_drop_one_iff argv "-h").mp h)]
  have hrun : 3 ≤ argv.length → "-h" ∉ argv.drop 1 →
      main argv run =
        match run (argv.getD 1 "") (argv.getD 2 "") with
        | .ok _ => (0, [(argv.getD 1 "", argv.getD 2 "")])
        | .error _ => (1, [(argv.getD 1 "", argv.getD 2 "")]) := by
    intro h3 hno
    simp only [main]
    rw [if_neg (by omega)]
    rw [help_loop_none argv _ (fun i hi hc =>
      hno ((mem_drop_one_iff argv "-h").mpr ⟨i, hi, hc⟩))]
  refine ⟨hlt, hhelp, ?_, ?_⟩
  · intro h3 hno
    rw [hrun h3 hno]
    refine ⟨?_, ?_, ?_⟩
    · cases run (argv.getD 1 "") (argv.getD 2 "") <;> rfl
    · rintro ⟨e, he⟩
      rw [he]
    · intro he
      rw [he]
  · by_cases h3 : argv.length < 3
    · rw [hlt h3]
      simp
    · by_cases hh : "-h" ∈ argv.drop 1
      · rw [hhelp hh]
        simp
      · rw [hrun (by omega) hh]
        cases hr : run (argv.getD 1 "") (argv.getD 2 "") with
        | error e => simp
        | ok u => simp

theorem main_exit_code_witness :
    main ["exrautocrop", "in.exr"] (fun _ _ => .ok ()) = (1, []) ∧
    main ["exrautocrop", "in.exr", "out.exr", "-h"] (fun _ _ => .ok ()) = (1, []) ∧
    main ["exrautocrop", "in.exr", "out.exr"] (fun _ _ => .error .argExc) =
      (1, [("in.exr", "out.exr")]) ∧
    main ["exrautocrop", "in.exr", "out.exr"] (fun _ _ => .ok ()) =
      (0, [("in.exr", "out.exr")]) ∧
    (["exrautocrop", "in.exr"].length < 3 →
      main ["exrautocrop", "in.exr"] (fun _ _ => .ok ()) = (1, [])) :=
  ⟨rfl, rfl, rfl, rfl,
    (main_exit_code ["exrautocrop", "in.exr"] (fun _ _ => .ok ())).1⟩

/-! ## The row protocol of the copy pass -/

theorem copy_loop_events_ok (file : InputFile) (dw bb : Box2i) (cs : ChannelList)
    (h : Header)
    (hsdw : header_dataWindow file.header = .ok dw)
    (hscs : header_channels file.header = .ok cs)
    (hnd : (cs.map Prod.fst).Nodup)
    (hdw : header_dataWindow h = .ok bb)
    (hlo : header_lineOrder h = .ok .INCREASING_Y)
    (hch : header_channels h = .ok (cs.map fun c => (c.1, Channel.ofType .HALF)))
    (hx : dw.min.x ≤ bb.min.x ∧ bb.max.x ≤ dw.max.x)
    (hy : dw.min.y ≤ bb.min.y ∧ bb.max.y ≤ dw.max.y)
    (n : Nat) :
    ∀ (lo : Int) (out : OutputFile) (data : Buffers) (events : List RowEvent),
      (bb.max.y - lo + 1).toNat = n → bb.min.y ≤ lo → lo ≤ bb.max.y + 1 →
      out.header = h → out.frameBuffer = frame_buffer_of cs dw →
      out.currentScanLine = lo → data.length = cs.length →
      (∀ i b, data.get? i = some b → b.length = (dw.max.x - dw.min.x + 1).toNat) →
      ∃ data1, (intRange lo bb.max.y).foldlM
          (fun (st : OutputFile × Buffers × List RowEvent) y => do
            let data ← inputfile_readPixels file (frame_buffer_of cs dw) st.2.1 y
            let out ← outputfile_writePixels st.1 data
            pure (out, data,
              st.2.2 ++ [RowEvent.read y, RowEvent.write st.1.currentScanLine]))
          (out, data, events) =
        .ok ({ header := h, frameBuffer := frame_buffer_of cs dw,
               currentScanLine := bb.max.y + 1,
               scanLines := out.scanLines ++
                 (intRange lo bb.max.y).map (cropped_line file bb cs) }, data1,
             events ++ (intRange lo bb.max.y).flatMap
               fun y => [RowEvent.read y, RowEvent.write y]) := by
  induction n with
  | zero =>
    intro lo out data events hn h1 h2 hh hf hc _ _
    have hlo1 : lo = bb.max.y + 1 := by omega
    rw [intRange_nil lo bb.max.y (by omega)]
    refine ⟨data, ?_⟩
    simp only [List.foldlM_nil, List.map_nil, List.append_nil, pure, Except.pure,
      List.flatMap_nil]
    congr 2
    obtain ⟨a, b, c, d⟩ := out
    simp only at hh hf hc
    rw [hh, hf, hc, hlo1]
  | succ n ih =>
    intro lo out data events hn h1 h2 hh hf hc hl hw
    have hle : lo ≤ bb.max.y := by omega
    rw [intRange_cons lo bb.max.y hle]
    simp only [List.foldlM_cons, bind, Except.bind]
    rw [readPixels_ok file dw cs lo data hsdw hscs ⟨by omega, by omega⟩ hl hw]
    simp only
    rw [writePixels_ok file dw bb cs out _ lo hnd (hh ▸ hdw) (hh ▸ hlo) (hh ▸ hch) hf hc
      ⟨h1, hle⟩ hx rfl]
    simp only [pure, Except.pure]
    obtain ⟨hl2, hw2⟩ := rows_length file dw cs lo
    obtain ⟨data1, e1⟩ := ih (lo + 1)
      { out with currentScanLine := lo + 1,
                 scanLines := out.scanLines ++ [cropped_line file bb cs lo] }
      (cs.map fun c => image_row file dw c.1 lo)
      (events ++ [RowEvent.read lo, RowEvent.write out.currentScanLine])
      (by omega) (by omega) (by omega) hh hf rfl hl2 hw2
    simp only [bind, Except.bind, pure, Except.pure] at e1
    refine ⟨data1, ?_⟩
    rw [e1, hc]
    simp only [List.map_cons, List.append_assoc, List.singleton_append, List.flatMap_cons,
      List.cons_append, List.nil_append]

theorem autocrop_copy_events_ok (file : InputFile) (dw disp : Box2i) (cs : ChannelList)
    (bb : Box2i) (h : Header)
    (hwf : image_wellFormed file dw disp cs)
    (hbx : dw.min.x ≤ bb.min.x ∧ bb.min.x ≤ bb.max.x ∧ bb.max.x ≤ dw.max.x)
    (hby : dw.min.y ≤ bb.min.y ∧ bb.min.y ≤ bb.max.y ∧ bb.max.y ≤ dw.max.y)
    (hspec : ∀ k, header_find h k = cropped_header_find file.header disp bb cs k) :
    autocrop_copy_events file bb h cs.length =
      .ok (cropped_file file dw bb cs h,
        (intRange bb.min.y bb.max.y).flatMap
          fun y => [RowEvent.read y, RowEvent.write y]) := by
  obtain ⟨hdw, hdisp, hcs, hx, hy, hnd, hne, hs⟩ := hwf
  obtain ⟨a1, a2, a3, a4, a5, _⟩ := cropped_header_accessors _ disp bb cs h hspec
  unfold autocrop_copy_events
  simp only [hdw, hcs, bind, Except.bind, outputfile_create, a1, a2, a3, a4, a5]
  rw [if_neg (by omega)]
  obtain ⟨data1, h1, hl1, hb1⟩ := setup_frame_buffer_ok cs dw
    (dw.max.x - dw.min.x + 1) (List.replicate cs.length []) (by omega) hne hnd (by simp)
  rw [h1]
  simp only [setFrameBuffer_ok file dw cs hcs hs]
  have hset : outputfile_setFrameBuffer
      { header := h, frameBuffer := [],
        currentScanLine := if LineOrder.INCREASING_Y = LineOrder.DECREASING_Y
          then bb.max.y else bb.min.y,
        scanLines := [] } (frame_buffer_of cs dw) =
      .ok { header := h, frameBuffer := frame_buffer_of cs dw,
            currentScanLine := bb.min.y, scanLines := [] } := by
    unfold outputfile_setFrameBuffer
    simp only [a5, bind, Except.bind]
    rw [if_pos]
    · rfl
    · rw [List.all_eq_true]
      intro c hc
      simp only [List.mem_map] at hc
      obtain ⟨d, hd, rfl⟩ := hc
      obtain ⟨i, hl, _⟩ := frame_buffer_of_lookup cs dw d hnd hd
      simp only [hl]
      simp [row_slice, Channel.ofType]
  rw [hset]
  simp only
  have hl2 : data1.length = cs.length := by simpa using hl1
  have hb2 : ∀ i b, data1.get? i = some b → b.length = (dw.max.x - dw.min.x + 1).toNat := by
    intro i b hb
    refine hb1 i b ?_ hb
    by_contra hc
    rw [List.get?_eq_getElem?, List.getElem?_eq_none (by omega)] at hb
    cases hb
  obtain ⟨data2, e2⟩ := copy_loop_events_ok file dw bb cs h hdw hcs hnd a1 a3 a5
    ⟨hbx.1, hbx.2.2⟩ ⟨hby.1, hby.2.2⟩ (bb.max.y - bb.min.y + 1).toNat bb.min.y
    { header := h, frameBuffer := frame_buffer_of cs dw,
      currentScanLine := bb.min.y, scanLines := [] } data1 []
    rfl (le_refl _) (by omega) rfl rfl rfl hl2 hb2
  simp only [bind, Except.bind] at e2
  rw [e2]
  rfl

theorem intRange_pairwise (lo hi : Int) : List.Pairwise (fun a b => a < b) (intRange lo hi) := by
  unfold intRange
  exact List.Pairwise.map _ (fun a b hab => by omega) (List.pairwise_lt_range _)

/-- C11: the copy pass calls `readPixels` and `writePixels` once for each
`y` from `bounding_box.min.y` to `bounding_box.max.y`, in increasing order of
`y`, each write directly after the read of the same `y`; the number of scan
lines written is the height of the data window of the output header. -/
theorem autocrop_row_protocol (file : InputFile) (dw disp : Box2i) (cs : ChannelList)
    (hwf : source_wellFormed file dw disp cs) :
    ∃ bb out, get_bounding_box file = .ok bb ∧ autocrop file = .ok out ∧
      autocrop_events file =
        .ok (out, (intRange bb.min.y bb.max.y).flatMap
          fun y => [RowEvent.read y, RowEvent.write y]) ∧
      out.scanLines.map Prod.fst = intRange bb.min.y bb.max.y ∧
      List.Pairwise (fun a b => a < b) (intRange bb.min.y bb.max.y) ∧
      header_dataWindow out.header = .ok bb ∧
      (out.scanLines.length : Int) = bb.max.y - bb.min.y + 1 := by
  obtain ⟨h, e1, s1, e2⟩ := autocrop_ok file dw disp cs hwf
  obtain ⟨a1, _⟩ := cropped_header_accessors _ disp _ cs h s1
  obtain ⟨b1, b2, b3, b4, b5, b6⟩ :=
    bounding_box_of_bounds file dw cs hwf.1.2.2.2.1 hwf.1.2.2.2.2.1
  refine ⟨_, _, get_bounding_box_eq file dw disp cs hwf.1, e2, ?_, ?_,
    intRange_pairwise _ _, a1, ?_⟩
  · unfold autocrop_events
    simp only [get_bounding_box_eq file dw disp cs hwf.1, bind, Except.bind, e1]
    exact autocrop_copy_events_ok file dw disp cs _ h hwf.1 ⟨b1, b2, b3⟩ ⟨b4, b5, b6⟩ s1
  · simp only [cropped_file, List.map_map]
    conv_rhs => rw [← List.map_id (intRange _ _)]
    rfl
  · simp only [cropped_file, List.length_map, intRange_length]
    omega

theorem autocrop_row_protocol_witness :
    source_wellFormed scenario_tiled ⟨⟨-5, -3⟩, ⟨4, 6⟩⟩ ⟨⟨0, 0⟩, ⟨9, 9⟩⟩
      [("A", Channel.ofType .UINT), ("B", Channel.ofType .FLOAT)] ∧
    (autocrop_events scenario_tiled).toOption.map Prod.snd =
      some [RowEvent.read (-1), RowEvent.write (-1), RowEvent.read 0, RowEvent.write 0,
        RowEvent.read 1, RowEvent.write 1, RowEvent.read 2, RowEvent.write 2,
        RowEvent.read 3, RowEvent.write 3] ∧
    ∃ bb out, get_bounding_box scenario_tiled = .ok bb ∧
      autocrop scenario_tiled = .ok out ∧
      autocrop_events scenario_tiled =
        .ok (out, (intRange bb.min.y bb.max.y).flatMap
          fun y => [RowEvent.read y, RowEvent.write y]) ∧
      out.scanLines.map Prod.fst = intRange bb.min.y bb.max.y ∧
      List.Pairwise (fun a b => a < b) (intRange bb.min.y bb.max.y) ∧
      header_dataWindow out.header = .ok bb ∧
      (out.scanLines.length : Int) = bb.max.y - bb.min.y + 1 :=
  ⟨scenario_tiled_wellFormed, rfl,
    autocrop_row_protocol scenario_tiled _ _ _ scenario_tiled_wellFormed⟩

/-! ## Cropping a cropped image -/

theorem header_assign_names (h : Header) (n : String) (a : Attribute) :
    (header_assign h n a).map Prod.fst = h.map Prod.fst := by
  unfold header_assign
  rw [List.map_map]
  apply List.map_congr_left
  intro p _
  simp only [Function.comp]
  split <;> rfl

theorem header_insert_nodup (h h1 : Header) (n : String) (a : Attribute)
    (e : header_insert h n a = .ok h1) (hnd : (h.map Prod.fst).Nodup) :
    (h1.map Prod.fst).Nodup := by
  unfold header_insert at e
  split at e
  · cases e
  · cases hf : header_find h n with
    | none =>
      rw [hf] at e
      simp only [Except.ok.injEq] at e
      subst e
      rw [List.map_append, List.nodup_append]
      refine ⟨hnd, by simp, ?_⟩
      intro x hx hx2
      simp only [List.map_cons, List.map_nil, List.mem_singleton] at hx2
      subst hx2
      unfold header_find at hf
      rw [List.lookup_eq_none_iff] at hf
      simp only [List.mem_map] at hx
      obtain ⟨p, hp, hpe⟩ := hx
      have := hf p hp
      simp only [bne_iff_ne, ne_eq] at this
      exact this hpe.symm
    | some old =>
      rw [hf] at e
      simp only at e
      split at e
      · simp only [Except.ok.injEq] at e
        subst e
        rw [header_assign_names]
        exact hnd
      · cases e

theorem copy_attributes_nodup (src : Header) (h h1 : Header)
    (e : copy_attributes src h = .ok h1) (hnd : (h.map Prod.fst).Nodup) :
    (h1.map Prod.fst).Nodup := by
  unfold copy_attributes at e
  induction src generalizing h with
  | nil =>
    simp only [List.foldlM_nil, pure, Except.pure, Except.ok.injEq] at e
    subst e
    exact hnd
  | cons p src ih =>
    simp only [List.foldlM_cons, bind, Except.bind] at e
    by_cases hd : is_derived_key p.1 = true
    · simp only [hd, if_true, pure, Except.pure] at e
      exact ih h e hnd
    · simp only [hd, Bool.false_eq_true, if_false] at e
      cases hi : header_insert h p.1 p.2 with
      | error err => rw [hi] at e; cases e
      | ok h0 =>
        rw [hi] at e
        exact ih h0 e (header_insert_nodup h h0 _ _ hi hnd)

theorem copy_channels_nodup (cs : ChannelList) (h h1 : Header) (m n : Nat)
    (e : cs.foldlM (fun (st : Header × Nat) i => do
        let cl ← header_channels st.1
        let cl ← chlist_insert cl i.1 (Channel.ofType .HALF)
        pure (header_assign st.1 "channels" (.chlist cl), st.2 + 1)) (h, m) = .ok (h1, n))
    (hnd : (h.map Prod.fst).Nodup) : (h1.map Prod.fst).Nodup := by
  induction cs generalizing h m with
  | nil =>
    simp only [List.foldlM_nil, pure, Except.pure, Except.ok.injEq, Prod.mk.injEq] at e
    rw [← e.1]
    exact hnd
  | cons c cs ih =>
    simp only [List.foldlM_cons, bind, Except.bind] at e
    cases hc : header_channels h with
    | error err => rw [hc] at e; cases e
    | ok cl =>
      rw [hc] at e
      simp only at e
      cases hi : chlist_insert cl c.1 (Channel.ofType .HALF) with
      | error err => rw [hi] at e; cases e
      | ok cl1 =>
        rw [hi] at e
        simp only [pure, Except.pure] at e
        exact ih _ _ e (by rw [header_assign_names]; exact hnd)

theorem header_create_nodup (disp bb : Box2i) :
    ((header_create disp bb).map Prod.fst).Nodup := by
  simp only [header_create, List.map_cons, List.map_nil]
  decide

theorem header_create_find_empty (disp bb : Box2i) :
    header_find (header_create disp bb) "" = none := rfl

theorem autocrop_header_nodup (file : InputFile) (bb : Box2i) (h : Header) (n : Nat)
    (e : autocrop_header file bb = .ok (h, n)) : (h.map Prod.fst).Nodup := by
  unfold autocrop_header at e
  simp only [bind, Except.bind] at e
  cases h1 : header_dataWindow file.header with
  | error err => rw [h1] at e; cases e
  | ok dw =>
    rw [h1] at e
    simp only at e
    cases h2 : header_displayWindow file.header with
    | error err => rw [h2] at e; cases e
    | ok disp =>
      rw [h2] at e
      simp only at e
      cases h3 : copy_attributes file.header (header_create disp bb) with
      | error err => rw [h3] at e; cases e
      | ok ha =>
        rw [h3] at e
        simp only at e
        have hnda := copy_attributes_nodup _ _ _ h3 (header_create_nodup disp bb)
        cases h4 : header_channels file.header with
        | error err => rw [h4] at e; cases e
        | ok cs =>
          rw [h4] at e
          simp only at e
          cases h5 : copy_channels cs ha with
          | error err => rw [h5] at e; cases e
          | ok p =>
            obtain ⟨hb, m⟩ := p
            rw [h5] at e
            simp only at e
            have hndb := copy_channels_nodup cs ha hb 0 m h5 hnda
            cases h6 : header_compression hb with
            | error err => rw [h6] at e; cases e
            | ok c =>
              rw [h6] at e
              simp only [pure, Except.pure, Except.ok.injEq, Prod.mk.injEq] at e
              rw [← e.1, header_assign_names]
              exact hndb

theorem header_create_ok (disp bb : Box2i) (k : String) (a : Attribute)
    (h : header_find (header_create disp bb) k = some a) : attribute_ok a = true := by
  simp only [header_create, header_find_cons] at h
  split_ifs at h with h1 h2 h3 h4 h5 h6 h7 h8
  all_goals first
    | (simp only [Option.some.injEq] at h; subst h; rfl)
    | (simp [header_find] at h)

theorem cropped_header_wellFormed (src : Header) (disp bb : Box2i) (cs : ChannelList)
    (h : Header) (hsrc : header_wellFormed src) (hnd : (h.map Prod.fst).Nodup)
    (hspec : ∀ k, header_find h k = cropped_header_find src disp bb cs k) :
    header_wellFormed h := by
  obtain ⟨_, hne, hpre, hok⟩ := hsrc
  have hsrc_empty : header_find src "" = none := by
    cases hf : header_find src "" with
    | none => rfl
    | some a => exact absurd rfl (hne _ (lookup_mem _ _ _ hf))
  refine ⟨hnd, ?_, ?_, ?_⟩
  · intro p hp he
    have hl : header_find h p.1 = some p.2 := nodup_lookup _ p hnd hp
    rw [hspec, he] at hl
    unfold cropped_header_find at hl
    rw [if_neg (by decide), if_neg (by decide), if_neg (by decide), hsrc_empty] at hl
    simp only at hl
    rw [header_create_find_empty] at hl
    cases hl
  · intro q hq
    have hq0 := hpre q hq
    simp only [predefined_types, List.mem_cons, List.mem_singleton, List.not_mem_nil,
      or_false] at hq
    rw [hspec]
    unfold cropped_header_find
    rcases hq with rfl | rfl | rfl | rfl | rfl | rfl | rfl | rfl
    · rw [if_neg (by decide), if_neg (by decide), if_pos (by decide)]; rfl
    · rw [if_neg (by decide), if_neg (by decide), if_pos (by decide)]; rfl
    · rw [if_neg (by decide), if_neg (by decide), if_neg (by decide)]
      simp only at hq0
      cases hf : header_find src "pixelAspectRatio" with
      | none => rw [hf] at hq0; simp at hq0
      | some a => rw [hf] at hq0; exact hq0
    · rw [if_neg (by decide), if_neg (by decide), if_neg (by decide)]
      simp only at hq0
      cases hf : header_find src "screenWindowCenter" with
      | none => rw [hf] at hq0; simp at hq0
      | some a => rw [hf] at hq0; exact hq0
    · rw [if_neg (by decide), if_neg (by decide), if_neg (by decide)]
      simp only at hq0
      cases hf : header_find src "screenWindowWidth" with
      | none => rw [hf] at hq0; simp at hq0
      | some a => rw [hf] at hq0; exact hq0
    · rw [if_neg (by decide), if_neg (by decide), if_pos (by decide)]; rfl
    · rw [if_pos rfl]; rfl
    · rw [if_neg (by decide), if_pos rfl]; rfl
  · intro p hp
    have hl : header_find h p.1 = some p.2 := nodup_lookup _ p hnd hp
    rw [hspec] at hl
    unfold cropped_header_find at hl
    split_ifs at hl with h1 h2 h3
    · simp only [Option.some.injEq] at hl; rw [← hl]; rfl
    · simp only [Option.some.injEq] at hl; rw [← hl]; rfl
    · exact header_create_ok disp bb _ _ hl
    · cases hf : header_find src p.1 with
      | none => rw [hf] at hl; exact header_create_ok disp bb _ _ hl
      | some a =>
        rw [hf] at hl
        simp only [Option.some.injEq] at hl
        rw [← hl]
        exact hok _ (lookup_mem _ _ _ hf)

theorem reopen_pixels (file : InputFile) (dw bb : Box2i) (cs : ChannelList) (h : Header)
    (hdw : header_dataWindow h = .ok bb) (hnd : (cs.map Prod.fst).Nodup)
    (c : String × Channel) (hc : c ∈ cs) (x y : Int)
    (hx : bb.min.x ≤ x ∧ x ≤ bb.max.x) (hy : bb.min.y ≤ y ∧ y ≤ bb.max.y) :
    (reopen (cropped_file file dw bb cs h)).pixels c.1 x y = file.pixels c.1 x y := by
  simp only [reopen]
  rw [cropped_file_sample file dw bb cs h hdw hnd c hc x y,
    if_pos ⟨hx.1, hx.2, hy.1, hy.2⟩]
  rfl

theorem half_channels_wellFormed (cs : ChannelList) (hcs : channels_wellFormed cs) :
    channels_wellFormed (cs.map fun c => (c.1, Channel.ofType .HALF)) := by
  obtain ⟨hnd, hne, _⟩ := hcs
  refine ⟨?_, ?_, ?_⟩
  · rw [List.map_map]
    exact hnd
  · intro c hc
    simp only [List.mem_map] at hc
    obtain ⟨d, hd, rfl⟩ := hc
    exact hne d hd
  · intro c hc
    simp only [List.mem_map] at hc
    obtain ⟨d, hd, rfl⟩ := hc
    exact ⟨rfl, rfl⟩

theorem reopen_wellFormed (file : InputFile) (dw disp bb : Box2i) (cs : ChannelList)
    (h : Header) (hwf : source_wellFormed file dw disp cs)
    (hnd : (h.map Prod.fst).Nodup)
    (hspec : ∀ k, header_find h k = cropped_header_find file.header disp bb cs k)
    (hbx : bb.min.x ≤ bb.max.x) (hby : bb.min.y ≤ bb.max.y) :
    source_wellFormed (reopen (cropped_file file dw bb cs h)) bb disp
      (cs.map fun c => (c.1, Channel.ofType .HALF)) := by
  obtain ⟨a1, a2, _, _, a5, _⟩ := cropped_header_accessors _ disp bb cs h hspec
  exact ⟨⟨a1, a2, a5, hbx, hby, half_channels_wellFormed cs hwf.1.2.2.2.2.2⟩,
    cropped_header_wellFormed _ disp bb cs h hwf.2 hnd hspec⟩

theorem occupied_reopen (file : InputFile) (dw bb : Box2i) (cs : ChannelList) (h : Header)
    (hdw : header_dataWindow h = .ok bb) (hnd : (cs.map Prod.fst).Nodup) (x y : Int) :
    occupied (reopen (cropped_file file dw bb cs h)) bb
        (cs.map fun c => (c.1, Channel.ofType .HALF)) x y ↔
      bb.min.x ≤ x ∧ x ≤ bb.max.x ∧ bb.min.y ≤ y ∧ y ≤ bb.max.y ∧
        ∃ c ∈ cs, nonzero_at file c.1 x y := by
  unfold occupied nonzero_at
  constructor
  · rintro ⟨h1, h2, h3, h4, c, hc, hn⟩
    simp only [List.mem_map] at hc
    obtain ⟨d, hd, rfl⟩ := hc
    refine ⟨h1, h2, h3, h4, d, hd, ?_⟩
    rw [← reopen_pixels file dw bb cs h hdw hnd d hd x y ⟨h1, h2⟩ ⟨h3, h4⟩]
    exact hn
  · rintro ⟨h1, h2, h3, h4, d, hd, hn⟩
    refine ⟨h1, h2, h3, h4, (d.1, Channel.ofType .HALF), List.mem_map_of_mem _ hd, ?_⟩
    simp only
    rw [reopen_pixels file dw bb cs h hdw hnd d hd x y ⟨h1, h2⟩ ⟨h3, h4⟩]
    exact hn

theorem bounding_box_reopen (file : InputFile) (dw : Box2i) (cs : ChannelList) (h : Header)
    (hx : dw.min.x ≤ dw.max.x) (hy : dw.min.y ≤ dw.max.y)
    (hdw : header_dataWindow h = .ok (bounding_box_of file dw cs).box)
    (hnd : (cs.map Prod.fst).Nodup) :
    (bounding_box_of (reopen (cropped_file file dw (bounding_box_of file dw cs).box cs h))
        (bounding_box_of file dw cs).box
        (cs.map fun c => (c.1, Channel.ofType .HALF))).box =
      (bounding_box_of file dw cs).box := by
  obtain ⟨b1, b2, b3, b4, b5, b6⟩ := bounding_box_of_bounds file dw cs hx hy
  by_cases hex : ∃ x y, occupied file dw cs x y
  · have hbw := (bounding_box_of_occupied file dw cs hex).2
    have hto : ∀ x y, occupied file dw cs x y →
        occupied (reopen (cropped_file file dw (bounding_box_of file dw cs).box cs h))
          (bounding_box_of file dw cs).box
          (cs.map fun c => (c.1, Channel.ofType .HALF)) x y := by
      intro x y ho
      rw [occupied_reopen file dw _ cs h hdw hnd]
      obtain ⟨⟨_, a1⟩, ⟨_, a2⟩, ⟨_, a3⟩, ⟨_, a4⟩⟩ := hbw
      exact ⟨a1 x y ho, a2 x y ho, a3 x y ho, a4 x y ho, ho.2.2.2.2⟩
    have hin : ∀ x y,
        occupied (reopen (cropped_file file dw (bounding_box_of file dw cs).box cs h))
          (bounding_box_of file dw cs).box
          (cs.map fun c => (c.1, Channel.ofType .HALF)) x y →
        (bounding_box_of file dw cs).box.min.x ≤ x ∧ x ≤ (bounding_box_of file dw cs).box.max.x ∧
        (bounding_box_of file dw cs).box.min.y ≤ y ∧
        y ≤ (bounding_box_of file dw cs).box.max.y := by
      intro x y ho
      exact ⟨ho.1, ho.2.1, ho.2.2.1, ho.2.2.2.1⟩
    have hex1 : ∃ x y,
        occupied (reopen (cropped_file file dw (bounding_box_of file dw cs).box cs h))
          (bounding_box_of file dw cs).box
          (cs.map fun c => (c.1, Channel.ofType .HALF)) x y := by
      obtain ⟨x, y, ho⟩ := hex
      exact ⟨x, y, hto x y ho⟩
    refine IsBoundingWindow_unique _ _ _ _ _ (bounding_box_of_occupied _ _ _ hex1).2 ?_
    obtain ⟨⟨⟨y1, p1⟩, _⟩, ⟨⟨y2, p2⟩, _⟩, ⟨⟨x3, p3⟩, _⟩, ⟨⟨x4, p4⟩, _⟩⟩ := hbw
    exact ⟨⟨⟨y1, hto _ _ p1⟩, fun x y ho => (hin x y ho).1⟩,
      ⟨⟨y2, hto _ _ p2⟩, fun x y ho => (hin x y ho).2.1⟩,
      ⟨⟨x3, hto _ _ p3⟩, fun x y ho => (hin x y ho).2.2.1⟩,
      ⟨⟨x4, hto _ _ p4⟩, fun x y ho => (hin x y ho).2.2.2⟩⟩
  · have hno : ∀ x y, ¬ occupied file dw cs x y := fun x y ho => hex ⟨x, y, ho⟩
    have hno1 : ∀ x y,
        ¬ occupied (reopen (cropped_file file dw (bounding_box_of file dw cs).box cs h))
          (bounding_box_of file dw cs).box
          (cs.map fun c => (c.1, Channel.ofType .HALF)) x y := by
      intro x y ho
      rw [occupied_reopen file dw _ cs h hdw hnd] at ho
      obtain ⟨h1, h2, h3, h4, hc⟩ := ho
      exact hno x y ⟨by omega, by omega, by omega, by omega, hc⟩
    rw [(bounding_box_of_empty _ _ _ hno1).2, (bounding_box_of_empty file dw cs hno).2]
    rfl

theorem cropped_header_find_twice (src h : Header) (disp bb : Box2i) (cs : ChannelList)
    (hspec : ∀ k, header_find h k = cropped_header_find src disp bb cs k) (k : String) :
    cropped_header_find h disp bb (cs.map fun c => (c.1, Channel.ofType .HALF)) k =
      cropped_header_find src disp bb cs k := by
  unfold cropped_header_find
  by_cases h1 : k = "compression"
  · rw [if_pos h1, if_pos h1]
  · rw [if_neg h1, if_neg h1]
    by_cases h2 : k = "channels"
    · rw [if_pos h2, if_pos h2, List.map_map]
      rfl
    · rw [if_neg h2, if_neg h2]
      by_cases h3 : is_derived_key k = true
      · rw [if_pos h3, if_pos h3]
      · rw [if_neg h3, if_neg h3, hspec]
        unfold cropped_header_find
        rw [if_neg h1, if_neg h2, if_neg h3]
        cases hf : header_find src k with
        | some a => rfl
        | none =>
          simp only
          cases hg : header_find (header_create disp bb) k <;> rfl

theorem cropped_line_reopen (file : InputFile) (dw bb : Box2i) (cs : ChannelList)
    (h : Header) (hdw : header_dataWindow h = .ok bb) (hnd : (cs.map Prod.fst).Nodup)
    (y : Int) (hy : bb.min.y ≤ y ∧ y ≤ bb.max.y) :
    cropped_line (reopen (cropped_file file dw bb cs h)) bb
        (cs.map fun c => (c.1, Channel.ofType .HALF)) y =
      cropped_line file bb cs y := by
  unfold cropped_line
  rw [List.map_map]
  congr 1
  apply List.map_congr_left
  intro c hc
  simp only [Function.comp]
  congr 1
  apply List.map_congr_left
  intro x hx
  exact reopen_pixels file dw bb cs h hdw hnd c hc x y ((mem_intRange _ _ _).mp hx) hy

/-- C12: for an image whose bounding window is its data window, the output
of `autocrop` has the same data window and the same samples; and for every
image, running `autocrop` on its own output (read back) returns that output
again: the bounding window of the output is its whole data window, and the
header attributes and the scan lines of the second output are those of the
first. -/
theorem autocrop_idempotent (file : InputFile) (dw disp : Box2i) (cs : ChannelList)
    (hwf : source_wellFormed file dw disp cs) :
    (get_bounding_box file = .ok dw →
      ∃ out, autocrop file = .ok out ∧ header_dataWindow out.header = .ok dw ∧
        ∀ c ∈ cs, ∀ x y, dw.min.x ≤ x → x ≤ dw.max.x → dw.min.y ≤ y → y ≤ dw.max.y →
          outputfile_sample out c.1 x y = some (file.pixels c.1 x y)) ∧
    ∃ bb out out2, autocrop file = .ok out ∧ header_dataWindow out.header = .ok bb ∧
      get_bounding_box (reopen out) = .ok bb ∧
      autocrop (reopen out) = .ok out2 ∧
      (∀ k, header_find out2.header k = header_find out.header k) ∧
      out2.scanLines = out.scanLines ∧
      ∀ name x y, outputfile_sample out2 name x y = outputfile_sample out name x y := by
  obtain ⟨h, e1, s1, e2⟩ := autocrop_ok file dw disp cs hwf
  obtain ⟨a1, _⟩ := cropped_header_accessors _ disp _ cs h s1
  have hcnd : (cs.map Prod.fst).Nodup := hwf.1.2.2.2.2.2.1
  have hx := hwf.1.2.2.2.1
  have hy := hwf.1.2.2.2.2.1
  obtain ⟨b1, b2, b3, b4, b5, b6⟩ := bounding_box_of_bounds file dw cs hx hy
  constructor
  · intro hbb
    rw [get_bounding_box_eq file dw disp cs hwf.1] at hbb
    simp only [Except.ok.injEq] at hbb
    refine ⟨_, e2, ?_, ?_⟩
    · show header_dataWindow h = _
      rw [a1, hbb]
    · intro c hc x y h1 h2 h3 h4
      rw [cropped_file_sample file dw _ cs h a1 hcnd c hc x y, hbb,
        if_pos ⟨h1, h2, h3, h4⟩]
  · have hnd := autocrop_header_nodup file _ h _ e1
    have hwf2 := reopen_wellFormed file dw disp _ cs h hwf hnd s1 b2 b5
    have hbox := bounding_box_reopen file dw cs h hx hy a1 hcnd
    obtain ⟨h2, _, s2, e3⟩ := autocrop_ok _ _ disp _ hwf2
    rw [hbox] at s2 e3
    have hk : ∀ k, header_find h2 k = header_find h k := by
      intro k
      rw [s2, s1]
      exact cropped_header_find_twice file.header h disp _ cs s1 k
    have hsl : (cropped_file (reopen (cropped_file file dw (bounding_box_of file dw cs).box cs h))
          (bounding_box_of file dw cs).box (bounding_box_of file dw cs).box
          (cs.map fun c => (c.1, Channel.ofType .HALF)) h2).scanLines =
        (cropped_file file dw (bounding_box_of file dw cs).box cs h).scanLines := by
      simp only [cropped_file]
      apply List.map_congr_left
      intro y hy1
      exact cropped_line_reopen file dw _ cs h a1 hcnd y ((mem_intRange _ _ _).mp hy1)
    refine ⟨_, _, _, e2, a1, ?_, e3, hk, hsl, ?_⟩
    · rw [get_bounding_box_eq _ _ disp _ hwf2.1, hbox]
    · intro name x y
      unfold outputfile_sample header_dataWindow
      rw [hsl]
      have := hk "dataWindow"
      simp only [cropped_file] at this ⊢
      rw [this]

theorem autocrop_idempotent_witness :
    source_wellFormed scenario_tight ⟨⟨1, 1⟩, ⟨2, 2⟩⟩ ⟨⟨0, 0⟩, ⟨9, 9⟩⟩
      [("R", Channel.ofType .HALF)] ∧
    get_bounding_box scenario_tight = .ok ⟨⟨1, 1⟩, ⟨2, 2⟩⟩ ∧
    (∃ out, autocrop scenario_tight = .ok out ∧
      header_dataWindow out.header = .ok ⟨⟨1, 1⟩, ⟨2, 2⟩⟩ ∧
      ∀ c ∈ [("R", Channel.ofType .HALF)],
        ∀ x y, (1 : Int) ≤ x → x ≤ 2 → (1 : Int) ≤ y → y ≤ 2 →
          outputfile_sample out c.1 x y = some (scenario_tight.pixels c.1 x y)) ∧
    ∃ bb out out2, autocrop scenario_tight = .ok out ∧
      header_dataWindow out.header = .ok bb ∧
      get_bounding_box (reopen out) = .ok bb ∧
      autocrop (reopen out) = .ok out2 ∧
      (∀ k, header_find out2.header k = header_find out.header k) ∧
      out2.scanLines = out.scanLines ∧
      ∀ name x y, outputfile_sample out2 name x y = outputfile_sample out name x y :=
  have hwf : source_wellFormed scenario_tight ⟨⟨1, 1⟩, ⟨2, 2⟩⟩ ⟨⟨0, 0⟩, ⟨9, 9⟩⟩
      [("R", Channel.ofType .HALF)] :=
    ⟨scenario_wellFormed _ _ _ _ (by decide) (by decide)
      (by simp [channels_wellFormed, Channel.ofType]),
      by decide, by decide, by decide, by decide⟩
  ⟨hwf, rfl, (autocrop_idempotent scenario_tight _ _ _ hwf).1 rfl,
    (autocrop_idempotent scenario_tight _ _ _ hwf).2⟩

end ExrAutocrop
